import Mathlib

/-!
# DBF reader: field decoder, record scanner, batch loop

A shallow embedding of `src/dbf_reader.cpp` and of the batch loop and the type
mapping of `src/read_dbf_extension.cpp`.  Bytes are natural numbers (a byte read from a
file is below 256), strings are lists of bytes, the file handle is a byte list
with a position, and every C++ exception or undefined read is an explicit
`Fault`.
-/

namespace Dbf

/-! ## Data model -/

/-- Ways a call can fail instead of returning. -/
inductive Fault where
  /-- A read asked for more bytes than the file holds at the position. -/
  | shortRead
  /-- The record buffer `std::vector<uint8_t>(m_uRecordSize - 1)` cannot be
  allocated: `m_uRecordSize = 0` makes its size wrap around. -/
  | badAlloc
  /-- `std::string raw_val(record_data.data() + offset, field.length)` reaches
  past the end of `record_data`: undefined behaviour in the source. -/
  | overRead
  /-- The host's `Value(std::string)` constructor throws on a string it does not
  accept (line 106, outside any `try` block). -/
  | invalidString
  /-- The recursion budget of the model ran out. -/
  | outOfFuel
  deriving DecidableEq

deriving instance DecidableEq for Except

/-- Type codes of `enum class DbfType : uint8_t`; a field carries the raw byte
(`static_cast<DbfType>(chFieldType)`), so every byte value is a `DbfType`. -/
abbrev DbfType := Nat

def DbfType.CHARACTER : DbfType := 67
def DbfType.NUMERIC : DbfType := 78
def DbfType.LOGICAL : DbfType := 76
def DbfType.DATE : DbfType := 68
def DbfType.FLOAT : DbfType := 70
def DbfType.INTEGER : DbfType := 73
def DbfType.MEMO : DbfType := 77
def DbfType.TIMESTAMP : DbfType := 64
def DbfType.DOUBLE : DbfType := 79
def DbfType.BINARY : DbfType := 66
def DbfType.INVALID : DbfType := 0

/-- The struct `DbfField`. -/
structure DbfField where
  name : List Nat
  type : DbfType
  length : Nat
  decimal_count : Nat
  deriving DecidableEq

/-- The fields of `DbfHeader` that the reader uses. -/
structure DbfHeader where
  m_uNumRecords : Nat
  m_uFirstRecordOffset : Nat
  m_uRecordSize : Nat
  deriving DecidableEq

/-- The host's `Value`: what `SetValue` stores in one cell.  A double is kept as
its 64-bit pattern. -/
inductive Value where
  | null
  | INTEGER (v : Int)
  | DOUBLE (bits : Nat)
  | BIGINT (v : Int)
  | BOOLEAN (b : Bool)
  | DATE (year month day : Int)
  | VARCHAR (s : List Nat)
  deriving DecidableEq

/-- One row of the output chunk: one cell per column. -/
abbrev Row := List Value

/-! ## Standard-library string helpers used by the decoder -/

/-- The call `s.find_first_not_of(c)`: index of the first byte different from
`c`, `none` for `npos`. -/
def find_first_not_of (s : List Nat) (c : Nat) : Option Nat :=
  if s.findIdx (fun b => b != c) < s.length then some (s.findIdx (fun b => b != c)) else none

/-- The call `s.find_last_not_of(c)`: index of the last byte different from
`c`, `none` for `npos`. -/
def find_last_not_of (s : List Nat) (c : Nat) : Option Nat :=
  if s.reverse.findIdx (fun b => b != c) < s.length
  then some (s.length - 1 - s.reverse.findIdx (fun b => b != c)) else none

/-- The call `s.substr(pos, n)` for `pos <= s.size()`; also the bytes
`[pos, pos + n)` of a buffer. -/
def substr (s : List Nat) (pos n : Nat) : List Nat :=
  (s.drop pos).take n

/-- The C `isspace` in the default locale. -/
def isspace (b : Nat) : Bool :=
  b == 32 || b == 9 || b == 10 || b == 11 || b == 12 || b == 13

/-- The C `isdigit`. -/
def isdigit (b : Nat) : Bool :=
  decide (48 ≤ b) && decide (b ≤ 57)

/-- Value of a run of decimal digits. -/
def digitsValue (ds : List Nat) : Nat :=
  ds.foldl (fun acc d => acc * 10 + (d - 48)) 0

/-- Base-10 `strtoll` scan shared by `std::stoll` and `std::stoi`: skip leading
white space, take an optional sign, then the longest run of digits; what
follows the digits is ignored.  `none` when there is no digit
(`std::invalid_argument`). -/
def scanInteger (s : List Nat) : Option Int :=
  let s1 := s.dropWhile isspace
  let neg := s1.head? == some 45
  let s2 := if s1.head? == some 45 || s1.head? == some 43 then s1.tail else s1
  let ds := s2.takeWhile isdigit
  if ds.isEmpty then none
  else some (if neg then - (digitsValue ds : Int) else (digitsValue ds : Int))

/-- The call `std::stoll(s)`: `none` stands for a thrown `std::invalid_argument`
or `std::out_of_range` (result outside the signed 64-bit range). -/
def stoll (s : List Nat) : Option Int :=
  match scanInteger s with
  | none => none
  | some v => if -(2 : Int) ^ 63 ≤ v ∧ v < (2 : Int) ^ 63 then some v else none

/-- The call `std::stoi(s)`: as `stoll`, with the signed 32-bit range. -/
def stoi (s : List Nat) : Option Int :=
  match scanInteger s with
  | none => none
  | some v => if -(2 : Int) ^ 31 ≤ v ∧ v < (2 : Int) ^ 31 then some v else none

/-! ## Host helpers -/

/-- Modelled from the spec: the host's leap-year test behind `Value::DATE`
(the host engine is not part of this repository). -/
def Date.IsLeapYear (year : Int) : Bool :=
  year % 4 == 0 && (year % 100 != 0 || year % 400 == 0)

/-- Modelled from the spec: the host's "valid calendar date" test behind
`Value::DATE(year, month, day)`, which throws on an invalid date (the host
engine is not part of this repository).  Years that four characters can spell
are far inside the host's supported range. -/
def Date.IsValid (year month day : Int) : Bool :=
  if month < 1 ∨ month > 12 then false
  else if day < 1 then false
  else if month = 2 then (if Date.IsLeapYear year then decide (day ≤ 29) else decide (day ≤ 28))
  else if month = 4 ∨ month = 6 ∨ month = 9 ∨ month = 11 then decide (day ≤ 30)
  else decide (day ≤ 31)

/-- The call `Load<int32_t>(record_data.data() + offset)` on a little-endian
host: the four bytes at `offset` as a two-complement 32-bit integer. -/
def LoadInt32 (record_data : List Nat) (offset : Nat) : Int :=
  let u := record_data.getD offset 0 + 256 * record_data.getD (offset + 1) 0
    + 65536 * record_data.getD (offset + 2) 0 + 16777216 * record_data.getD (offset + 3) 0
  if u < 2147483648 then (u : Int) else (u : Int) - 4294967296

/-- The call `Load<double>(record_data.data() + offset)` on a little-endian
host: the bit pattern made of the eight bytes at `offset`. -/
def LoadDouble (record_data : List Nat) (offset : Nat) : Nat :=
  ((List.range 8).map (fun i => 256 ^ i * record_data.getD (offset + i) 0)).sum

/-- The two calls of the decoder into the C++ library and the host (neither is
code of this repository), taken as parameters: `stod val` stands for
`Value::DOUBLE(std::stod(val))`, the bit pattern of the parsed double or `none`
when the call throws; `StringIsValid val` is the check of the host's
`Value(std::string)` constructor, which throws when `val` fails it (a string
that is not valid UTF-8). -/
structure Host where
  stod : List Nat → Option Nat
  StringIsValid : List Nat → Bool

/-! ## Field decoder (the body of the column loop of `ReadNextRecord`) -/

/-- The `switch (field.type)` of `ReadNextRecord` (lines 104-149) on the
trimmed string `val`.  The NUMERIC, FLOAT and DATE cases catch what their
calls throw and store null; the CHARACTER case builds `Value(val)` outside
any `try` block, so a string that the host does not accept makes the call
fail. -/
def decodeSwitch (host : Host) (field : DbfField) (val : List Nat) : Except Fault Value :=
  if field.type = DbfType.CHARACTER then
    if host.StringIsValid val then Except.ok (Value.VARCHAR val)
    else Except.error Fault.invalidString
  else if field.type = DbfType.NUMERIC ∨ field.type = DbfType.FLOAT then
    if field.decimal_count > 0 then
      match host.stod val with
      | some d => Except.ok (Value.DOUBLE d)
      | none => Except.ok Value.null
    else
      match stoll val with
      | some n => Except.ok (Value.BIGINT n)
      | none => Except.ok Value.null
  else if field.type = DbfType.LOGICAL then
    if val = [84] then Except.ok (Value.BOOLEAN true)
    else if val = [70] then Except.ok (Value.BOOLEAN false)
    else Except.ok Value.null
  else if field.type = DbfType.DATE then
    if val.length = 8 then
      match stoi (substr val 0 4), stoi (substr val 4 2), stoi (substr val 6 2) with
      | some year, some month, some day =>
        if Date.IsValid year month day then Except.ok (Value.DATE year month day)
        else Except.ok Value.null
      | _, _, _ => Except.ok Value.null
    else Except.ok Value.null
  else Except.ok Value.null

/-- Lines 95-149 of `ReadNextRecord`: trim `raw_val` (null when it holds no
byte other than a space) and decode the trimmed string by field type. -/
def decodeRaw (host : Host) (field : DbfField) (raw_val : List Nat) : Except Fault Value :=
  match find_first_not_of raw_val 32 with
  | none => Except.ok Value.null
  | some first =>
    decodeSwitch host field
      (substr raw_val first ((find_last_not_of raw_val 32).getD 0 - first + 1))

/-- One iteration of the column loop (lines 70-149): the cell written for
`field` when decoding starts at `offset`, and the offset after the field.
The offset is advanced on every path; it is an `idx_t` and stays far below
`2^64` (a field adds at most 255). -/
def decodeField (host : Host) (field : DbfField) (record_data : List Nat)
    (offset : Nat) : Except Fault Value × Nat :=
  if field.type = DbfType.INTEGER then
    (if offset + 4 ≤ record_data.length
      then Except.ok (Value.INTEGER (LoadInt32 record_data offset))
      else Except.ok Value.null,
     offset + 4)
  else if field.type = DbfType.DOUBLE then
    (if offset + 8 ≤ record_data.length
      then Except.ok (Value.DOUBLE (LoadDouble record_data offset))
      else Except.ok Value.null,
     offset + 8)
  else
    (if offset + field.length ≤ record_data.length
      then decodeRaw host field (substr record_data offset field.length)
      else Except.error Fault.overRead,
     offset + field.length)

/-- The column loop (lines 68-150) from a given offset: the cells of the
columns in schema order. -/
def decodeCells (host : Host) :
    List DbfField → List Nat → Nat → List (Except Fault Value)
  | [], _, _ => []
  | field :: rest, record_data, offset =>
    (decodeField host field record_data offset).1
      :: decodeCells host rest record_data (decodeField host field record_data offset).2

/-- The row decoded from one record buffer: the column loop from offset 0.  The
first undefined read, or the first exception that nothing catches, ends the
call: there is no row. -/
def decodeRow (host : Host) (fields : List DbfField) (record_data : List Nat) :
    Except Fault Row :=
  (decodeCells host fields record_data 0).mapM id

/-! ## Bytes read by the column loop -/

/-- The bytes of `record_data` that one iteration of the column loop reads, as
`(first index, count)`: the `Load` of lines 74 and 84 happens only behind its
size check, the `std::string raw_val(...)` of line 92 always. -/
def readRange (field : DbfField) (record_data : List Nat) (offset : Nat) : Option (Nat × Nat) :=
  if field.type = DbfType.INTEGER then
    (if offset + 4 ≤ record_data.length then some (offset, 4) else none)
  else if field.type = DbfType.DOUBLE then
    (if offset + 8 ≤ record_data.length then some (offset, 8) else none)
  else some (offset, field.length)

/-- The offset after one iteration of the column loop (lines 79, 89 and 93). -/
def nextOffset (field : DbfField) (offset : Nat) : Nat :=
  if field.type = DbfType.INTEGER then offset + 4
  else if field.type = DbfType.DOUBLE then offset + 8
  else offset + field.length

/-- The byte ranges of `record_data` read by the column loop from a given
offset, in schema order. -/
def readRanges : List DbfField → List Nat → Nat → List (Nat × Nat)
  | [], _, _ => []
  | field :: rest, record_data, offset =>
    (readRange field record_data offset).toList
      ++ readRanges rest record_data (nextOffset field offset)

/-! ## File handle -/

/-- The open file: its bytes and the current position. -/
structure FileHandle where
  data : List Nat
  pos : Nat
  deriving DecidableEq

/-- Modelled from the spec: the file-system primitive `handle->Read(buf, n)`
(given by the host, not part of this repository).  It delivers the `n` bytes
at the position and advances; a short read is a failure of the scan. -/
def FileHandle.Read (h : FileHandle) (n : Nat) : Option (List Nat × FileHandle) :=
  if h.pos + n ≤ h.data.length
  then some (substr h.data h.pos n, { h with pos := h.pos + n })
  else none

/-- Modelled from the spec: the file-system primitive `handle->Seek(p)` (given by
the host, not part of this repository): absolute positioning. -/
def FileHandle.Seek (h : FileHandle) (p : Nat) : FileHandle :=
  { h with pos := p }

/-! ## Reader state, header and schema parser -/

/-- The mutable members of `DbfReader`. -/
structure DbfReader where
  handle : FileHandle
  header : DbfHeader
  fields : List DbfField
  current_record : Nat
  deriving DecidableEq

/-- Little-endian unsigned integer made of the bytes `bs`. -/
def leNat : List Nat → Nat
  | [] => 0
  | b :: bs => b + 256 * leNat bs

/-- The 32 header bytes seen through the layout of `struct DbfHeader`:
`m_uNumRecords` at bytes 4-7, `m_uFirstRecordOffset` at 8-9, `m_uRecordSize`
at 10-11. -/
def parseHeader (buf : List Nat) : DbfHeader :=
  { m_uNumRecords := leNat (substr buf 4 4)
    m_uFirstRecordOffset := leNat (substr buf 8 2)
    m_uRecordSize := leNat (substr buf 10 2) }

/-- Lines 33-39 of `ReadHeader`: a 32-byte `DbfRecord` turned into a
`DbfField`.  The name is the 11 name bytes up to the first NUL. -/
def parseField (field_buf : List Nat) : DbfField :=
  { name := (substr field_buf 0 11).takeWhile (fun b => b != 0)
    type := field_buf.getD 11 0
    length := field_buf.getD 16 0
    decimal_count := field_buf.getD 17 0 }

/-- The loop bound `header.m_uFirstRecordOffset - 1` of `ReadHeader` as the
`idx_t` it is compared with: the subtraction is done in `int`, and `-1`
converts to `2^64 - 1`. -/
def fieldTableBound (header : DbfHeader) : Nat :=
  if header.m_uFirstRecordOffset = 0 then 2 ^ 64 - 1 else header.m_uFirstRecordOffset - 1

/-- The `while` loop of `ReadHeader` (lines 25-43).  Each turn consumes 32 bytes
of the file, so `data.length + 1` turns of budget are always enough. -/
def readFields : Nat → FileHandle → Nat → Nat → List DbfField →
    Except Fault (FileHandle × List DbfField)
  | 0, _, _, _, _ => Except.error Fault.outOfFuel
  | fuel + 1, handle, bound, field_pos, fields =>
    if field_pos < bound then
      match handle.Read 32 with
      | none => Except.error Fault.shortRead
      | some (field_buf, handle1) =>
        if field_buf.getD 0 0 = 13 ∨ field_buf.getD 0 0 = 26 then Except.ok (handle1, fields)
        else readFields fuel handle1 bound (field_pos + 32) (fields ++ [parseField field_buf])
    else Except.ok (handle, fields)

/-- The method `DbfReader::ReadHeader`. -/
def DbfReader.ReadHeader (r : DbfReader) : Except Fault DbfReader :=
  match r.handle.Read 32 with
  | none => Except.error Fault.shortRead
  | some (buf, handle1) =>
    match readFields (r.handle.data.length + 1) handle1 (fieldTableBound (parseHeader buf)) 32
        r.fields with
    | Except.error e => Except.error e
    | Except.ok (handle2, fields) =>
      Except.ok { r with handle := handle2, header := parseHeader buf, fields := fields }

/-- The constructor followed by `DbfReader::Open` on a file with the given
bytes. -/
def DbfReader.Open (file : List Nat) : Except Fault DbfReader :=
  DbfReader.ReadHeader
    { handle := { data := file, pos := 0 }
      header := { m_uNumRecords := 0, m_uFirstRecordOffset := 0, m_uRecordSize := 0 }
      fields := []
      current_record := 0 }

/-! ## Record scanner and batch loop -/

/-- The effect of the `SetValue` calls of one decoded record on the chunk: row
slot `output_idx` now holds `row`.  The chunk is the list of its row slots. -/
def setRow (output : List Row) (output_idx : Nat) (row : Row) : List Row :=
  output.take output_idx ++ row :: output.drop (output_idx + 1)

/-- The method `DbfReader::ReadNextRecord` with a budget for the recursive call
of line 65.  The result is the returned flag, the reader, the chunk and
`output_idx`. -/
def ReadNextRecordAux (host : Host) :
    Nat → DbfReader → List Row → Nat → Except Fault (Bool × DbfReader × List Row × Nat)
  | 0, _, _, _ => Except.error Fault.outOfFuel
  | fuel + 1, r, output, output_idx =>
    if r.current_record ≥ r.header.m_uNumRecords then Except.ok (false, r, output, output_idx)
    else
      match (r.handle.Seek (r.header.m_uFirstRecordOffset
          + r.current_record * r.header.m_uRecordSize)).Read 1 with
      | none => Except.error Fault.shortRead
      | some (delete_flag, handle1) =>
        if r.header.m_uRecordSize = 0 then Except.error Fault.badAlloc
        else
          match handle1.Read (r.header.m_uRecordSize - 1) with
          | none => Except.error Fault.shortRead
          | some (record_data, handle2) =>
            if delete_flag = [42] then
              ReadNextRecordAux host fuel
                { r with handle := handle2, current_record := r.current_record + 1 }
                output output_idx
            else
              match decodeRow host r.fields record_data with
              | Except.error e => Except.error e
              | Except.ok row =>
                Except.ok (true,
                  { r with handle := handle2, current_record := r.current_record + 1 },
                  setRow output output_idx row, output_idx + 1)

/-- The method `DbfReader::ReadNextRecord`.  Every recursive call has advanced
`current_record`, so `m_uNumRecords - current_record + 1` calls are enough. -/
def DbfReader.ReadNextRecord (host : Host) (r : DbfReader)
    (output : List Row) (output_idx : Nat) : Except Fault (Bool × DbfReader × List Row × Nat) :=
  ReadNextRecordAux host (r.header.m_uNumRecords - r.current_record + 1) r output output_idx

/-- The `while` loop of `ReadDbfFunction` (lines 72-76), with `max_rows` for
`STANDARD_VECTOR_SIZE`.  Every turn that does not leave the loop adds a row. -/
def ReadDbfLoop (host : Host) (max_rows : Nat) :
    Nat → DbfReader → List Row → Nat → Except Fault (DbfReader × List Row × Nat)
  | 0, r, output, output_idx =>
    if output_idx < max_rows then Except.error Fault.outOfFuel
    else Except.ok (r, output, output_idx)
  | fuel + 1, r, output, output_idx =>
    if output_idx < max_rows then
      match DbfReader.ReadNextRecord host r output output_idx with
      | Except.error e => Except.error e
      | Except.ok (false, r1, output1, output_idx1) => Except.ok (r1, output1, output_idx1)
      | Except.ok (true, r1, output1, output_idx1) =>
        ReadDbfLoop host max_rows fuel r1 output1 output_idx1
    else Except.ok (r, output, output_idx)

/-- The function `ReadDbfFunction` on an empty chunk: the reader afterwards and
the rows of the chunk, cut at the cardinality `output_idx`. -/
def ReadDbfFunction (host : Host) (max_rows : Nat) (r : DbfReader) :
    Except Fault (DbfReader × List Row) :=
  match ReadDbfLoop host max_rows max_rows r [] 0 with
  | Except.error e => Except.error e
  | Except.ok (r1, output, output_idx) => Except.ok (r1, output.take output_idx)

/-! ## Type mapping of the table function -/

/-- The host's `LogicalType` values that the type mapping returns. -/
inductive LogicalType where
  | VARCHAR
  | DOUBLE
  | BIGINT
  | BOOLEAN
  | DATE
  | INTEGER
  deriving DecidableEq

/-- The function `DbfToLogicalType` of `read_dbf_extension.cpp` (lines 25-45):
the `switch (field.type)` with its `default` branch. -/
def DbfToLogicalType (field : DbfField) : LogicalType :=
  if field.type = DbfType.CHARACTER then LogicalType.VARCHAR
  else if field.type = DbfType.NUMERIC ∨ field.type = DbfType.FLOAT then
    if field.decimal_count > 0 then LogicalType.DOUBLE else LogicalType.BIGINT
  else if field.type = DbfType.LOGICAL then LogicalType.BOOLEAN
  else if field.type = DbfType.DATE then LogicalType.DATE
  else if field.type = DbfType.INTEGER then LogicalType.INTEGER
  else LogicalType.VARCHAR

/-- The host type of a value as its constructor fixes it (`Value::type()`),
`none` for the null value. -/
def Value.logicalType : Value → Option LogicalType
  | Value.null => none
  | Value.INTEGER _ => some LogicalType.INTEGER
  | Value.DOUBLE _ => some LogicalType.DOUBLE
  | Value.BIGINT _ => some LogicalType.BIGINT
  | Value.BOOLEAN _ => some LogicalType.BOOLEAN
  | Value.DATE _ _ _ => some LogicalType.DATE
  | Value.VARCHAR _ => some LogicalType.VARCHAR

/-! ## Notions of the specification -/

/-- The byte footprint of a field as the specification words it: 4 for INTEGER,
8 for DOUBLE, the declared length for every other type. -/
def footprint (field : DbfField) : Nat :=
  if field.type = DbfType.INTEGER then 4
  else if field.type = DbfType.DOUBLE then 8
  else field.length

/-- Space trimming as the specification words it: all leading and all trailing
0x20 bytes removed, the bytes between them unchanged. -/
def trimSpaces (s : List Nat) : List Nat :=
  (s.dropWhile (fun b => b == 32)).rdropWhile (fun b => b == 32)

/-- The bytes of record slot `i` of a file: `m_uRecordSize` bytes starting at
`m_uFirstRecordOffset + i * m_uRecordSize`, the liveness byte first. -/
def recordSlot (data : List Nat) (header : DbfHeader) (i : Nat) : List Nat :=
  substr data (header.m_uFirstRecordOffset + i * header.m_uRecordSize) header.m_uRecordSize

/-- The raw records (liveness byte removed) of the records `i` with
`c ≤ i < m_uNumRecords` whose liveness byte is not `'*'`, in file order. -/
def liveRecordsFrom (data : List Nat) (header : DbfHeader) (c : Nat) : List (List Nat) :=
  (((List.range' c (header.m_uNumRecords - c)).map (recordSlot data header)).filter
    (fun slot => slot.head? != some 42)).map List.tail

/-- The 32-byte field descriptor number `k` of a file: the bytes starting at
offset `32 + 32 * k`. -/
def descriptorAt (file : List Nat) (k : Nat) : List Nat :=
  substr file (32 + 32 * k) 32

/-- A descriptor whose first byte is one of the terminator codes 0x0D, 0x1A. -/
def isTerminator (descriptor : List Nat) : Bool :=
  descriptor.getD 0 0 == 13 || descriptor.getD 0 0 == 26

/-- The field of a descriptor as the specification words it: the name is the
first 11 bytes up to the first NUL, the type is byte 11, the length byte 16 and
the decimal count byte 17. -/
def descriptorField (descriptor : List Nat) : DbfField :=
  { name := (descriptor.take 11).takeWhile (fun b => b != 0)
    type := descriptor.getD 11 0
    length := descriptor.getD 16 0
    decimal_count := descriptor.getD 17 0 }

/-- The number of offsets 32, 64, 96, ... that are below
`first_record_offset - 1`. -/
def descriptorCount (first_record_offset : Nat) : Nat :=
  (first_record_offset - 2) / 32

/-- The schema as the specification words it: the descriptors at offsets 32,
64, 96, ... below `first_record_offset - 1` that precede the first terminator
descriptor, in file order, each turned into its field. -/
def schemaOf (file : List Nat) (first_record_offset : Nat) : List DbfField :=
  (((List.range (descriptorCount first_record_offset)).map (descriptorAt file)).takeWhile
    (fun descriptor => !isTerminator descriptor)).map descriptorField

/-- Successive batch fills, one call of `ReadDbfFunction` per element of
`limits` with that element as `max_rows`: the reader afterwards and the
concatenation of the batches. -/
def fillBatches (host : Host) :
    List Nat → DbfReader → Except Fault (DbfReader × List Row)
  | [], r => Except.ok (r, [])
  | max_rows :: limits, r =>
    match ReadDbfFunction host max_rows r with
    | Except.error e => Except.error e
    | Except.ok (r1, rows) =>
      match fillBatches host limits r1 with
      | Except.error e => Except.error e
      | Except.ok (r2, more) => Except.ok (r2, rows ++ more)

/-- One step of a scan for well-formed UTF-8 (table 3-7 of the Unicode
standard).  The state is `none` after an ill-formed byte, otherwise the number
of continuation bytes still due and the range allowed for the next of them. -/
def utf8Step (state : Option (Nat × Nat × Nat)) (b : Nat) : Option (Nat × Nat × Nat) :=
  match state with
  | none => none
  | some (0, _, _) =>
    if b < 128 then some (0, 128, 191)
    else if 194 ≤ b ∧ b ≤ 223 then some (1, 128, 191)
    else if b = 224 then some (2, 160, 191)
    else if (225 ≤ b ∧ b ≤ 236) ∨ b = 238 ∨ b = 239 then some (2, 128, 191)
    else if b = 237 then some (2, 128, 159)
    else if b = 240 then some (3, 144, 191)
    else if 241 ≤ b ∧ b ≤ 243 then some (3, 128, 191)
    else if b = 244 then some (3, 128, 143)
    else none
  | some (n + 1, lo, hi) => if lo ≤ b ∧ b ≤ hi then some (n, 128, 191) else none

/-- A byte string that is well-formed UTF-8: the scan ends with no continuation
byte due. -/
def utf8Valid (s : List Nat) : Bool :=
  match s.foldl utf8Step (some (0, 128, 191)) with
  | some (0, _, _) => true
  | _ => false

/-- The content of a field as the column loop sees it: for a CHARACTER field
whose bytes are not all spaces, whether the host accepts the trimmed bytes as a
string; `true` for every other field. -/
def stringAccepted (host : Host) (field : DbfField) (record_data : List Nat)
    (offset : Nat) : Bool :=
  if field.type = DbfType.CHARACTER then
    (substr record_data offset field.length).all (fun b => b == 32)
      || host.StringIsValid (trimSpaces (substr record_data offset field.length))
  else true

/-- The record buffer holds, in every CHARACTER field of the schema laid out
from `offset`, only spaces or a content that the host accepts as a string. -/
def stringsAccepted (host : Host) : List DbfField → List Nat → Nat → Bool
  | [], _, _ => true
  | field :: rest, record_data, offset =>
    stringAccepted host field record_data offset
      && stringsAccepted host rest record_data (offset + footprint field)

/-! ## A sample file -/

/-- A host for the examples: `std::stod` always throws, and the string check
accepts the well-formed UTF-8 byte sequences. -/
def sampleHost : Host :=
  { stod := fun _ => none
    StringIsValid := utf8Valid }


/-- A small table: one CHARACTER column `A` of length 2 and three records of 3
bytes, the second of them deleted.  Header (32 bytes), one field descriptor
(32 bytes), the terminator byte, then the records `" hi"`, `"*xx"`, `" yo"`. -/
def sampleFile : List Nat :=
  [3, 0, 0, 0, 3, 0, 0, 0, 65, 0, 3, 0] ++ List.replicate 20 0
    ++ ([65] ++ List.replicate 10 0 ++ [67, 0, 0, 0, 0, 2, 0] ++ List.replicate 14 0)
    ++ [13]
    ++ [32, 104, 105] ++ [42, 120, 120] ++ [32, 121, 111]

/-- The reader that `Open` returns on `sampleFile`. -/
def sampleReader : DbfReader :=
  { handle := { data := sampleFile, pos := 64 }
    header := { m_uNumRecords := 3, m_uFirstRecordOffset := 65, m_uRecordSize := 3 }
    fields := [{ name := [65], type := DbfType.CHARACTER, length := 2, decimal_count := 0 }]
    current_record := 0 }

/-! ## Theorems -/

/-! ### The column loop -/

theorem decodeField_snd (host : Host) (field : DbfField) (record_data : List Nat)
    (offset : Nat) : (decodeField host field record_data offset).2 = offset + footprint field := by
  unfold decodeField footprint
  split_ifs <;> rfl

theorem decodeCells_getElem? (host : Host) (record_data : List Nat) :
    ∀ (fields : List DbfField) (offset k : Nat),
      (decodeCells host fields record_data offset)[k]? =
        fields[k]?.map (fun field => (decodeField host field record_data
          (offset + ((fields.take k).map footprint).sum)).1)
  | [], offset, k => by simp [decodeCells]
  | field :: rest, offset, 0 => by simp [decodeCells]
  | field :: rest, offset, k + 1 => by
    simp only [decodeCells, List.getElem?_cons_succ, List.take_succ_cons, List.map_cons,
      List.sum_cons]
    rw [decodeCells_getElem? host record_data rest _ k, decodeField_snd, Nat.add_assoc]

theorem decodeCells_length (host : Host) (record_data : List Nat) :
    ∀ (fields : List DbfField) (offset : Nat),
      (decodeCells host fields record_data offset).length = fields.length
  | [], _ => rfl
  | _ :: rest, offset => by simp [decodeCells, decodeCells_length host record_data rest]

/-- C3: the cell of column `k` is decoded at the sum of the footprints of the
earlier fields (4 for INTEGER, 8 for DOUBLE, the declared length otherwise), and
every field advances the offset by its footprint whatever its cell is. -/
theorem C3_field_offset_is_sum_of_footprints (host : Host)
    (fields : List DbfField) (record_data : List Nat) :
    (∀ k, (decodeCells host fields record_data 0)[k]? =
        fields[k]?.map (fun field => (decodeField host field record_data
          (((fields.take k).map footprint).sum)).1)) ∧
    (∀ (field : DbfField) (offset : Nat),
        (decodeField host field record_data offset).2 = offset + footprint field) ∧
    (∀ field : DbfField, footprint field =
        if field.type = DbfType.INTEGER then 4
        else if field.type = DbfType.DOUBLE then 8 else field.length) := by
  refine ⟨fun k => ?_, fun field offset => decodeField_snd host field record_data offset,
    fun field => rfl⟩
  simpa using decodeCells_getElem? host record_data fields 0 k

/-! ### Space trimming -/


theorem find_first_not_of_eq_none (raw : List Nat) :
    find_first_not_of raw 32 = none ↔ ∀ b ∈ raw, b = 32 := by
  unfold find_first_not_of
  constructor
  · intro h
    split_ifs at h with hlt
    have := List.findIdx_eq_length.mp (le_antisymm (List.findIdx_le_length _) (not_lt.mp hlt))
    intro b hb
    simpa using this b hb
  · intro h
    rw [if_neg]
    rw [List.findIdx_eq_length.mpr]
    · exact lt_irrefl _
    · intro b hb; simp [h b hb]

theorem trimSpaces_eq_nil (raw : List Nat) : trimSpaces raw = [] ↔ ∀ b ∈ raw, b = 32 := by
  unfold trimSpaces
  rw [List.rdropWhile_eq_nil_iff]
  constructor
  · intro h b hb
    by_contra hne
    have h1 : raw.dropWhile (fun b => b == 32) ≠ [] := by
      intro hnil
      rw [List.dropWhile_eq_nil_iff] at hnil
      exact hne (by simpa using hnil b hb)
    have h2 := List.head_dropWhile_not (fun b => b == 32) raw h1
    have h3 := h _ (List.head_mem h1)
    simp [h3] at h2
  · intro h b hb
    have := h b ((List.dropWhile_sublist _).subset hb)
    simp [this]

theorem substr_trim (raw : List Nat) (h : ∃ b ∈ raw, b ≠ 32) :
    substr raw (raw.findIdx (fun b => b != 32))
      (raw.length - 1 - raw.reverse.findIdx (fun b => b != 32)
        - raw.findIdx (fun b => b != 32) + 1) = trimSpaces raw := by
  obtain ⟨b, hb, hne⟩ := h
  have hfirst : raw.findIdx (fun b => b != 32) < raw.length :=
    List.findIdx_lt_length_of_exists ⟨b, hb, by simpa using hne⟩
  set first := raw.findIdx (fun b => b != 32) with hfirst_def
  have hdw : raw.dropWhile (fun b => b == 32) = raw.drop first := by
    rw [List.dropWhile_eq_drop_findIdx_not]; rfl
  have hl_len : (raw.drop first).length = raw.length - first := List.length_drop _ _
  -- the first byte of the dropped list is not a space
  have hhead : (fun b : Nat => b != 32) (raw[first]) = true :=
    @List.findIdx_getElem Nat (fun b : Nat => b != 32) raw hfirst
  have hmem : raw[first] ∈ (raw.drop first).reverse := by
    rw [List.mem_reverse]
    rw [List.drop_eq_getElem_cons hfirst]
    exact List.mem_cons_self _ _
  have hj : (raw.drop first).reverse.findIdx (fun b => b != 32) < (raw.drop first).reverse.length :=
    List.findIdx_lt_length_of_exists ⟨_, hmem, hhead⟩
  have hrev : raw.reverse = (raw.drop first).reverse ++ (raw.take first).reverse := by
    rw [← List.reverse_append, List.take_append_drop]
  have hjeq : raw.reverse.findIdx (fun b => b != 32)
      = (raw.drop first).reverse.findIdx (fun b => b != 32) := by
    rw [hrev, List.findIdx_append, if_pos hj]
  unfold trimSpaces List.rdropWhile substr
  rw [hdw, List.dropWhile_eq_drop_findIdx_not, List.drop_reverse, List.reverse_reverse, hjeq]
  rw [List.length_reverse] at hj
  congr 1
  have : (raw.drop first).reverse.findIdx (fun a => !(a == 32))
      = (raw.drop first).reverse.findIdx (fun b => b != 32) := rfl
  rw [this]
  omega

theorem decodeRaw_of_spaces (host : Host) (field : DbfField) (raw : List Nat)
    (h : ∀ b ∈ raw, b = 32) : decodeRaw host field raw = Except.ok Value.null := by
  unfold decodeRaw
  rw [(find_first_not_of_eq_none raw).mpr h]

theorem decodeRaw_of_nonspace (host : Host) (field : DbfField) (raw : List Nat)
    (h : ∃ b ∈ raw, b ≠ 32) :
    decodeRaw host field raw = decodeSwitch host field (trimSpaces raw) := by
  have hex := h
  obtain ⟨b, hb, hne⟩ := h
  have hfirst : raw.findIdx (fun b => b != 32) < raw.length :=
    List.findIdx_lt_length_of_exists ⟨b, hb, by simpa using hne⟩
  have hlast : raw.reverse.findIdx (fun b => b != 32) < raw.length := by
    have := @List.findIdx_lt_length_of_exists Nat (fun b => b != 32) raw.reverse
      ⟨b, List.mem_reverse.mpr hb, by simpa using hne⟩
    simpa using this
  unfold decodeRaw find_first_not_of find_last_not_of
  rw [if_pos hfirst, if_pos hlast]
  simp only [Option.getD_some]
  rw [substr_trim raw hex]

/-! ### CHARACTER fields -/

theorem decodeField_trimmed (host : Host) (field : DbfField)
    (record_data : List Nat) (offset : Nat)
    (hI : field.type ≠ DbfType.INTEGER) (hO : field.type ≠ DbfType.DOUBLE)
    (hfit : offset + field.length ≤ record_data.length) :
    (decodeField host field record_data offset).1
      = decodeRaw host field (substr record_data offset field.length) := by
  unfold decodeField
  rw [if_neg hI, if_neg hO, if_pos hfit]

theorem decodeField_character (host : Host) (field : DbfField)
    (record_data : List Nat) (offset : Nat)
    (htype : field.type = DbfType.CHARACTER)
    (hfit : offset + field.length ≤ record_data.length)
    (hns : ∃ b ∈ substr record_data offset field.length, b ≠ 32) :
    (decodeField host field record_data offset).1
      = if host.StringIsValid (trimSpaces (substr record_data offset field.length))
        then Except.ok (Value.VARCHAR (trimSpaces (substr record_data offset field.length)))
        else Except.error Fault.invalidString := by
  have hI : field.type ≠ DbfType.INTEGER := by rw [htype]; decide
  have hO : field.type ≠ DbfType.DOUBLE := by rw [htype]; decide
  rw [decodeField_trimmed host field record_data offset hI hO hfit,
    decodeRaw_of_nonspace host field _ hns]
  unfold decodeSwitch
  rw [if_pos htype]

theorem LoadInt32_of_bytes (record_data : List Nat) (offset b0 b1 b2 b3 : Nat)
    (hbytes : substr record_data offset 4 = [b0, b1, b2, b3])
    (h0 : b0 < 256) (h1 : b1 < 256) (h2 : b2 < 256) (h3 : b3 < 256) :
    -(2 : Int) ^ 31 ≤ LoadInt32 record_data offset ∧ LoadInt32 record_data offset < (2 : Int) ^ 31 ∧
    LoadInt32 record_data offset % (2 : Int) ^ 32
      = ((b0 + 256 * b1 + 65536 * b2 + 16777216 * b3 : Nat) : Int) := by
  have hget : ∀ i, i < 4 → record_data.getD (offset + i) 0 = [b0, b1, b2, b3].getD i 0 := by
    intro i hi
    rw [← hbytes]
    unfold substr
    simp only [List.getD_eq_getElem?_getD, List.getElem?_take, List.getElem?_drop, hi, if_true]
  have e0 := hget 0 (by omega)
  have e1 := hget 1 (by omega)
  have e2 := hget 2 (by omega)
  have e3 := hget 3 (by omega)
  simp only [Nat.add_zero, List.getD_cons_zero, List.getD_cons_succ] at e0 e1 e2 e3
  unfold LoadInt32
  simp only [e0, e1, e2, e3]
  split_ifs with hlt <;> omega

/-- C8: an INTEGER field is null when fewer than 4 bytes remain at its offset
and otherwise the signed 32-bit integer whose little-endian two-complement
encoding is the 4 bytes at the offset, spaces included; a DOUBLE field is null
exactly when fewer than 8 bytes remain. -/
theorem C8_integer_double_short_buffer (host : Host) (field : DbfField)
    (record_data : List Nat) (offset : Nat) :
    (field.type = DbfType.INTEGER → offset + 4 ≤ record_data.length →
      ∀ b0 b1 b2 b3, substr record_data offset 4 = [b0, b1, b2, b3] →
        b0 < 256 → b1 < 256 → b2 < 256 → b3 < 256 →
        ∃ v : Int, (decodeField host field record_data offset).1 = Except.ok (Value.INTEGER v) ∧
          -(2 : Int) ^ 31 ≤ v ∧ v < (2 : Int) ^ 31 ∧
          v % (2 : Int) ^ 32 = ((b0 + 256 * b1 + 65536 * b2 + 16777216 * b3 : Nat) : Int)) ∧
    (field.type = DbfType.INTEGER → offset + 4 > record_data.length →
      (decodeField host field record_data offset).1 = Except.ok Value.null) ∧
    (field.type = DbfType.DOUBLE →
      ((decodeField host field record_data offset).1 = Except.ok Value.null ↔
        offset + 8 > record_data.length)) ∧
    (field.type = DbfType.DOUBLE → offset + 8 ≤ record_data.length →
      (decodeField host field record_data offset).1
        = Except.ok (Value.DOUBLE (LoadDouble record_data offset))) := by
  refine ⟨fun ht hfit b0 b1 b2 b3 hb h0 h1 h2 h3 => ?_, fun ht hshort => ?_, fun ht => ?_,
    fun ht hfit => ?_⟩
  · refine ⟨LoadInt32 record_data offset, ?_, LoadInt32_of_bytes record_data offset b0 b1 b2 b3
      hb h0 h1 h2 h3⟩
    unfold decodeField
    rw [if_pos ht, if_pos hfit]
  · unfold decodeField
    rw [if_pos ht, if_neg (by omega)]
  · have hI : field.type ≠ DbfType.INTEGER := by rw [ht]; decide
    unfold decodeField
    rw [if_neg hI, if_pos ht]
    by_cases hfit : offset + 8 ≤ record_data.length
    · rw [if_pos hfit]
      constructor
      · intro h; cases h
      · intro h; omega
    · rw [if_neg hfit]
      exact ⟨fun _ => by omega, fun _ => rfl⟩
  · have hI : field.type ≠ DbfType.INTEGER := by rw [ht]; decide
    unfold decodeField
    rw [if_neg hI, if_pos ht, if_pos hfit]

/-- C8 at concrete buffers: four spaces decode to 0x20202020, not to null; three
bytes are too few. -/
theorem C8_integer_double_short_buffer_witness :
    (∃ v : Int, (decodeField sampleHost ⟨[78], DbfType.INTEGER, 4, 0⟩ [32, 32, 32, 32] 0).1
        = Except.ok (Value.INTEGER v) ∧
      -(2 : Int) ^ 31 ≤ v ∧ v < (2 : Int) ^ 31 ∧
      v % (2 : Int) ^ 32 = ((32 + 256 * 32 + 65536 * 32 + 16777216 * 32 : Nat) : Int)) ∧
    (decodeField sampleHost ⟨[78], DbfType.INTEGER, 4, 0⟩ [32, 32, 32] 0).1
      = Except.ok Value.null ∧
    ((decodeField sampleHost ⟨[78], DbfType.DOUBLE, 8, 0⟩ [1, 2, 3] 0).1
      = Except.ok Value.null ↔ 0 + 8 > [1, 2, 3].length) ∧
    (decodeField sampleHost ⟨[78], DbfType.INTEGER, 4, 0⟩ [32, 32, 32, 32] 0).1
      = Except.ok (Value.INTEGER 0x20202020) :=
  ⟨(C8_integer_double_short_buffer sampleHost ⟨[78], DbfType.INTEGER, 4, 0⟩
      [32, 32, 32, 32] 0).1 rfl (by decide) 32 32 32 32 rfl (by decide) (by decide) (by decide)
      (by decide),
   (C8_integer_double_short_buffer sampleHost ⟨[78], DbfType.INTEGER, 4, 0⟩
      [32, 32, 32] 0).2.1 rfl (by decide),
   (C8_integer_double_short_buffer sampleHost ⟨[78], DbfType.DOUBLE, 8, 0⟩
      [1, 2, 3] 0).2.2.1 rfl,
   by decide⟩

/-! ### LOGICAL fields -/

/-- C9: a LOGICAL field whose bytes lie in the record buffer decodes to true
exactly when its trimmed content is `"T"`, to false exactly when it is `"F"`,
and to null for every other content. -/
theorem C9_logical_exactly_T_or_F (host : Host) (field : DbfField)
    (record_data : List Nat) (offset : Nat)
    (htype : field.type = DbfType.LOGICAL)
    (hfit : offset + field.length ≤ record_data.length) :
    ((decodeField host field record_data offset).1 = Except.ok (Value.BOOLEAN true) ↔
      trimSpaces (substr record_data offset field.length) = [84]) ∧
    ((decodeField host field record_data offset).1 = Except.ok (Value.BOOLEAN false) ↔
      trimSpaces (substr record_data offset field.length) = [70]) ∧
    ((decodeField host field record_data offset).1 = Except.ok Value.null ↔
      (trimSpaces (substr record_data offset field.length) ≠ [84] ∧
       trimSpaces (substr record_data offset field.length) ≠ [70])) := by
  have hI : field.type ≠ DbfType.INTEGER := by rw [htype]; decide
  have hO : field.type ≠ DbfType.DOUBLE := by rw [htype]; decide
  have hC : field.type ≠ DbfType.CHARACTER := by rw [htype]; decide
  have hN : ¬ (field.type = DbfType.NUMERIC ∨ field.type = DbfType.FLOAT) := by
    rw [htype]; decide
  rw [decodeField_trimmed host field record_data offset hI hO hfit]
  generalize substr record_data offset field.length = raw
  by_cases hsp : ∀ b ∈ raw, b = 32
  · rw [decodeRaw_of_spaces host field raw hsp, (trimSpaces_eq_nil raw).mpr hsp]
    simp
  · push_neg at hsp
    rw [decodeRaw_of_nonspace host field raw hsp]
    unfold decodeSwitch
    rw [if_neg hC, if_neg hN, if_pos htype]
    by_cases hT : trimSpaces raw = [84]
    · rw [if_pos hT, hT]; simp
    · rw [if_neg hT]
      by_cases hF : trimSpaces raw = [70]
      · rw [if_pos hF, hF]; simp
      · rw [if_neg hF]; simp [hT, hF]

/-- C9 at concrete fields: `"T"` is true, and `"t"`, `"Y"`, `"?"`, `"TT"` and a
space are null. -/
theorem C9_logical_exactly_T_or_F_witness :
    ((decodeField sampleHost ⟨[76], DbfType.LOGICAL, 1, 0⟩ [84] 0).1
      = Except.ok (Value.BOOLEAN true) ↔ trimSpaces (substr [84] 0 1) = [84]) ∧
    (decodeField sampleHost ⟨[76], DbfType.LOGICAL, 1, 0⟩ [84] 0).1
      = Except.ok (Value.BOOLEAN true) ∧
    (decodeField sampleHost ⟨[76], DbfType.LOGICAL, 1, 0⟩ [70] 0).1
      = Except.ok (Value.BOOLEAN false) ∧
    (decodeField sampleHost ⟨[76], DbfType.LOGICAL, 1, 0⟩ [116] 0).1 = Except.ok Value.null ∧
    (decodeField sampleHost ⟨[76], DbfType.LOGICAL, 1, 0⟩ [89] 0).1 = Except.ok Value.null ∧
    (decodeField sampleHost ⟨[76], DbfType.LOGICAL, 1, 0⟩ [63] 0).1 = Except.ok Value.null ∧
    (decodeField sampleHost ⟨[76], DbfType.LOGICAL, 2, 0⟩ [84, 84] 0).1
      = Except.ok Value.null ∧
    (decodeField sampleHost ⟨[76], DbfType.LOGICAL, 1, 0⟩ [32] 0).1 = Except.ok Value.null :=
  ⟨(C9_logical_exactly_T_or_F sampleHost ⟨[76], DbfType.LOGICAL, 1, 0⟩ [84] 0 rfl
      (by decide)).1,
   by decide, by decide, by decide, by decide, by decide, by decide, by decide⟩

/-! ### Unsupported field types -/

/-- C10: a field whose type code is none of C, N, F, L, D, I, O advances the
offset by its declared length on every record buffer, never produces a value
other than null, and decodes to null whenever its bytes lie in the buffer. -/
theorem C10_unsupported_type_is_null (host : Host) (field : DbfField)
    (record_data : List Nat) (offset : Nat)
    (hC : field.type ≠ DbfType.CHARACTER) (hN : field.type ≠ DbfType.NUMERIC)
    (hF : field.type ≠ DbfType.FLOAT) (hL : field.type ≠ DbfType.LOGICAL)
    (hD : field.type ≠ DbfType.DATE) (hI : field.type ≠ DbfType.INTEGER)
    (hO : field.type ≠ DbfType.DOUBLE) :
    (decodeField host field record_data offset).2 = offset + field.length ∧
    (∀ v, (decodeField host field record_data offset).1 = Except.ok v → v = Value.null) ∧
    (offset + field.length ≤ record_data.length →
      (decodeField host field record_data offset).1 = Except.ok Value.null) := by
  have hraw : ∀ raw, decodeRaw host field raw = Except.ok Value.null := by
    intro raw
    by_cases hsp : ∀ b ∈ raw, b = 32
    · exact decodeRaw_of_spaces host field raw hsp
    · push_neg at hsp
      rw [decodeRaw_of_nonspace host field raw hsp]
      unfold decodeSwitch
      rw [if_neg hC, if_neg (by tauto), if_neg hL, if_neg hD]
  unfold decodeField
  rw [if_neg hI, if_neg hO]
  refine ⟨rfl, fun v hv => ?_, fun hfit => ?_⟩
  · by_cases hfit : offset + field.length ≤ record_data.length
    · rw [if_pos hfit, hraw] at hv
      cases hv; rfl
    · rw [if_neg hfit] at hv
      cases hv
  · simp only []
    rw [if_pos hfit, hraw]

/-- C10 at concrete fields: a MEMO field of length 3 holding `"abc"` is null and
the next field starts 3 bytes later. -/
theorem C10_unsupported_type_is_null_witness :
    (0 + 3 ≤ [97, 98, 99, 100].length) ∧
    (decodeField sampleHost ⟨[77], DbfType.MEMO, 3, 0⟩ [97, 98, 99, 100] 0).2 = 0 + 3 ∧
    (decodeField sampleHost ⟨[77], DbfType.MEMO, 3, 0⟩ [97, 98, 99, 100] 0).1
      = Except.ok Value.null :=
  ⟨by decide,
   (C10_unsupported_type_is_null sampleHost ⟨[77], DbfType.MEMO, 3, 0⟩ [97, 98, 99, 100] 0
    (by decide) (by decide) (by decide) (by decide) (by decide) (by decide) (by decide)).1,
   (C10_unsupported_type_is_null sampleHost ⟨[77], DbfType.MEMO, 3, 0⟩ [97, 98, 99, 100] 0
    (by decide) (by decide) (by decide) (by decide) (by decide) (by decide) (by decide)).2.2
    (by decide)⟩

/-! ### The integer scan of `std::stoll` and `std::stoi` -/

theorem takeWhile_digits_append (ds rest : List Nat) (hds : ∀ d ∈ ds, isdigit d = true)
    (hrest : ∀ c, rest.head? = some c → isdigit c = false) :
    (ds ++ rest).takeWhile isdigit = ds := by
  rw [List.takeWhile_append_of_pos hds]
  cases rest with
  | nil => simp
  | cons c cs =>
    have := hrest c rfl
    simp [List.takeWhile_cons, this]

theorem scanInteger_unsigned (ds rest : List Nat) (hne : ds ≠ [])
    (hds : ∀ d ∈ ds, isdigit d = true)
    (hrest : ∀ c, rest.head? = some c → isdigit c = false) :
    scanInteger (ds ++ rest) = some (digitsValue ds : Int) := by
  cases ds with
  | nil => exact absurd rfl hne
  | cons d ds' =>
    have hd : isdigit d = true := hds d (List.mem_cons_self _ _)
    have hd' : 48 ≤ d ∧ d ≤ 57 := by simpa [isdigit] using hd
    have hsp : isspace d = false := by
      unfold isspace
      simp only [Bool.or_eq_false_iff, beq_eq_false_iff_ne, ne_eq]
      omega
    have h45 : ((d :: ds' ++ rest).head? == some 45) = false := by
      simp only [List.cons_append, List.head?_cons, beq_eq_false_iff_ne, ne_eq, Option.some.injEq]
      omega
    have h43 : ((d :: ds' ++ rest).head? == some 43) = false := by
      simp only [List.cons_append, List.head?_cons, beq_eq_false_iff_ne, ne_eq, Option.some.injEq]
      omega
    have hdw : (d :: ds' ++ rest).dropWhile isspace = d :: ds' ++ rest := by
      simp [List.dropWhile_cons, hsp]
    unfold scanInteger
    simp only [hdw, h45, h43, Bool.or_self, Bool.false_eq_true, if_false]
    rw [takeWhile_digits_append (d :: ds') rest hds hrest]
    simp

theorem scanInteger_plus (ds rest : List Nat) (hne : ds ≠ [])
    (hds : ∀ d ∈ ds, isdigit d = true)
    (hrest : ∀ c, rest.head? = some c → isdigit c = false) :
    scanInteger (43 :: (ds ++ rest)) = some (digitsValue ds : Int) := by
  have hdw : (43 :: (ds ++ rest)).dropWhile isspace = 43 :: (ds ++ rest) := by
    simp [List.dropWhile_cons, isspace]
  unfold scanInteger
  simp only [hdw, List.head?_cons, List.tail_cons]
  rw [show ((some 43 : Option Nat) == some 45) = false from by decide,
    show ((some 43 : Option Nat) == some 43) = true from by decide]
  simp only [Bool.false_or, if_true, Bool.false_eq_true, if_false]
  rw [takeWhile_digits_append ds rest hds hrest]
  cases ds with
  | nil => exact absurd rfl hne
  | cons d ds' => simp

theorem scanInteger_minus (ds rest : List Nat) (hne : ds ≠ [])
    (hds : ∀ d ∈ ds, isdigit d = true)
    (hrest : ∀ c, rest.head? = some c → isdigit c = false) :
    scanInteger (45 :: (ds ++ rest)) = some (-(digitsValue ds : Int)) := by
  have hdw : (45 :: (ds ++ rest)).dropWhile isspace = 45 :: (ds ++ rest) := by
    simp [List.dropWhile_cons, isspace]
  unfold scanInteger
  simp only [hdw, List.head?_cons, List.tail_cons]
  rw [show ((some 45 : Option Nat) == some 45) = true from by decide]
  simp only [Bool.true_or, if_true]
  rw [takeWhile_digits_append ds rest hds hrest]
  cases ds with
  | nil => exact absurd rfl hne
  | cons d ds' => simp

theorem scanInteger_no_digit (c : Nat) (rest : List Nat) (hd : isdigit c = false)
    (hs : isspace c = false) (h43 : c ≠ 43) (h45 : c ≠ 45) :
    scanInteger (c :: rest) = none := by
  have hdw : (c :: rest).dropWhile isspace = c :: rest := by
    simp [List.dropWhile_cons, hs]
  unfold scanInteger
  simp only [hdw, List.head?_cons]
  rw [show ((some c : Option Nat) == some 45) = false from by simpa using h45,
    show ((some c : Option Nat) == some 43) = false from by simpa using h43]
  simp [List.takeWhile_cons, hd]

theorem scanInteger_skip_space (ws s : List Nat) (hws : ∀ w ∈ ws, isspace w = true) :
    scanInteger (ws ++ s) = scanInteger s := by
  unfold scanInteger
  rw [List.dropWhile_append_of_pos hws]

theorem scanInteger_all_space (ws : List Nat) (hws : ∀ w ∈ ws, isspace w = true) :
    scanInteger ws = none := by
  have hdw : ws.dropWhile isspace = [] := List.dropWhile_eq_nil_iff.mpr hws
  unfold scanInteger
  rw [hdw]
  rfl

theorem scanInteger_sign_no_digit (sign : Nat) (rest : List Nat)
    (hsign : sign = 43 ∨ sign = 45)
    (hrest : ∀ c, rest.head? = some c → isdigit c = false) :
    scanInteger (sign :: rest) = none := by
  have hdw : (sign :: rest).dropWhile isspace = sign :: rest := by
    rcases hsign with h | h <;> subst h <;> simp [List.dropWhile_cons, isspace]
  have htw : rest.takeWhile isdigit = [] := by
    cases rest with
    | nil => rfl
    | cons c cs => simp [List.takeWhile_cons, hrest c rfl]
  have hor : ((some sign : Option Nat) == some 45 || (some sign : Option Nat) == some 43)
      = true := by
    rcases hsign with h | h <;> subst h <;> decide
  unfold scanInteger
  simp only [hdw, List.head?_cons, List.tail_cons, hor, if_true, htw, List.isEmpty_nil]

/-! ### NUMERIC and FLOAT fields without decimals -/


theorem stoll_of_scan_nonneg (s : List Nat) (n : Nat) (h : scanInteger s = some (n : Int)) :
    stoll s = if (n : Int) < (2 : Int) ^ 63 then some (n : Int) else none := by
  have hA : -(2 : Int) ^ 63 ≤ (n : Int) := le_trans (by norm_num) (Int.ofNat_nonneg n)
  unfold stoll
  rw [h]
  by_cases hlt : (n : Int) < (2 : Int) ^ 63
  · simp only [hA, hlt, and_self, if_true]
  · simp only [hlt, and_false, if_false]

theorem stoll_of_scan_nonpos (s : List Nat) (n : Nat) (h : scanInteger s = some (-(n : Int))) :
    stoll s = if -(2 : Int) ^ 63 ≤ -(n : Int) then some (-(n : Int)) else none := by
  have hB : -(n : Int) < (2 : Int) ^ 63 :=
    lt_of_le_of_lt (neg_nonpos.mpr (Int.ofNat_nonneg n)) (by norm_num)
  unfold stoll
  rw [h]
  by_cases hge : -(2 : Int) ^ 63 ≤ -(n : Int)
  · simp only [hB, hge, and_self, if_true]
  · simp only [hge, false_and, if_false]

theorem decodeField_numeric (host : Host) (field : DbfField)
    (record_data : List Nat) (offset : Nat)
    (htype : field.type = DbfType.NUMERIC ∨ field.type = DbfType.FLOAT)
    (hdec : field.decimal_count = 0)
    (hfit : offset + field.length ≤ record_data.length) :
    (decodeField host field record_data offset).1
      = Except.ok (match stoll (trimSpaces (substr record_data offset field.length)) with
          | some n => Value.BIGINT n
          | none => Value.null) := by
  have hI : field.type ≠ DbfType.INTEGER := by rcases htype with h | h <;> rw [h] <;> decide
  have hO : field.type ≠ DbfType.DOUBLE := by rcases htype with h | h <;> rw [h] <;> decide
  have hC : field.type ≠ DbfType.CHARACTER := by rcases htype with h | h <;> rw [h] <;> decide
  rw [decodeField_trimmed host field record_data offset hI hO hfit]
  generalize substr record_data offset field.length = raw
  by_cases hsp : ∀ b ∈ raw, b = 32
  · rw [decodeRaw_of_spaces host field raw hsp, (trimSpaces_eq_nil raw).mpr hsp]
    rfl
  · push_neg at hsp
    rw [decodeRaw_of_nonspace host field raw hsp]
    unfold decodeSwitch
    rw [if_neg hC, if_pos htype, if_neg (by omega)]
    cases stoll (trimSpaces raw) <;> rfl

/-- C4 (as amended): a NUMERIC or FLOAT field with `decimal_count = 0` whose
bytes lie in the record buffer decodes, without ever failing, to what
`std::stoll` reads in the trimmed content: leading white space (tab, line
feed, vertical tab, form feed, carriage return, space) is skipped, then an
optional sign and the longest run of digits are read, and the rest is ignored.
The value is that number when it is in signed 64-bit range.  It is null when
the number is out of range and when no digit follows the skipped white space
and the optional sign: the content is white space only, or goes on with a
character that is no digit, no sign and no white space, or with a sign that
no digit follows. -/
theorem C4_numeric_integer_reads_leading_number (host : Host)
    (field : DbfField) (record_data : List Nat) (offset : Nat)
    (htype : field.type = DbfType.NUMERIC ∨ field.type = DbfType.FLOAT)
    (hdec : field.decimal_count = 0)
    (hfit : offset + field.length ≤ record_data.length) :
    (∀ ws ds rest : List Nat, (∀ w ∈ ws, isspace w = true) →
      ds ≠ [] → (∀ d ∈ ds, isdigit d = true) →
      (∀ c, rest.head? = some c → isdigit c = false) →
      (trimSpaces (substr record_data offset field.length) = ws ++ (ds ++ rest) ∨
       trimSpaces (substr record_data offset field.length) = ws ++ 43 :: (ds ++ rest) →
        (decodeField host field record_data offset).1
          = Except.ok (if (digitsValue ds : Int) < (2 : Int) ^ 63
              then Value.BIGINT (digitsValue ds) else Value.null)) ∧
      (trimSpaces (substr record_data offset field.length) = ws ++ 45 :: (ds ++ rest) →
        (decodeField host field record_data offset).1
          = Except.ok (if -(2 : Int) ^ 63 ≤ -(digitsValue ds : Int)
              then Value.BIGINT (-(digitsValue ds : Int)) else Value.null))) ∧
    (∀ ws : List Nat, (∀ w ∈ ws, isspace w = true) →
      (∀ c rest, trimSpaces (substr record_data offset field.length) = ws ++ c :: rest →
        isdigit c = false → isspace c = false → c ≠ 43 → c ≠ 45 →
        (decodeField host field record_data offset).1 = Except.ok Value.null) ∧
      (∀ sign rest, trimSpaces (substr record_data offset field.length) = ws ++ sign :: rest →
        sign = 43 ∨ sign = 45 → (∀ c, rest.head? = some c → isdigit c = false) →
        (decodeField host field record_data offset).1 = Except.ok Value.null) ∧
      (trimSpaces (substr record_data offset field.length) = ws →
        (decodeField host field record_data offset).1 = Except.ok Value.null)) ∧
    ((∀ b ∈ substr record_data offset field.length, b = 32) →
      (decodeField host field record_data offset).1 = Except.ok Value.null) ∧
    (decodeField host field record_data offset).1
      = Except.ok (match stoll (trimSpaces (substr record_data offset field.length)) with
          | some n => Value.BIGINT n
          | none => Value.null) := by
  have hmain := decodeField_numeric host field record_data offset htype hdec hfit
  have hnull : scanInteger (trimSpaces (substr record_data offset field.length)) = none →
      (decodeField host field record_data offset).1 = Except.ok Value.null := by
    intro hscan
    have hst : stoll (trimSpaces (substr record_data offset field.length)) = none := by
      unfold stoll
      rw [hscan]
    rw [hmain, hst]
  refine ⟨fun ws ds rest hws hne hds hrest => ⟨fun hval => ?_, fun hval => ?_⟩,
    fun ws hws => ⟨fun c rest hval hd hs h43 h45 => ?_, fun sign rest hval hsign hrest => ?_,
      fun hval => ?_⟩, fun hsp => ?_, hmain⟩
  · have hscan : scanInteger (trimSpaces (substr record_data offset field.length))
        = some (digitsValue ds : Int) := by
      rcases hval with h | h
      · rw [h, scanInteger_skip_space ws _ hws]
        exact scanInteger_unsigned ds rest hne hds hrest
      · rw [h, scanInteger_skip_space ws _ hws]
        exact scanInteger_plus ds rest hne hds hrest
    rw [hmain, stoll_of_scan_nonneg _ _ hscan]
    split_ifs <;> rfl
  · have hscan : scanInteger (trimSpaces (substr record_data offset field.length))
        = some (-(digitsValue ds : Int)) := by
      rw [hval, scanInteger_skip_space ws _ hws]
      exact scanInteger_minus ds rest hne hds hrest
    rw [hmain, stoll_of_scan_nonpos _ _ hscan]
    split_ifs <;> rfl
  · apply hnull
    rw [hval, scanInteger_skip_space ws _ hws]
    exact scanInteger_no_digit c rest hd hs h43 h45
  · apply hnull
    rw [hval, scanInteger_skip_space ws _ hws]
    exact scanInteger_sign_no_digit sign rest hsign hrest
  · apply hnull
    rw [hval]
    exact scanInteger_all_space ws hws
  · apply hnull
    rw [(trimSpaces_eq_nil _).mpr hsp]
    rfl

/-- C4 at concrete fields: `"  42  "` decodes to 42, and so does a tab followed
by `42`. -/
theorem C4_numeric_integer_reads_leading_number_witness :
    (0 + 6 ≤ [32, 32, 52, 50, 32, 32].length) ∧
    (decodeField sampleHost ⟨[78], DbfType.NUMERIC, 6, 0⟩ [32, 32, 52, 50, 32, 32] 0).1
      = Except.ok (if ((digitsValue [52, 50] : Nat) : Int) < (2 : Int) ^ 63
          then Value.BIGINT (digitsValue [52, 50]) else Value.null) ∧
    (decodeField sampleHost ⟨[78], DbfType.NUMERIC, 6, 0⟩ [32, 32, 52, 50, 32, 32] 0).1
      = Except.ok (Value.BIGINT 42) ∧
    (0 + 3 ≤ [9, 52, 50].length) ∧
    (decodeField sampleHost ⟨[78], DbfType.NUMERIC, 3, 0⟩ [9, 52, 50] 0).1
      = Except.ok (if ((digitsValue [52, 50] : Nat) : Int) < (2 : Int) ^ 63
          then Value.BIGINT (digitsValue [52, 50]) else Value.null) ∧
    (decodeField sampleHost ⟨[78], DbfType.NUMERIC, 3, 0⟩ [9, 52, 50] 0).1
      = Except.ok (Value.BIGINT 42) :=
  ⟨by decide,
   ((C4_numeric_integer_reads_leading_number sampleHost ⟨[78], DbfType.NUMERIC, 6, 0⟩
      [32, 32, 52, 50, 32, 32] 0 (Or.inl rfl) rfl (by decide)).1 [] [52, 50] [] (by decide)
      (by decide) (by decide) (by decide)).1 (Or.inl (by decide)),
   by decide,
   by decide,
   ((C4_numeric_integer_reads_leading_number sampleHost ⟨[78], DbfType.NUMERIC, 3, 0⟩
      [9, 52, 50] 0 (Or.inl rfl) rfl (by decide)).1 [9] [52, 50] [] (by decide)
      (by decide) (by decide) (by decide)).1 (Or.inl (by decide)),
   by decide⟩

/-- C4 fails as stated: the content `"42abc"`, digits followed by other
characters, decodes to the integer 42 and not to null. -/
theorem C4_counterexample_digits_then_letters :
    trimSpaces (substr [52, 50, 97, 98, 99] 0 5) = [52, 50, 97, 98, 99] ∧
    (decodeField sampleHost ⟨[78], DbfType.NUMERIC, 5, 0⟩ [52, 50, 97, 98, 99] 0).1
      = Except.ok (Value.BIGINT 42) ∧
    (decodeField sampleHost ⟨[78], DbfType.NUMERIC, 5, 0⟩ [52, 50, 97, 98, 99] 0).1
      ≠ Except.ok Value.null := by
  decide

/-! ### DATE fields -/

theorem digitsValue_concat (ds : List Nat) (d : Nat) :
    digitsValue (ds ++ [d]) = digitsValue ds * 10 + (d - 48) := by
  unfold digitsValue
  rw [List.foldl_append]
  rfl

theorem digitsValue_lt (ds : List Nat) (hds : ∀ d ∈ ds, isdigit d = true) :
    digitsValue ds < 10 ^ ds.length := by
  induction ds using List.reverseRecOn with
  | nil => simp [digitsValue]
  | append_singleton ds d ih =>
    have hd : isdigit d = true := hds d (by simp)
    have hd' : 48 ≤ d ∧ d ≤ 57 := by simpa [isdigit] using hd
    have := ih (fun x hx => hds x (by simp [hx]))
    rw [digitsValue_concat, List.length_append, List.length_singleton, pow_succ]
    omega

theorem stoi_digits (ds : List Nat) (hne : ds ≠ []) (hlen : ds.length ≤ 9)
    (hds : ∀ d ∈ ds, isdigit d = true) : stoi ds = some (digitsValue ds : Int) := by
  have hscan := scanInteger_unsigned ds [] hne hds (by simp)
  rw [List.append_nil] at hscan
  have hlt := digitsValue_lt ds hds
  have hpow : 10 ^ ds.length ≤ 10 ^ 9 := Nat.pow_le_pow_right (by norm_num) hlen
  have h1 : (digitsValue ds : Int) < (2 : Int) ^ 31 := by
    have : digitsValue ds < 2 ^ 31 := by
      have : (10 : Nat) ^ 9 < 2 ^ 31 := by norm_num
      omega
    exact_mod_cast this
  have h2 : -(2 : Int) ^ 31 ≤ (digitsValue ds : Int) :=
    le_trans (by norm_num) (Int.ofNat_nonneg _)
  unfold stoi
  rw [hscan]
  simp only [h1, h2, and_self, if_true]

theorem decodeField_date (host : Host) (field : DbfField)
    (record_data : List Nat) (offset : Nat)
    (htype : field.type = DbfType.DATE)
    (hfit : offset + field.length ≤ record_data.length) :
    (decodeField host field record_data offset).1
      = decodeSwitch host field (trimSpaces (substr record_data offset field.length)) := by
  have hI : field.type ≠ DbfType.INTEGER := by rw [htype]; decide
  have hO : field.type ≠ DbfType.DOUBLE := by rw [htype]; decide
  have hC : field.type ≠ DbfType.CHARACTER := by rw [htype]; decide
  have hN : ¬ (field.type = DbfType.NUMERIC ∨ field.type = DbfType.FLOAT) := by
    rw [htype]; decide
  have hL : field.type ≠ DbfType.LOGICAL := by rw [htype]; decide
  rw [decodeField_trimmed host field record_data offset hI hO hfit]
  generalize substr record_data offset field.length = raw
  by_cases hsp : ∀ b ∈ raw, b = 32
  · rw [decodeRaw_of_spaces host field raw hsp, (trimSpaces_eq_nil raw).mpr hsp]
    unfold decodeSwitch
    rw [if_neg hC, if_neg hN, if_neg hL, if_pos htype]
    rfl
  · push_neg at hsp
    rw [decodeRaw_of_nonspace host field raw hsp]

theorem decodeSwitch_date_body (val : List Nat) :
    (Except.ok (if val.length = 8 then
        match stoi (substr val 0 4), stoi (substr val 4 2), stoi (substr val 6 2) with
        | some year, some month, some day =>
          if Date.IsValid year month day then Value.DATE year month day else Value.null
        | _, _, _ => Value.null
      else Value.null) : Except Fault Value) =
      if val.length = 8 then
        match stoi (substr val 0 4), stoi (substr val 4 2), stoi (substr val 6 2) with
        | some year, some month, some day =>
          if Date.IsValid year month day then Except.ok (Value.DATE year month day)
          else Except.ok Value.null
        | _, _, _ => Except.ok Value.null
      else Except.ok Value.null := by
  by_cases hlen : val.length = 8
  · rw [if_pos hlen, if_pos hlen]
    cases stoi (substr val 0 4) <;> cases stoi (substr val 4 2) <;>
      cases stoi (substr val 6 2) <;> (simp only []; try rfl)
    split_ifs <;> rfl
  · rw [if_neg hlen, if_neg hlen]

theorem decodeSwitch_date (host : Host) (field : DbfField) (val : List Nat)
    (htype : field.type = DbfType.DATE) :
    decodeSwitch host field val =
      Except.ok (if val.length = 8 then
        match stoi (substr val 0 4), stoi (substr val 4 2), stoi (substr val 6 2) with
        | some year, some month, some day =>
          if Date.IsValid year month day then Value.DATE year month day else Value.null
        | _, _, _ => Value.null
      else Value.null) := by
  have hC : field.type ≠ DbfType.CHARACTER := by rw [htype]; decide
  have hN : ¬ (field.type = DbfType.NUMERIC ∨ field.type = DbfType.FLOAT) := by
    rw [htype]; decide
  have hL : field.type ≠ DbfType.LOGICAL := by rw [htype]; decide
  unfold decodeSwitch
  rw [if_neg hC, if_neg hN, if_neg hL, if_pos htype, decodeSwitch_date_body]

/-- C5 (as amended): a DATE field whose bytes lie in the record buffer decodes
to the date (y, m, d) exactly when its trimmed content has 8 characters, `std::stoi`
reads the numbers y, m, d at the start of its 4/2/2-character substrings
(ignoring what follows the digits), and they form a valid calendar date; every
other content is null, never an error.  For 8 digits this is the date they
spell, when valid. -/
theorem C5_date_reads_leading_numbers (host : Host)
    (field : DbfField) (record_data : List Nat) (offset : Nat)
    (htype : field.type = DbfType.DATE)
    (hfit : offset + field.length ≤ record_data.length) :
    (∀ y m d : Int, (decodeField host field record_data offset).1 = Except.ok (Value.DATE y m d) ↔
      ((trimSpaces (substr record_data offset field.length)).length = 8 ∧
       stoi (substr (trimSpaces (substr record_data offset field.length)) 0 4) = some y ∧
       stoi (substr (trimSpaces (substr record_data offset field.length)) 4 2) = some m ∧
       stoi (substr (trimSpaces (substr record_data offset field.length)) 6 2) = some d ∧
       Date.IsValid y m d = true)) ∧
    ((decodeField host field record_data offset).1 = Except.ok Value.null ∨
      ∃ y m d : Int, (decodeField host field record_data offset).1 = Except.ok (Value.DATE y m d)) ∧
    ((trimSpaces (substr record_data offset field.length)).length ≠ 8 →
      (decodeField host field record_data offset).1 = Except.ok Value.null) ∧
    ((trimSpaces (substr record_data offset field.length)).length = 8 →
      (∀ c ∈ trimSpaces (substr record_data offset field.length), isdigit c = true) →
      (decodeField host field record_data offset).1 = Except.ok
        (if Date.IsValid
            (digitsValue (substr (trimSpaces (substr record_data offset field.length)) 0 4))
            (digitsValue (substr (trimSpaces (substr record_data offset field.length)) 4 2))
            (digitsValue (substr (trimSpaces (substr record_data offset field.length)) 6 2))
         then Value.DATE
            (digitsValue (substr (trimSpaces (substr record_data offset field.length)) 0 4))
            (digitsValue (substr (trimSpaces (substr record_data offset field.length)) 4 2))
            (digitsValue (substr (trimSpaces (substr record_data offset field.length)) 6 2))
         else Value.null)) := by
  rw [decodeField_date host field record_data offset htype hfit, decodeSwitch_date host field _ htype]
  generalize trimSpaces (substr record_data offset field.length) = val
  refine ⟨fun y m d => ?_, ?_, fun hlen => ?_, fun hlen hdig => ?_⟩
  · by_cases hlen : val.length = 8
    · rw [if_pos hlen]
      cases hy : stoi (substr val 0 4) <;> cases hm : stoi (substr val 4 2) <;>
        cases hd : stoi (substr val 6 2) <;> simp only [hlen, true_and]
      all_goals try (constructor <;> intro h <;> simp at h <;> done)
      rename_i y0 m0 d0
      by_cases hv : Date.IsValid y0 m0 d0 = true
      · rw [if_pos hv]
        constructor
        · intro h
          simp only [Except.ok.injEq, Value.DATE.injEq] at h
          obtain ⟨rfl, rfl, rfl⟩ := h
          exact ⟨rfl, rfl, rfl, hv⟩
        · rintro ⟨h1, h2, h3, -⟩
          simp only [Option.some.injEq] at h1 h2 h3
          subst h1 h2 h3
          rfl
      · rw [if_neg hv]
        constructor
        · intro h; simp at h
        · rintro ⟨h1, h2, h3, h4⟩
          simp only [Option.some.injEq] at h1 h2 h3
          subst h1 h2 h3
          exact absurd h4 hv
    · rw [if_neg hlen]
      constructor
      · intro h; simp at h
      · rintro ⟨h, -⟩; exact absurd h hlen
  · by_cases hlen : val.length = 8
    · rw [if_pos hlen]
      cases hy : stoi (substr val 0 4) <;> cases hm : stoi (substr val 4 2) <;>
        cases hd : stoi (substr val 6 2) <;> dsimp only
      all_goals first | exact Or.inl rfl | skip
      rename_i y0 m0 d0
      by_cases hv : Date.IsValid y0 m0 d0 = true
      · rw [if_pos hv]; exact Or.inr ⟨y0, m0, d0, rfl⟩
      · rw [if_neg hv]; exact Or.inl rfl
    · rw [if_neg hlen]; exact Or.inl rfl
  · rw [if_neg hlen]
  · rw [if_pos hlen]
    have hsub : ∀ p n, ∀ c ∈ substr val p n, isdigit c = true := by
      intro p n c hc
      unfold substr at hc
      exact hdig c ((List.drop_sublist _ _).subset ((List.take_sublist _ _).subset hc))
    have hl : ∀ p n, p + n ≤ 8 → (substr val p n).length = n := by
      intro p n hpn
      unfold substr
      rw [List.length_take, List.length_drop, hlen]
      omega
    have hne : ∀ p n, 0 < n → p + n ≤ 8 → substr val p n ≠ [] := by
      intro p n hn hpn hnil
      have := hl p n hpn
      rw [hnil] at this
      simp at this
      omega
    rw [stoi_digits _ (hne 0 4 (by omega) (by omega)) (by rw [hl 0 4 (by omega)]; omega) (hsub 0 4),
      stoi_digits _ (hne 4 2 (by omega) (by omega)) (by rw [hl 4 2 (by omega)]; omega) (hsub 4 2),
      stoi_digits _ (hne 6 2 (by omega) (by omega)) (by rw [hl 6 2 (by omega)]; omega) (hsub 6 2)]

/-- C5 at concrete fields: `"20230115"` decodes to 2023-01-15, the 7 characters
`"2023011"` and the letters `"abcdefgh"` to null. -/
theorem C5_date_reads_leading_numbers_witness :
    (0 + 8 ≤ [50, 48, 50, 51, 48, 49, 49, 53].length) ∧
    (decodeField sampleHost ⟨[68], DbfType.DATE, 8, 0⟩
      [50, 48, 50, 51, 48, 49, 49, 53] 0).1 = Except.ok (Value.DATE 2023 1 15) ∧
    (decodeField sampleHost ⟨[68], DbfType.DATE, 8, 0⟩
      [50, 48, 50, 51, 48, 49, 49, 32] 0).1 = Except.ok Value.null ∧
    (decodeField sampleHost ⟨[68], DbfType.DATE, 8, 0⟩
      [97, 98, 99, 100, 101, 102, 103, 104] 0).1 = Except.ok Value.null :=
  ⟨by decide,
   ((C5_date_reads_leading_numbers sampleHost ⟨[68], DbfType.DATE, 8, 0⟩
      [50, 48, 50, 51, 48, 49, 49, 53] 0 rfl (by decide)).1 2023 1 15).mpr
      ⟨by decide, by decide, by decide, by decide, by decide⟩,
   (C5_date_reads_leading_numbers sampleHost ⟨[68], DbfType.DATE, 8, 0⟩
      [50, 48, 50, 51, 48, 49, 49, 32] 0 rfl (by decide)).2.2.1 (by decide),
   by decide⟩

/-- C5 fails as stated: the 8 characters `"2023011x"`, whose day substring
`"1x"` is not numeric, decode to the date 2023-01-01 and not to null. -/
theorem C5_counterexample_day_with_letter :
    trimSpaces (substr [50, 48, 50, 51, 48, 49, 49, 120] 0 8)
      = [50, 48, 50, 51, 48, 49, 49, 120] ∧
    ¬ (∀ c ∈ substr [50, 48, 50, 51, 48, 49, 49, 120] 6 2, isdigit c = true) ∧
    (decodeField sampleHost ⟨[68], DbfType.DATE, 8, 0⟩
      [50, 48, 50, 51, 48, 49, 49, 120] 0).1 = Except.ok (Value.DATE 2023 1 1) ∧
    (decodeField sampleHost ⟨[68], DbfType.DATE, 8, 0⟩
      [50, 48, 50, 51, 48, 49, 49, 120] 0).1 ≠ Except.ok Value.null := by
  decide

/-! ### Header and schema parser -/

/-- C6 (as amended): a header whose `first_record_offset` lies in [1, 31] is not
rejected.  For every file of at least 32 bytes with such a header, `Open`
succeeds: it reads no field descriptor and returns the header with an empty
schema. -/
theorem C6_small_first_record_offset_gives_empty_schema (file : List Nat)
    (hlen : 32 ≤ file.length)
    (hlo : 1 ≤ (parseHeader (substr file 0 32)).m_uFirstRecordOffset)
    (hhi : (parseHeader (substr file 0 32)).m_uFirstRecordOffset ≤ 31) :
    DbfReader.Open file = Except.ok
      { handle := { data := file, pos := 32 }
        header := parseHeader (substr file 0 32)
        fields := []
        current_record := 0 } := by
  have hb : ¬ 32 < fieldTableBound (parseHeader (substr file 0 32)) := by
    unfold fieldTableBound
    rw [if_neg (by omega)]
    omega
  unfold DbfReader.Open DbfReader.ReadHeader FileHandle.Read
  simp only [Nat.zero_add, hlen, if_true]
  unfold readFields
  rw [if_neg hb]

/-- C6 at a concrete file: a bare 32-byte header with `first_record_offset = 16`. -/
theorem C6_small_first_record_offset_gives_empty_schema_witness :
    (32 ≤ ([3, 0, 0, 0, 0, 0, 0, 0, 16, 0, 1, 0] ++ List.replicate 20 0).length) ∧
    DbfReader.Open ([3, 0, 0, 0, 0, 0, 0, 0, 16, 0, 1, 0] ++ List.replicate 20 0) = Except.ok
      { handle := { data := [3, 0, 0, 0, 0, 0, 0, 0, 16, 0, 1, 0] ++ List.replicate 20 0, pos := 32 }
        header := parseHeader
          (substr ([3, 0, 0, 0, 0, 0, 0, 0, 16, 0, 1, 0] ++ List.replicate 20 0) 0 32)
        fields := []
        current_record := 0 } :=
  ⟨by decide,
   C6_small_first_record_offset_gives_empty_schema
    ([3, 0, 0, 0, 0, 0, 0, 0, 16, 0, 1, 0] ++ List.replicate 20 0)
    (by decide) (by decide) (by decide)⟩

/-- C6 fails as stated: a file whose header has `first_record_offset = 16`, below
32, is opened without any error and yields an empty schema. -/
theorem C6_counterexample_offset_16_is_accepted :
    (parseHeader (substr ([3, 0, 0, 0, 2, 0, 0, 0, 16, 0, 1, 0] ++ List.replicate 20 0) 0 32)
      ).m_uFirstRecordOffset = 16 ∧
    DbfReader.Open ([3, 0, 0, 0, 2, 0, 0, 0, 16, 0, 1, 0] ++ List.replicate 20 0) = Except.ok
      { handle := { data := [3, 0, 0, 0, 2, 0, 0, 0, 16, 0, 1, 0] ++ List.replicate 20 0, pos := 32 }
        header := { m_uNumRecords := 2, m_uFirstRecordOffset := 16, m_uRecordSize := 1 }
        fields := []
        current_record := 0 } := by
  decide

/-! ### Record scanner -/

theorem substr_tail (s : List Nat) (p n : Nat) :
    (substr s p (n + 1)).tail = substr s (p + 1) n := by
  unfold substr
  have h : List.drop (p + 1) s = (List.drop p s).tail := by
    rw [← List.drop_one, List.drop_drop, Nat.add_comm]
  rw [h]
  cases List.drop p s with
  | nil => simp
  | cons x xs => simp

theorem substr_one_eq (s : List Nat) (p n : Nat) (b : Nat) :
    substr s p 1 = [b] ↔ (substr s p (n + 1)).head? = some b := by
  unfold substr
  cases h : List.drop p s with
  | nil => simp
  | cons x xs => simp

theorem liveRecordsFrom_of_ge (data : List Nat) (header : DbfHeader) (c : Nat)
    (h : header.m_uNumRecords ≤ c) : liveRecordsFrom data header c = [] := by
  unfold liveRecordsFrom
  rw [Nat.sub_eq_zero_of_le h]
  rfl

theorem liveRecordsFrom_of_lt (data : List Nat) (header : DbfHeader) (c : Nat)
    (h : c < header.m_uNumRecords) :
    liveRecordsFrom data header c =
      (if (recordSlot data header c).head? = some 42 then []
        else [(recordSlot data header c).tail]) ++ liveRecordsFrom data header (c + 1) := by
  unfold liveRecordsFrom
  have : header.m_uNumRecords - c = (header.m_uNumRecords - (c + 1)) + 1 := by omega
  rw [this, List.range'_succ, List.map_cons, List.filter_cons]
  by_cases h42 : (recordSlot data header c).head? = some 42
  · simp [h42]
  · simp [h42]

theorem FileHandle.Read_of_le (h : FileHandle) (n : Nat) (hle : h.pos + n ≤ h.data.length) :
    h.Read n = some (substr h.data h.pos n, { h with pos := h.pos + n }) := by
  unfold FileHandle.Read
  rw [if_pos hle]

theorem ReadNextRecordAux_spec (host : Host) :
    ∀ (fuel : Nat) (r : DbfReader) (output : List Row) (output_idx : Nat),
      1 ≤ r.header.m_uRecordSize →
      r.header.m_uFirstRecordOffset + r.header.m_uNumRecords * r.header.m_uRecordSize
        ≤ r.handle.data.length →
      r.header.m_uNumRecords - r.current_record + 1 ≤ fuel →
      (liveRecordsFrom r.handle.data r.header r.current_record = [] →
        ∃ r1, ReadNextRecordAux host fuel r output output_idx
            = Except.ok (false, r1, output, output_idx) ∧
          r1.handle.data = r.handle.data ∧ r1.header = r.header ∧ r1.fields = r.fields ∧
          r.header.m_uNumRecords ≤ r1.current_record ∧ r.current_record ≤ r1.current_record) ∧
      (∀ record rest, liveRecordsFrom r.handle.data r.header r.current_record = record :: rest →
        (∀ e, decodeRow host r.fields record = Except.error e →
          ReadNextRecordAux host fuel r output output_idx = Except.error e) ∧
        (∀ row, decodeRow host r.fields record = Except.ok row →
          ∃ r1, ReadNextRecordAux host fuel r output output_idx
              = Except.ok (true, r1, setRow output output_idx row, output_idx + 1) ∧
            r1.handle.data = r.handle.data ∧ r1.header = r.header ∧ r1.fields = r.fields ∧
            liveRecordsFrom r.handle.data r.header r1.current_record = rest ∧
            r.current_record < r1.current_record ∧
            r1.current_record ≤ r.header.m_uNumRecords)) := by
  intro fuel
  induction fuel with
  | zero => intro r output output_idx _ _ hfuel; omega
  | succ fuel ih =>
    intro r output output_idx hsize hfile hfuel
    rw [ReadNextRecordAux]
    by_cases hge : r.current_record ≥ r.header.m_uNumRecords
    · rw [if_pos hge, liveRecordsFrom_of_ge _ _ _ hge]
      exact ⟨fun _ => ⟨r, rfl, rfl, rfl, rfl, hge, le_refl _⟩, fun record rest h => (by cases h)⟩
    · rw [if_neg hge]
      have hlt : r.current_record < r.header.m_uNumRecords := by omega
      obtain ⟨k, hk⟩ : ∃ k, r.header.m_uRecordSize = k + 1 := ⟨r.header.m_uRecordSize - 1, by omega⟩
      have hmul : r.current_record * r.header.m_uRecordSize + r.header.m_uRecordSize
          ≤ r.header.m_uNumRecords * r.header.m_uRecordSize := by
        have := Nat.mul_le_mul_right r.header.m_uRecordSize
          (show r.current_record + 1 ≤ r.header.m_uNumRecords by omega)
        rwa [Nat.add_mul, Nat.one_mul] at this
      have hread1 := FileHandle.Read_of_le
        (r.handle.Seek (r.header.m_uFirstRecordOffset
          + r.current_record * r.header.m_uRecordSize)) 1
        (by simp only [FileHandle.Seek]; omega)
      rw [hread1]
      simp only [FileHandle.Seek]
      rw [if_neg (by omega)]
      have hread2 := FileHandle.Read_of_le
        { data := r.handle.data
          pos := r.header.m_uFirstRecordOffset
            + r.current_record * r.header.m_uRecordSize + 1 }
        (r.header.m_uRecordSize - 1) (by simp only []; omega)
      rw [hread2]
      simp only []
      have hslot_tail : (recordSlot r.handle.data r.header r.current_record).tail
          = substr r.handle.data (r.header.m_uFirstRecordOffset
              + r.current_record * r.header.m_uRecordSize + 1) (r.header.m_uRecordSize - 1) := by
        unfold recordSlot
        rw [hk, substr_tail]
        rfl
      have hslot_head : substr r.handle.data (r.header.m_uFirstRecordOffset
            + r.current_record * r.header.m_uRecordSize) 1 = [42]
          ↔ (recordSlot r.handle.data r.header r.current_record).head? = some 42 := by
        unfold recordSlot
        rw [hk]
        exact substr_one_eq _ _ k 42
      have hlive := liveRecordsFrom_of_lt r.handle.data r.header r.current_record hlt
      by_cases hdel : substr r.handle.data (r.header.m_uFirstRecordOffset
            + r.current_record * r.header.m_uRecordSize) 1 = [42]
      · rw [if_pos hdel]
        rw [if_pos (hslot_head.mp hdel), List.nil_append] at hlive
        have hrec := ih
          { r with
            handle := { data := r.handle.data
                        pos := r.header.m_uFirstRecordOffset
                          + r.current_record * r.header.m_uRecordSize + 1
                          + (r.header.m_uRecordSize - 1) }
            current_record := r.current_record + 1 }
          output output_idx hsize hfile (by simp only []; omega)
        simp only [] at hrec
        rw [hlive]
        refine ⟨fun hnil => ?_, fun record rest hcons => ⟨fun e he => ?_, fun row hrow => ?_⟩⟩
        · obtain ⟨r1, h1, h2, h3, h4, h5, h6⟩ := hrec.1 hnil
          exact ⟨r1, h1, h2, h3, h4, h5, by omega⟩
        · exact (hrec.2 record rest hcons).1 e he
        · obtain ⟨r1, h1, h2, h3, h4, h5, h6, h7⟩ := (hrec.2 record rest hcons).2 row hrow
          exact ⟨r1, h1, h2, h3, h4, h5, by omega, h7⟩
      · rw [if_neg hdel]
        rw [if_neg (fun h => hdel (hslot_head.mpr h)), hslot_tail] at hlive
        rw [hlive]
        refine ⟨fun hnil => (by simp at hnil), fun record rest hcons => ?_⟩
        simp only [List.singleton_append, List.cons.injEq] at hcons
        obtain ⟨hrec, hrest⟩ := hcons
        rw [hrec]
        refine ⟨fun e he => ?_, fun row hrow => ?_⟩
        · rw [he]
        · rw [hrow]
          exact ⟨_, rfl, rfl, rfl, rfl, hrest, by simp only []; omega, by simp only []; omega⟩

theorem mapM_cons_error {α β : Type} (f : α → Except Fault β) (a : α) (l : List α) (e : Fault)
    (h : f a = Except.error e) : (a :: l).mapM f = Except.error e := by
  rw [List.mapM_cons, h]
  rfl

theorem mapM_cons_ok {α β : Type} (f : α → Except Fault β) (a : α) (l : List α) (b : β)
    (h : f a = Except.ok b) :
    (a :: l).mapM f = (match l.mapM f with
      | Except.error e => Except.error e
      | Except.ok bs => Except.ok (b :: bs)) := by
  rw [List.mapM_cons, h]
  cases l.mapM f <;> rfl

theorem setRow_length (output : List Row) (row : Row) :
    setRow output output.length row = output ++ [row] := by
  unfold setRow
  simp

theorem ReadDbfLoop_spec (host : Host) (max_rows : Nat) :
    ∀ (fuel : Nat) (r : DbfReader) (output : List Row) (output_idx : Nat),
      1 ≤ r.header.m_uRecordSize →
      r.header.m_uFirstRecordOffset + r.header.m_uNumRecords * r.header.m_uRecordSize
        ≤ r.handle.data.length →
      output.length = output_idx →
      max_rows - output_idx ≤ fuel →
      (∀ e, ((liveRecordsFrom r.handle.data r.header r.current_record).take
            (max_rows - output_idx)).mapM (decodeRow host r.fields) = Except.error e →
        ReadDbfLoop host max_rows fuel r output output_idx = Except.error e) ∧
      (∀ rows, ((liveRecordsFrom r.handle.data r.header r.current_record).take
            (max_rows - output_idx)).mapM (decodeRow host r.fields) = Except.ok rows →
        ∃ r1, ReadDbfLoop host max_rows fuel r output output_idx
            = Except.ok (r1, output ++ rows, output_idx + rows.length) ∧
          r1.handle.data = r.handle.data ∧ r1.header = r.header ∧ r1.fields = r.fields ∧
          liveRecordsFrom r.handle.data r.header r1.current_record
            = (liveRecordsFrom r.handle.data r.header r.current_record).drop
                (max_rows - output_idx) ∧
          r.current_record ≤ r1.current_record) := by
  have hstop : ∀ (r : DbfReader) (output : List Row) (output_idx : Nat),
      ¬ output_idx < max_rows →
      (∀ e, ((liveRecordsFrom r.handle.data r.header r.current_record).take
            (max_rows - output_idx)).mapM (decodeRow host r.fields) = Except.error e →
        (Except.ok (r, output, output_idx) : Except Fault (DbfReader × List Row × Nat))
          = Except.error e) ∧
      (∀ rows, ((liveRecordsFrom r.handle.data r.header r.current_record).take
            (max_rows - output_idx)).mapM (decodeRow host r.fields) = Except.ok rows →
        ∃ r1, (Except.ok (r, output, output_idx) : Except Fault (DbfReader × List Row × Nat))
            = Except.ok (r1, output ++ rows, output_idx + rows.length) ∧
          r1.handle.data = r.handle.data ∧ r1.header = r.header ∧ r1.fields = r.fields ∧
          liveRecordsFrom r.handle.data r.header r1.current_record
            = (liveRecordsFrom r.handle.data r.header r.current_record).drop
                (max_rows - output_idx) ∧
          r.current_record ≤ r1.current_record) := by
    intro r output output_idx hlt
    have h0 : max_rows - output_idx = 0 := by omega
    rw [h0, List.take_zero, List.mapM_nil, List.drop_zero]
    refine ⟨fun e he => (by cases he), fun rows hrows => ?_⟩
    cases hrows
    exact ⟨r, by simp, rfl, rfl, rfl, rfl, le_refl _⟩
  intro fuel
  induction fuel with
  | zero =>
    intro r output output_idx _ _ _ hfuel
    rw [ReadDbfLoop, if_neg (by omega)]
    exact hstop r output output_idx (by omega)
  | succ fuel ih =>
    intro r output output_idx hsize hfile hout hfuel
    rw [ReadDbfLoop]
    by_cases hlt : output_idx < max_rows
    swap
    · rw [if_neg hlt]
      exact hstop r output output_idx hlt
    rw [if_pos hlt]
    unfold DbfReader.ReadNextRecord
    have hspec := ReadNextRecordAux_spec host (r.header.m_uNumRecords - r.current_record + 1)
      r output output_idx hsize hfile (le_refl _)
    obtain ⟨n, hn⟩ : ∃ n, max_rows - output_idx = n + 1 := ⟨max_rows - output_idx - 1, by omega⟩
    cases hl : liveRecordsFrom r.handle.data r.header r.current_record with
    | nil =>
      obtain ⟨r1, h1, h2, h3, h4, h5, h6⟩ := hspec.1 hl
      rw [h1]
      simp only [List.take_nil, List.mapM_nil, List.drop_nil]
      refine ⟨fun e he => (by cases he), fun rows hrows => ?_⟩
      cases hrows
      exact ⟨r1, by simp, h2, h3, h4, liveRecordsFrom_of_ge _ _ _ h5, h6⟩
    | cons record rest =>
      rw [hn, List.take_succ_cons, List.drop_succ_cons]
      cases hd : decodeRow host r.fields record with
      | error e0 =>
        rw [(hspec.2 record rest hl).1 e0 hd, mapM_cons_error _ _ _ e0 hd]
        refine ⟨fun e he => ?_, fun rows hrows => (by cases hrows)⟩
        cases he
        rfl
      | ok row =>
        obtain ⟨r1, h1, h2, h3, h4, h5, h6, h7⟩ := (hspec.2 record rest hl).2 row hd
        rw [h1, mapM_cons_ok _ _ _ row hd]
        simp only []
        have hih := ih r1 (setRow output output_idx row) (output_idx + 1)
          (by rw [h3]; exact hsize) (by rw [h2, h3]; exact hfile)
          (by rw [← hout, setRow_length]; simp) (by omega)
        rw [h2, h3, h4, h5, show max_rows - (output_idx + 1) = n by omega] at hih
        cases hm : (rest.take n).mapM (decodeRow host r.fields) with
        | error e1 =>
          simp only []
          refine ⟨fun e he => ?_, fun rows hrows => (by cases hrows)⟩
          cases he
          exact hih.1 e1 hm
        | ok bs =>
          simp only []
          refine ⟨fun e he => (by cases he), fun rows hrows => ?_⟩
          cases hrows
          obtain ⟨r2, g1, g2, g3, g4, g5, g6⟩ := hih.2 bs hm
          refine ⟨r2, ?_, g2, g3, g4, g5, by omega⟩
          rw [g1, ← hout, setRow_length]
          simp [Nat.add_comm, Nat.add_left_comm]

theorem ReadDbfFunction_spec (host : Host) (max_rows : Nat) (r : DbfReader)
    (hsize : 1 ≤ r.header.m_uRecordSize)
    (hfile : r.header.m_uFirstRecordOffset + r.header.m_uNumRecords * r.header.m_uRecordSize
      ≤ r.handle.data.length) :
    (∀ e, ((liveRecordsFrom r.handle.data r.header r.current_record).take max_rows).mapM
          (decodeRow host r.fields) = Except.error e →
      ReadDbfFunction host max_rows r = Except.error e) ∧
    (∀ rows, ((liveRecordsFrom r.handle.data r.header r.current_record).take max_rows).mapM
          (decodeRow host r.fields) = Except.ok rows →
      ∃ r1, ReadDbfFunction host max_rows r = Except.ok (r1, rows) ∧
        r1.handle.data = r.handle.data ∧ r1.header = r.header ∧ r1.fields = r.fields ∧
        liveRecordsFrom r.handle.data r.header r1.current_record
          = (liveRecordsFrom r.handle.data r.header r.current_record).drop max_rows ∧
        r.current_record ≤ r1.current_record) := by
  have h := ReadDbfLoop_spec host max_rows max_rows r [] 0 hsize hfile rfl (by omega)
  rw [Nat.sub_zero] at h
  unfold ReadDbfFunction
  refine ⟨fun e he => ?_, fun rows hrows => ?_⟩
  · rw [h.1 e he]
  · obtain ⟨r1, h1, h2, h3, h4, h5, h6⟩ := h.2 rows hrows
    rw [h1]
    exact ⟨r1, by simp, h2, h3, h4, h5, h6⟩

theorem mapM_ok_length {α β : Type} (f : α → Except Fault β) :
    ∀ (l : List α) (bs : List β), l.mapM f = Except.ok bs → bs.length = l.length
  | [], bs, h => by
    rw [List.mapM_nil] at h
    cases h
    rfl
  | a :: l, bs, h => by
    cases ha : f a with
    | error e =>
      rw [mapM_cons_error f a l e ha] at h
      cases h
    | ok b =>
      rw [mapM_cons_ok f a l b ha] at h
      cases hl : l.mapM f with
      | error e =>
        rw [hl] at h
        cases h
      | ok bs0 =>
        rw [hl] at h
        cases h
        simp [mapM_ok_length f l bs0 hl]

theorem mapM_ok_of_forall {α β : Type} (f : α → Except Fault β) :
    ∀ (l : List α), (∀ a ∈ l, ∃ b, f a = Except.ok b) → ∃ bs, l.mapM f = Except.ok bs
  | [], _ => ⟨[], by rw [List.mapM_nil]; rfl⟩
  | a :: l, h => by
    obtain ⟨b, hb⟩ := h a (List.mem_cons_self _ _)
    obtain ⟨bs, hbs⟩ := mapM_ok_of_forall f l (fun x hx => h x (List.mem_cons_of_mem _ hx))
    exact ⟨b :: bs, by rw [mapM_cons_ok f a l b hb, hbs]⟩

theorem decodeSwitch_cases (host : Host) (field : DbfField) (val : List Nat) :
    (∃ v, decodeSwitch host field val = Except.ok v) ∨
    (field.type = DbfType.CHARACTER ∧ host.StringIsValid val = false ∧
      decodeSwitch host field val = Except.error Fault.invalidString) := by
  by_cases hC : field.type = DbfType.CHARACTER
  · unfold decodeSwitch
    rw [if_pos hC]
    by_cases hv : host.StringIsValid val = true
    · exact Or.inl ⟨_, by rw [if_pos hv]⟩
    · exact Or.inr ⟨hC, by simpa using hv, by rw [if_neg hv]⟩
  · left
    unfold decodeSwitch
    rw [if_neg hC]
    repeat' split
    all_goals exact ⟨_, rfl⟩

theorem all_spaces_iff (raw : List Nat) :
    raw.all (fun b => b == 32) = true ↔ ∀ b ∈ raw, b = 32 := by
  simp [List.all_eq_true]

theorem decodeField_ok_of_accepted (host : Host) (field : DbfField)
    (record_data : List Nat) (offset : Nat)
    (hfit : offset + footprint field ≤ record_data.length)
    (hacc : stringAccepted host field record_data offset = true) :
    ∃ v, (decodeField host field record_data offset).1 = Except.ok v := by
  unfold decodeField
  unfold footprint at hfit
  by_cases hI : field.type = DbfType.INTEGER
  · rw [if_pos hI]
    by_cases h4 : offset + 4 ≤ record_data.length
    · exact ⟨_, by rw [if_pos h4]⟩
    · exact ⟨_, by rw [if_neg h4]⟩
  · rw [if_neg hI]
    by_cases hO : field.type = DbfType.DOUBLE
    · rw [if_pos hO]
      by_cases h8 : offset + 8 ≤ record_data.length
      · exact ⟨_, by rw [if_pos h8]⟩
      · exact ⟨_, by rw [if_neg h8]⟩
    · rw [if_neg hO]
      rw [if_neg hI, if_neg hO] at hfit
      simp only []
      rw [if_pos hfit]
      by_cases hsp : ∀ b ∈ substr record_data offset field.length, b = 32
      · exact ⟨_, decodeRaw_of_spaces host field _ hsp⟩
      · have hns : ∃ b ∈ substr record_data offset field.length, b ≠ 32 := by
          push_neg at hsp
          exact hsp
        rw [decodeRaw_of_nonspace host field _ hns]
        rcases decodeSwitch_cases host field
          (trimSpaces (substr record_data offset field.length)) with h | ⟨hC, hv, -⟩
        · exact h
        · exfalso
          unfold stringAccepted at hacc
          rw [if_pos hC, Bool.or_eq_true, all_spaces_iff] at hacc
          rcases hacc with h | h
          · exact hsp h
          · rw [hv] at h
            cases h

theorem decodeCells_ok_of_fit (host : Host) (record_data : List Nat) :
    ∀ (fields : List DbfField) (offset : Nat),
      offset + (fields.map footprint).sum ≤ record_data.length →
      stringsAccepted host fields record_data offset = true →
      ∀ c ∈ decodeCells host fields record_data offset, ∃ v, c = Except.ok v
  | [], _, _, _, c, hc => by simp [decodeCells] at hc
  | field :: rest, offset, hfit, hacc, c, hc => by
    rw [List.map_cons, List.sum_cons] at hfit
    rw [stringsAccepted, Bool.and_eq_true] at hacc
    rw [decodeCells, List.mem_cons] at hc
    rcases hc with hc | hc
    · rw [hc]
      exact decodeField_ok_of_accepted host field record_data offset (by omega) hacc.1
    · rw [decodeField_snd] at hc
      exact decodeCells_ok_of_fit host record_data rest _ (by omega) hacc.2 c hc

theorem decodeRow_ok_of_fit (host : Host) (fields : List DbfField)
    (record_data : List Nat) (hfit : (fields.map footprint).sum ≤ record_data.length)
    (hacc : stringsAccepted host fields record_data 0 = true) :
    ∃ row, decodeRow host fields record_data = Except.ok row := by
  unfold decodeRow
  apply mapM_ok_of_forall
  intro c hc
  obtain ⟨v, hv⟩ := decodeCells_ok_of_fit host record_data fields 0 (by omega) hacc c hc
  exact ⟨v, by rw [hv]; rfl⟩

theorem liveRecordsFrom_length (data : List Nat) (header : DbfHeader)
    (hfile : header.m_uFirstRecordOffset + header.m_uNumRecords * header.m_uRecordSize
      ≤ data.length) :
    ∀ (c : Nat), ∀ record ∈ liveRecordsFrom data header c,
      record.length = header.m_uRecordSize - 1 := by
  intro c record hrec
  unfold liveRecordsFrom at hrec
  simp only [List.mem_map, List.mem_filter, List.mem_range'_1] at hrec
  obtain ⟨slot, ⟨⟨i, ⟨_, hi⟩, hslot⟩, _⟩, htail⟩ := hrec
  have hmul : i * header.m_uRecordSize + header.m_uRecordSize
      ≤ header.m_uNumRecords * header.m_uRecordSize := by
    have := Nat.mul_le_mul_right header.m_uRecordSize
      (show i + 1 ≤ header.m_uNumRecords by omega)
    rwa [Nat.add_mul, Nat.one_mul] at this
  rw [← htail, ← hslot, List.length_tail]
  unfold recordSlot substr
  rw [List.length_take, List.length_drop]
  omega

theorem sampleReader_open : DbfReader.Open sampleFile = Except.ok sampleReader := by
  decide

/-! ### Batches -/

theorem ReadNextRecordAux_cases (host : Host) :
    ∀ (fuel : Nat) (r : DbfReader),
      (∃ e, ∀ output output_idx,
        ReadNextRecordAux host fuel r output output_idx = Except.error e) ∨
      (∃ r1, r1.header.m_uNumRecords ≤ r1.current_record ∧ ∀ output output_idx,
        ReadNextRecordAux host fuel r output output_idx
          = Except.ok (false, r1, output, output_idx)) ∨
      (∃ r1 row, ∀ output output_idx,
        ReadNextRecordAux host fuel r output output_idx
          = Except.ok (true, r1, setRow output output_idx row, output_idx + 1)) := by
  intro fuel
  induction fuel with
  | zero => intro r; exact Or.inl ⟨Fault.outOfFuel, fun _ _ => rfl⟩
  | succ fuel ih =>
    intro r
    by_cases hge : r.current_record ≥ r.header.m_uNumRecords
    · refine Or.inr (Or.inl ⟨r, hge, fun output output_idx => ?_⟩)
      rw [ReadNextRecordAux, if_pos hge]
    · cases h1 : (r.handle.Seek (r.header.m_uFirstRecordOffset
          + r.current_record * r.header.m_uRecordSize)).Read 1 with
      | none =>
        refine Or.inl ⟨Fault.shortRead, fun output output_idx => ?_⟩
        rw [ReadNextRecordAux, if_neg hge, h1]
      | some p1 =>
        obtain ⟨delete_flag, handle1⟩ := p1
        by_cases hz : r.header.m_uRecordSize = 0
        · refine Or.inl ⟨Fault.badAlloc, fun output output_idx => ?_⟩
          rw [ReadNextRecordAux, if_neg hge, h1]
          simp only []
          rw [if_pos hz]
        · cases h2 : handle1.Read (r.header.m_uRecordSize - 1) with
          | none =>
            refine Or.inl ⟨Fault.shortRead, fun output output_idx => ?_⟩
            rw [ReadNextRecordAux, if_neg hge, h1]
            simp only []
            rw [if_neg hz, h2]
          | some p2 =>
            obtain ⟨record_data, handle2⟩ := p2
            by_cases hdel : delete_flag = [42]
            · rcases ih { r with handle := handle2, current_record := r.current_record + 1 }
                with ⟨e, he⟩ | ⟨r1, hr1, hf⟩ | ⟨r1, row, ht⟩
              · refine Or.inl ⟨e, fun output output_idx => ?_⟩
                rw [ReadNextRecordAux, if_neg hge, h1]
                simp only []
                rw [if_neg hz, h2]
                simp only []
                rw [if_pos hdel, he]
              · refine Or.inr (Or.inl ⟨r1, hr1, fun output output_idx => ?_⟩)
                rw [ReadNextRecordAux, if_neg hge, h1]
                simp only []
                rw [if_neg hz, h2]
                simp only []
                rw [if_pos hdel, hf]
              · refine Or.inr (Or.inr ⟨r1, row, fun output output_idx => ?_⟩)
                rw [ReadNextRecordAux, if_neg hge, h1]
                simp only []
                rw [if_neg hz, h2]
                simp only []
                rw [if_pos hdel, ht]
            · cases hrow : decodeRow host r.fields record_data with
              | error e =>
                refine Or.inl ⟨e, fun output output_idx => ?_⟩
                rw [ReadNextRecordAux, if_neg hge, h1]
                simp only []
                rw [if_neg hz, h2]
                simp only []
                rw [if_neg hdel, hrow]
              | ok row =>
                refine Or.inr (Or.inr
                  ⟨{ r with handle := handle2, current_record := r.current_record + 1 }, row,
                    fun output output_idx => ?_⟩)
                rw [ReadNextRecordAux, if_neg hge, h1]
                simp only []
                rw [if_neg hz, h2]
                simp only []
                rw [if_neg hdel, hrow]

theorem ReadNextRecord_at_end (host : Host) (r : DbfReader)
    (h : r.header.m_uNumRecords ≤ r.current_record) (output : List Row) (output_idx : Nat) :
    DbfReader.ReadNextRecord host r output output_idx
      = Except.ok (false, r, output, output_idx) := by
  unfold DbfReader.ReadNextRecord
  rw [ReadNextRecordAux, if_pos h]

theorem ReadNextRecord_cases (host : Host) (r : DbfReader) :
    (∃ e, ∀ output output_idx,
      DbfReader.ReadNextRecord host r output output_idx = Except.error e) ∨
    (∃ r1, r1.header.m_uNumRecords ≤ r1.current_record ∧ ∀ output output_idx,
      DbfReader.ReadNextRecord host r output output_idx
        = Except.ok (false, r1, output, output_idx)) ∨
    (∃ r1 row, ∀ output output_idx,
      DbfReader.ReadNextRecord host r output output_idx
        = Except.ok (true, r1, setRow output output_idx row, output_idx + 1)) :=
  ReadNextRecordAux_cases host _ r

theorem ReadDbfLoop_shift (host : Host) :
    ∀ (n max_rows output_idx fuel : Nat) (r : DbfReader) (output : List Row),
      max_rows - output_idx = n → n ≤ fuel → output.length = output_idx →
      ReadDbfLoop host max_rows fuel r output output_idx
        = (match ReadDbfLoop host n n r [] 0 with
          | Except.error e => Except.error e
          | Except.ok (r1, output1, output_idx1) =>
            Except.ok (r1, output ++ output1, output_idx + output_idx1)) := by
  intro n
  induction n with
  | zero =>
    intro max_rows output_idx fuel r output hn _ _
    have hstop : ¬ output_idx < max_rows := by omega
    have hL : ReadDbfLoop host max_rows fuel r output output_idx
        = Except.ok (r, output, output_idx) := by
      cases fuel with
      | zero => rw [ReadDbfLoop, if_neg hstop]
      | succ f => rw [ReadDbfLoop, if_neg hstop]
    rw [hL, ReadDbfLoop, if_neg (by omega)]
    simp
  | succ n ih =>
    intro max_rows output_idx fuel r output hn hfuel hout
    obtain ⟨f, rfl⟩ : ∃ f, fuel = f + 1 := ⟨fuel - 1, by omega⟩
    have hlt : output_idx < max_rows := by omega
    rw [ReadDbfLoop, if_pos hlt, ReadDbfLoop, if_pos (by omega)]
    rcases ReadNextRecord_cases host r with ⟨e, he⟩ | ⟨r1, _, hf⟩ | ⟨r1, row, ht⟩
    · rw [he, he]
    · rw [hf, hf]
      simp
    · rw [ht, ht]
      simp only []
      rw [ih max_rows (output_idx + 1) f r1 (setRow output output_idx row) (by omega) (by omega)
          (by rw [← hout, setRow_length]; simp),
        ih (n + 1) (0 + 1) n r1 (setRow [] 0 row) (by omega) (le_refl _) (by simp [setRow])]
      cases ReadDbfLoop host n n r1 [] 0 with
      | error e => rfl
      | ok p =>
        obtain ⟨r2, output2, output_idx2⟩ := p
        simp only []
        rw [← hout, setRow_length]
        simp [setRow, Nat.add_assoc]

theorem ReadDbfLoop_length (host : Host) :
    ∀ (n : Nat) (r r1 : DbfReader) (output : List Row) (output_idx : Nat),
      ReadDbfLoop host n n r [] 0 = Except.ok (r1, output, output_idx) →
      output.length = output_idx := by
  intro n
  induction n with
  | zero =>
    intro r r1 output output_idx h
    rw [ReadDbfLoop, if_neg (by omega)] at h
    cases h
    rfl
  | succ n ih =>
    intro r r1 output output_idx h
    rw [ReadDbfLoop, if_pos (by omega)] at h
    rcases ReadNextRecord_cases host r with ⟨e, he⟩ | ⟨r1, _, hf⟩ | ⟨r2, row, ht⟩
    · rw [he] at h
      cases h
    · rw [hf] at h
      cases h
      rfl
    · rw [ht] at h
      simp only [] at h
      rw [ReadDbfLoop_shift host n (n + 1) (0 + 1) n r2 (setRow [] 0 row) (by omega) (le_refl _)
        (by simp [setRow])] at h
      cases hq : ReadDbfLoop host n n r2 [] 0 with
      | error e =>
        rw [hq] at h
        cases h
      | ok p =>
        obtain ⟨r3, output3, output_idx3⟩ := p
        rw [hq] at h
        simp only [Except.ok.injEq, Prod.mk.injEq] at h
        obtain ⟨-, h2, h3⟩ := h
        have := ih r2 r3 output3 output_idx3 hq
        rw [← h2, ← h3]
        simp [setRow, this, Nat.add_comm]

theorem ReadDbfFunction_zero (host : Host) (r : DbfReader) :
    ReadDbfFunction host 0 r = Except.ok (r, []) := by
  unfold ReadDbfFunction
  rw [ReadDbfLoop, if_neg (by omega)]
  rfl

theorem ReadDbfFunction_succ_error (host : Host) (n : Nat) (r : DbfReader)
    (e : Fault)
    (h : ∀ output output_idx, DbfReader.ReadNextRecord host r output output_idx
      = Except.error e) :
    ReadDbfFunction host (n + 1) r = Except.error e := by
  unfold ReadDbfFunction
  rw [ReadDbfLoop, if_pos (by omega), h]

theorem ReadDbfFunction_succ_false (host : Host) (n : Nat) (r r1 : DbfReader)
    (h : ∀ output output_idx, DbfReader.ReadNextRecord host r output output_idx
      = Except.ok (false, r1, output, output_idx)) :
    ReadDbfFunction host (n + 1) r = Except.ok (r1, []) := by
  unfold ReadDbfFunction
  rw [ReadDbfLoop, if_pos (by omega), h]
  rfl

theorem ReadDbfFunction_succ_true (host : Host) (n : Nat) (r r1 : DbfReader)
    (row : Row)
    (h : ∀ output output_idx, DbfReader.ReadNextRecord host r output output_idx
      = Except.ok (true, r1, setRow output output_idx row, output_idx + 1)) :
    ReadDbfFunction host (n + 1) r
      = (match ReadDbfFunction host n r1 with
        | Except.error e => Except.error e
        | Except.ok (r2, rows) => Except.ok (r2, row :: rows)) := by
  unfold ReadDbfFunction
  rw [ReadDbfLoop, if_pos (by omega), h]
  simp only []
  rw [ReadDbfLoop_shift host n (n + 1) (0 + 1) n r1 (setRow [] 0 row) (by omega) (le_refl _)
    (by simp [setRow])]
  cases hq : ReadDbfLoop host n n r1 [] 0 with
  | error e => rfl
  | ok p =>
    obtain ⟨r2, output2, output_idx2⟩ := p
    have hlen := ReadDbfLoop_length host n r1 r2 output2 output_idx2 hq
    simp only []
    subst hlen
    simp [setRow, Nat.add_comm]

theorem ReadDbfFunction_at_end (host : Host) (r : DbfReader)
    (h : r.header.m_uNumRecords ≤ r.current_record) (n : Nat) :
    ReadDbfFunction host n r = Except.ok (r, []) := by
  cases n with
  | zero => exact ReadDbfFunction_zero host r
  | succ n => exact ReadDbfFunction_succ_false host n r r (ReadNextRecord_at_end host r h)

theorem ReadDbfFunction_add (host : Host) :
    ∀ (a b : Nat) (r : DbfReader),
      ReadDbfFunction host (a + b) r
        = (match ReadDbfFunction host a r with
          | Except.error e => Except.error e
          | Except.ok (r1, rows) =>
            match ReadDbfFunction host b r1 with
            | Except.error e => Except.error e
            | Except.ok (r2, more) => Except.ok (r2, rows ++ more)) := by
  intro a
  induction a with
  | zero =>
    intro b r
    rw [Nat.zero_add, ReadDbfFunction_zero]
    simp only []
    cases ReadDbfFunction host b r with
    | error e => rfl
    | ok p => rfl
  | succ a ih =>
    intro b r
    rw [show a + 1 + b = (a + b) + 1 by omega]
    rcases ReadNextRecord_cases host r with ⟨e, he⟩ | ⟨r1, hend, hf⟩ | ⟨r1, row, ht⟩
    · rw [ReadDbfFunction_succ_error host _ r e he, ReadDbfFunction_succ_error host _ r e he]
    · rw [ReadDbfFunction_succ_false host _ r r1 hf, ReadDbfFunction_succ_false host _ r r1 hf]
      simp only []
      rw [ReadDbfFunction_at_end host r1 hend b]
      rfl
    · rw [ReadDbfFunction_succ_true host _ r r1 row ht,
        ReadDbfFunction_succ_true host _ r r1 row ht, ih b r1]
      cases ReadDbfFunction host a r1 with
      | error e => rfl
      | ok p =>
        obtain ⟨r2, rows⟩ := p
        simp only []
        cases ReadDbfFunction host b r2 with
        | error e => rfl
        | ok q => rfl

theorem fillBatches_eq (host : Host) :
    ∀ (limits : List Nat) (r : DbfReader),
      fillBatches host limits r = ReadDbfFunction host limits.sum r
  | [], r => by
    rw [fillBatches, List.sum_nil, ReadDbfFunction_zero]
  | max_rows :: limits, r => by
    rw [fillBatches, List.sum_cons, ReadDbfFunction_add]
    cases ReadDbfFunction host max_rows r with
    | error e => rfl
    | ok p =>
      obtain ⟨r1, rows⟩ := p
      simp only []
      rw [fillBatches_eq host limits r1]

theorem ReadDbfFunction_exhausted (host : Host) :
    ∀ (max_rows : Nat) (r r1 : DbfReader) (rows : List Row),
      ReadDbfFunction host max_rows r = Except.ok (r1, rows) → rows.length < max_rows →
      r1.header.m_uNumRecords ≤ r1.current_record := by
  intro max_rows
  induction max_rows with
  | zero => intro r r1 rows _ hlt; omega
  | succ n ih =>
    intro r r1 rows h hlt
    rcases ReadNextRecord_cases host r with ⟨e, he⟩ | ⟨r2, hend, hf⟩ | ⟨r2, row, ht⟩
    · rw [ReadDbfFunction_succ_error host _ r e he] at h
      cases h
    · rw [ReadDbfFunction_succ_false host _ r r2 hf] at h
      cases h
      exact hend
    · rw [ReadDbfFunction_succ_true host _ r r2 row ht] at h
      cases hq : ReadDbfFunction host n r2 with
      | error e =>
        rw [hq] at h
        cases h
      | ok p =>
        obtain ⟨r3, rows3⟩ := p
        rw [hq] at h
        simp only [Except.ok.injEq, Prod.mk.injEq] at h
        obtain ⟨h1, h2⟩ := h
        rw [← h1]
        rw [← h2] at hlt
        exact ih r2 r3 rows3 hq (by simpa using hlt)

/-- C1: on a file whose record area holds `record_count` full records of size at
least 1, a batch loop that is not cut short by its row limit produces exactly
the decodings of the records whose liveness byte is not `'*'`, one row each
and in file order, and the scanner is then at the end of the data; the same
rows come out of any sequence of batch fills whose limits add up to at least
the number of live records.  When the footprints of the schema fit in a
record and every CHARACTER field of every live record holds only spaces or a
content that the host accepts as a string, the loop does return these rows. -/
theorem C1_rows_are_live_records_in_order (host : Host) (r : DbfReader)
    (max_rows : Nat)
    (hsize : 1 ≤ r.header.m_uRecordSize)
    (hfile : r.header.m_uFirstRecordOffset + r.header.m_uNumRecords * r.header.m_uRecordSize
      ≤ r.handle.data.length)
    (hmax : (liveRecordsFrom r.handle.data r.header r.current_record).length ≤ max_rows) :
    (ReadDbfFunction host max_rows r).map Prod.snd
      = (liveRecordsFrom r.handle.data r.header r.current_record).mapM
          (decodeRow host r.fields) ∧
    (∀ limits : List Nat, limits.sum = max_rows →
      (fillBatches host limits r).map Prod.snd
        = (liveRecordsFrom r.handle.data r.header r.current_record).mapM
            (decodeRow host r.fields)) ∧
    (∀ r1 rows, ReadDbfFunction host max_rows r = Except.ok (r1, rows) →
      rows.length = (liveRecordsFrom r.handle.data r.header r.current_record).length ∧
      ∀ output output_idx, ∃ r2, DbfReader.ReadNextRecord host r1 output output_idx
        = Except.ok (false, r2, output, output_idx)) ∧
    ((r.fields.map footprint).sum ≤ r.header.m_uRecordSize - 1 →
      (∀ record ∈ liveRecordsFrom r.handle.data r.header r.current_record,
        stringsAccepted host r.fields record 0 = true) →
      ∃ r1 rows, ReadDbfFunction host max_rows r = Except.ok (r1, rows)) := by
  have hspec := ReadDbfFunction_spec host max_rows r hsize hfile
  rw [List.take_of_length_le hmax, List.drop_of_length_le hmax] at hspec
  have hfit : (r.fields.map footprint).sum ≤ r.header.m_uRecordSize - 1 →
      (∀ record ∈ liveRecordsFrom r.handle.data r.header r.current_record,
        stringsAccepted host r.fields record 0 = true) →
      ∃ rows, (liveRecordsFrom r.handle.data r.header r.current_record).mapM
        (decodeRow host r.fields) = Except.ok rows := by
    intro hsum hacc
    apply mapM_ok_of_forall
    intro record hrec
    apply decodeRow_ok_of_fit
    · rw [liveRecordsFrom_length r.handle.data r.header hfile r.current_record record hrec]
      exact hsum
    · exact hacc record hrec
  have hbatches : ∀ limits : List Nat, limits.sum = max_rows →
      fillBatches host limits r = ReadDbfFunction host max_rows r := by
    intro limits hsum
    rw [fillBatches_eq, hsum]
  cases hm : (liveRecordsFrom r.handle.data r.header r.current_record).mapM
      (decodeRow host r.fields) with
  | error e =>
    rw [hspec.1 e hm] at hbatches ⊢
    refine ⟨rfl, fun limits hsum => ?_, fun r1 rows h => (by cases h), fun hsum hacc => ?_⟩
    · rw [hbatches limits hsum]
      rfl
    · obtain ⟨rows, hrows⟩ := hfit hsum hacc
      rw [hm] at hrows
      cases hrows
  | ok rows0 =>
    obtain ⟨r1, h1, h2, h3, h4, h5, h6⟩ := hspec.2 rows0 hm
    rw [h1] at hbatches ⊢
    refine ⟨rfl, fun limits hsum => ?_, fun r1' rows h => ?_, fun _ _ => ⟨r1, rows0, rfl⟩⟩
    · rw [hbatches limits hsum]
      rfl
    cases h
    refine ⟨?_, fun output output_idx => ?_⟩
    · exact mapM_ok_length _ _ _ hm
    · have hnext := ReadNextRecordAux_spec host (r1.header.m_uNumRecords - r1.current_record + 1)
        r1 output output_idx (by rw [h3]; exact hsize) (by rw [h2, h3]; exact hfile) (le_refl _)
      rw [h2, h3] at hnext
      obtain ⟨r2, g1, -⟩ := hnext.1 h5
      exact ⟨r2, by unfold DbfReader.ReadNextRecord; rw [h3]; exact g1⟩

/-- C1 on the sample file: the two live records give the rows `"hi"` and `"yo"`;
the deleted record between them gives none. -/
theorem C1_rows_are_live_records_in_order_witness :
    (1 ≤ sampleReader.header.m_uRecordSize) ∧
    (sampleReader.header.m_uFirstRecordOffset
      + sampleReader.header.m_uNumRecords * sampleReader.header.m_uRecordSize
        ≤ sampleReader.handle.data.length) ∧
    (liveRecordsFrom sampleReader.handle.data sampleReader.header sampleReader.current_record
      = [[104, 105], [121, 111]]) ∧
    (ReadDbfFunction sampleHost 5 sampleReader).map Prod.snd
      = Except.ok [[Value.VARCHAR [104, 105]], [Value.VARCHAR [121, 111]]] ∧
    (fillBatches sampleHost [1, 1, 3] sampleReader).map Prod.snd
      = Except.ok [[Value.VARCHAR [104, 105]], [Value.VARCHAR [121, 111]]] :=
  ⟨by decide, by decide, by decide,
   (C1_rows_are_live_records_in_order sampleHost sampleReader 5 (by decide) (by decide)
      (by decide)).1.trans (by decide),
   ((C1_rows_are_live_records_in_order sampleHost sampleReader 5 (by decide) (by decide)
      (by decide)).2.1 [1, 1, 3] (by decide)).trans (by decide)⟩

/-- C2: batch fills are stride-consistent.  From any reader, the rows of
successive fills depend only on the total of their limits: `N` fills of limit 1
give the rows (and the reader) of one fill of limit `N`, any list of limits
gives those of one fill of their sum, and once a total exhausts the scan every
split of every larger total gives the same rows. -/
theorem C2_batches_are_stride_consistent (host : Host) (r : DbfReader) :
    (∀ N, fillBatches host (List.replicate N 1) r = ReadDbfFunction host N r) ∧
    (∀ limits, fillBatches host limits r = ReadDbfFunction host limits.sum r) ∧
    (∀ max_rows r1 rows, ReadDbfFunction host max_rows r = Except.ok (r1, rows) →
      rows.length < max_rows →
      ∀ limits, max_rows ≤ limits.sum → fillBatches host limits r = Except.ok (r1, rows)) := by
  refine ⟨fun N => ?_, fun limits => fillBatches_eq host limits r,
    fun max_rows r1 rows h hlt limits hle => ?_⟩
  · rw [fillBatches_eq]
    simp
  · obtain ⟨b, hb⟩ : ∃ b, limits.sum = max_rows + b := ⟨limits.sum - max_rows, by omega⟩
    rw [fillBatches_eq, hb, ReadDbfFunction_add, h]
    simp only []
    rw [ReadDbfFunction_at_end host r1 (ReadDbfFunction_exhausted host max_rows r r1 rows h hlt) b]
    simp

/-- C2 on the sample file: two fills of limit 1 give the two rows that one fill
of limit 2 gives, and so do fills of limits 3 then 4. -/
theorem C2_batches_are_stride_consistent_witness :
    fillBatches sampleHost [1, 1] sampleReader
      = ReadDbfFunction sampleHost 2 sampleReader ∧
    (ReadDbfFunction sampleHost 2 sampleReader).map Prod.snd
      = Except.ok [[Value.VARCHAR [104, 105]], [Value.VARCHAR [121, 111]]] ∧
    (fillBatches sampleHost [3, 4] sampleReader).map Prod.snd
      = Except.ok [[Value.VARCHAR [104, 105]], [Value.VARCHAR [121, 111]]] :=
  ⟨(C2_batches_are_stride_consistent sampleHost sampleReader).1 2,
   by decide,
   congrArg (Except.map Prod.snd)
     ((C2_batches_are_stride_consistent sampleHost sampleReader).2.2 3
       { sampleReader with handle := { data := sampleFile, pos := 74 }, current_record := 3 }
       [[Value.VARCHAR [104, 105]], [Value.VARCHAR [121, 111]]]
       (by decide) (by decide) [3, 4] (by decide))⟩

/-! ### Type mapping -/

/-- C14: `DbfToLogicalType` maps CHARACTER to VARCHAR, NUMERIC and FLOAT to
DOUBLE when `decimal_count > 0` and to BIGINT when it is 0, LOGICAL to BOOLEAN,
DATE to DATE, INTEGER to INTEGER, and every other type code, DOUBLE `'O'`
included, to VARCHAR. -/
theorem C14_type_mapping (field : DbfField) :
    (field.type = DbfType.CHARACTER → DbfToLogicalType field = LogicalType.VARCHAR) ∧
    (field.type = DbfType.NUMERIC ∨ field.type = DbfType.FLOAT →
      (field.decimal_count > 0 → DbfToLogicalType field = LogicalType.DOUBLE) ∧
      (field.decimal_count = 0 → DbfToLogicalType field = LogicalType.BIGINT)) ∧
    (field.type = DbfType.LOGICAL → DbfToLogicalType field = LogicalType.BOOLEAN) ∧
    (field.type = DbfType.DATE → DbfToLogicalType field = LogicalType.DATE) ∧
    (field.type = DbfType.INTEGER → DbfToLogicalType field = LogicalType.INTEGER) ∧
    (field.type ≠ DbfType.CHARACTER → field.type ≠ DbfType.NUMERIC →
      field.type ≠ DbfType.FLOAT → field.type ≠ DbfType.LOGICAL →
      field.type ≠ DbfType.DATE → field.type ≠ DbfType.INTEGER →
      DbfToLogicalType field = LogicalType.VARCHAR) ∧
    (field.type = DbfType.DOUBLE ∨ field.type = DbfType.MEMO ∨ field.type = DbfType.TIMESTAMP ∨
      field.type = DbfType.BINARY ∨ field.type = DbfType.INVALID →
      DbfToLogicalType field = LogicalType.VARCHAR) := by
  have hother : field.type ≠ DbfType.CHARACTER → field.type ≠ DbfType.NUMERIC →
      field.type ≠ DbfType.FLOAT → field.type ≠ DbfType.LOGICAL →
      field.type ≠ DbfType.DATE → field.type ≠ DbfType.INTEGER →
      DbfToLogicalType field = LogicalType.VARCHAR := by
    intro hC hN hF hL hD hI
    unfold DbfToLogicalType
    rw [if_neg hC, if_neg (by tauto), if_neg hL, if_neg hD, if_neg hI]
  refine ⟨fun h => ?_, fun h => ⟨fun hd => ?_, fun hd => ?_⟩, fun h => ?_, fun h => ?_,
    fun h => ?_, hother, fun h => ?_⟩
  · unfold DbfToLogicalType
    rw [if_pos h]
  · have hC : field.type ≠ DbfType.CHARACTER := by rcases h with h | h <;> rw [h] <;> decide
    unfold DbfToLogicalType
    rw [if_neg hC, if_pos h, if_pos hd]
  · have hC : field.type ≠ DbfType.CHARACTER := by rcases h with h | h <;> rw [h] <;> decide
    unfold DbfToLogicalType
    rw [if_neg hC, if_pos h, if_neg (by omega)]
  · unfold DbfToLogicalType
    rw [if_neg (by rw [h]; decide), if_neg (by rw [h]; decide), if_pos h]
  · unfold DbfToLogicalType
    rw [if_neg (by rw [h]; decide), if_neg (by rw [h]; decide), if_neg (by rw [h]; decide),
      if_pos h]
  · unfold DbfToLogicalType
    rw [if_neg (by rw [h]; decide), if_neg (by rw [h]; decide), if_neg (by rw [h]; decide),
      if_neg (by rw [h]; decide), if_pos h]
  · rcases h with h | h | h | h | h <;>
      exact hother (by rw [h]; decide) (by rw [h]; decide) (by rw [h]; decide)
        (by rw [h]; decide) (by rw [h]; decide) (by rw [h]; decide)

/-- C14 at concrete descriptors: a NUMERIC field with 2 decimals is DOUBLE, with
none BIGINT; a DOUBLE `'O'` field and an unmapped code are VARCHAR. -/
theorem C14_type_mapping_witness :
    DbfToLogicalType ⟨[78], DbfType.NUMERIC, 8, 2⟩ = LogicalType.DOUBLE ∧
    DbfToLogicalType ⟨[78], DbfType.NUMERIC, 8, 0⟩ = LogicalType.BIGINT ∧
    DbfToLogicalType ⟨[67], DbfType.CHARACTER, 8, 0⟩ = LogicalType.VARCHAR ∧
    DbfToLogicalType ⟨[76], DbfType.LOGICAL, 1, 0⟩ = LogicalType.BOOLEAN ∧
    DbfToLogicalType ⟨[68], DbfType.DATE, 8, 0⟩ = LogicalType.DATE ∧
    DbfToLogicalType ⟨[73], DbfType.INTEGER, 4, 0⟩ = LogicalType.INTEGER ∧
    DbfToLogicalType ⟨[79], DbfType.DOUBLE, 8, 0⟩ = LogicalType.VARCHAR ∧
    DbfToLogicalType ⟨[88], 88, 8, 0⟩ = LogicalType.VARCHAR :=
  ⟨((C14_type_mapping ⟨[78], DbfType.NUMERIC, 8, 2⟩).2.1 (Or.inl rfl)).1 (by decide),
   ((C14_type_mapping ⟨[78], DbfType.NUMERIC, 8, 0⟩).2.1 (Or.inl rfl)).2 rfl,
   (C14_type_mapping ⟨[67], DbfType.CHARACTER, 8, 0⟩).1 rfl,
   (C14_type_mapping ⟨[76], DbfType.LOGICAL, 1, 0⟩).2.2.1 rfl,
   (C14_type_mapping ⟨[68], DbfType.DATE, 8, 0⟩).2.2.2.1 rfl,
   (C14_type_mapping ⟨[73], DbfType.INTEGER, 4, 0⟩).2.2.2.2.1 rfl,
   (C14_type_mapping ⟨[79], DbfType.DOUBLE, 8, 0⟩).2.2.2.2.2.2 (Or.inl rfl),
   (C14_type_mapping ⟨[88], 88, 8, 0⟩).2.2.2.2.2.1 (by decide) (by decide) (by decide)
     (by decide) (by decide) (by decide)⟩

theorem decodeSwitch_logicalType (host : Host) (field : DbfField)
    (val : List Nat) (v : Value) (hv : decodeSwitch host field val = Except.ok v) :
    v.logicalType = none ∨ v.logicalType = some (DbfToLogicalType field) := by
  unfold decodeSwitch at hv
  unfold DbfToLogicalType
  by_cases hC : field.type = DbfType.CHARACTER
  · rw [if_pos hC] at hv
    rw [if_pos hC]
    by_cases hs : host.StringIsValid val = true
    · rw [if_pos hs] at hv; cases hv; exact Or.inr rfl
    · rw [if_neg hs] at hv; cases hv
  rw [if_neg hC] at hv
  rw [if_neg hC]
  by_cases hN : field.type = DbfType.NUMERIC ∨ field.type = DbfType.FLOAT
  · rw [if_pos hN] at hv
    rw [if_pos hN]
    by_cases hd : field.decimal_count > 0
    · rw [if_pos hd] at hv
      rw [if_pos hd]
      cases hs : host.stod val with
      | none => rw [hs] at hv; cases hv; exact Or.inl rfl
      | some d => rw [hs] at hv; cases hv; exact Or.inr rfl
    · rw [if_neg hd] at hv
      rw [if_neg hd]
      cases hs : stoll val with
      | none => rw [hs] at hv; cases hv; exact Or.inl rfl
      | some n => rw [hs] at hv; cases hv; exact Or.inr rfl
  rw [if_neg hN] at hv
  rw [if_neg hN]
  by_cases hL : field.type = DbfType.LOGICAL
  · rw [if_pos hL] at hv
    rw [if_pos hL]
    by_cases hT : val = [84]
    · rw [if_pos hT] at hv; cases hv; exact Or.inr rfl
    · rw [if_neg hT] at hv
      by_cases hF : val = [70]
      · rw [if_pos hF] at hv; cases hv; exact Or.inr rfl
      · rw [if_neg hF] at hv; cases hv; exact Or.inl rfl
  rw [if_neg hL] at hv
  rw [if_neg hL]
  by_cases hD : field.type = DbfType.DATE
  · rw [if_pos hD] at hv
    rw [if_pos hD]
    rw [← decodeSwitch_date_body] at hv
    cases hv
    by_cases hlen : val.length = 8
    · rw [if_pos hlen]
      cases stoi (substr val 0 4) <;> cases stoi (substr val 4 2) <;>
        cases stoi (substr val 6 2) <;> dsimp only
      all_goals first | exact Or.inl rfl | skip
      rename_i y0 m0 d0
      by_cases hv : Date.IsValid y0 m0 d0 = true
      · rw [if_pos hv]; exact Or.inr rfl
      · rw [if_neg hv]; exact Or.inl rfl
    · rw [if_neg hlen]; exact Or.inl rfl
  rw [if_neg hD] at hv
  cases hv
  exact Or.inl rfl

theorem decodeRaw_logicalType (host : Host) (field : DbfField)
    (raw_val : List Nat) (v : Value) (hv : decodeRaw host field raw_val = Except.ok v) :
    v.logicalType = none ∨ v.logicalType = some (DbfToLogicalType field) := by
  unfold decodeRaw at hv
  cases hf : find_first_not_of raw_val 32 with
  | none =>
    rw [hf] at hv
    cases hv
    exact Or.inl rfl
  | some first =>
    rw [hf] at hv
    exact decodeSwitch_logicalType host field _ v hv

theorem decodeField_logicalType (host : Host) (field : DbfField)
    (record_data : List Nat) (offset : Nat) (hO : field.type ≠ DbfType.DOUBLE) (v : Value)
    (hv : (decodeField host field record_data offset).1 = Except.ok v) :
    v.logicalType = none ∨ v.logicalType = some (DbfToLogicalType field) := by
  unfold decodeField at hv
  by_cases hI : field.type = DbfType.INTEGER
  · rw [if_pos hI] at hv
    by_cases h4 : offset + 4 ≤ record_data.length
    · rw [if_pos h4] at hv
      cases hv
      right
      unfold DbfToLogicalType
      rw [if_neg (by rw [hI]; decide), if_neg (by rw [hI]; decide), if_neg (by rw [hI]; decide),
        if_neg (by rw [hI]; decide), if_pos hI]
      rfl
    · rw [if_neg h4] at hv
      cases hv
      exact Or.inl rfl
  · rw [if_neg hI, if_neg hO] at hv
    by_cases hfit : offset + field.length ≤ record_data.length
    · rw [if_pos hfit] at hv
      exact decodeRaw_logicalType host field _ v hv
    · rw [if_neg hfit] at hv
      cases hv

/-- C20 at a DOUBLE `'O'` field: on the 8 bytes of the double 1.5 the decoder
writes a DOUBLE value into a column that `DbfToLogicalType` declares VARCHAR. -/
theorem C20_double_field_value_is_not_of_column_type :
    (decodeField sampleHost ⟨[88], DbfType.DOUBLE, 8, 0⟩ [0, 0, 0, 0, 0, 0, 248, 63] 0).1
      = Except.ok (Value.DOUBLE 0x3FF8000000000000) ∧
    (Value.DOUBLE 0x3FF8000000000000).logicalType = some LogicalType.DOUBLE ∧
    DbfToLogicalType ⟨[88], DbfType.DOUBLE, 8, 0⟩ = LogicalType.VARCHAR ∧
    (Value.DOUBLE 0x3FF8000000000000).logicalType
      ≠ some (DbfToLogicalType ⟨[88], DbfType.DOUBLE, 8, 0⟩) := by
  decide

/-! ### Bytes read by the decoder -/

theorem nextOffset_eq (host : Host) (field : DbfField) (record_data : List Nat)
    (offset : Nat) : nextOffset field offset = (decodeField host field record_data offset).2 := by
  unfold nextOffset decodeField
  split_ifs <;> rfl

theorem nextOffset_footprint (field : DbfField) (offset : Nat) :
    nextOffset field offset = offset + footprint field := by
  unfold nextOffset footprint
  split_ifs <;> rfl

theorem decodeRaw_error_iff (host : Host) (field : DbfField) (raw : List Nat) (e : Fault) :
    decodeRaw host field raw = Except.error e ↔
      e = Fault.invalidString ∧ field.type = DbfType.CHARACTER ∧ (∃ b ∈ raw, b ≠ 32) ∧
        host.StringIsValid (trimSpaces raw) = false := by
  by_cases hsp : ∀ b ∈ raw, b = 32
  · rw [decodeRaw_of_spaces host field raw hsp]
    constructor
    · intro h; cases h
    · rintro ⟨-, -, ⟨b, hb, hne⟩, -⟩
      exact absurd (hsp b hb) hne
  · have hns : ∃ b ∈ raw, b ≠ 32 := by
      push_neg at hsp
      exact hsp
    rw [decodeRaw_of_nonspace host field raw hns]
    rcases decodeSwitch_cases host field (trimSpaces raw) with ⟨v, hv⟩ | ⟨hC, hbad, herr⟩
    · rw [hv]
      constructor
      · intro h; cases h
      · rintro ⟨-, hC, -, hbad⟩
        unfold decodeSwitch at hv
        rw [if_pos hC, hbad] at hv
        cases hv
    · rw [herr]
      constructor
      · intro h
        cases h
        exact ⟨rfl, hC, hns, hbad⟩
      · rintro ⟨rfl, -⟩
        rfl

theorem decodeField_error_iff (host : Host) (field : DbfField)
    (record_data : List Nat) (offset : Nat) (e : Fault) :
    (decodeField host field record_data offset).1 = Except.error e ↔
      (e = Fault.overRead ∧ ∃ p, readRange field record_data offset = some p ∧
        record_data.length < p.1 + p.2) ∨
      (e = Fault.invalidString ∧ field.type = DbfType.CHARACTER ∧
        offset + field.length ≤ record_data.length ∧
        (∃ b ∈ substr record_data offset field.length, b ≠ 32) ∧
        host.StringIsValid (trimSpaces (substr record_data offset field.length)) = false) := by
  unfold decodeField readRange
  by_cases hI : field.type = DbfType.INTEGER
  · have hC : field.type ≠ DbfType.CHARACTER := by rw [hI]; decide
    rw [if_pos hI, if_pos hI]
    by_cases h4 : offset + 4 ≤ record_data.length
    · rw [if_pos h4, if_pos h4]
      constructor
      · intro h; cases h
      · rintro (⟨-, p, hp, hlt⟩ | ⟨-, h, -⟩)
        · cases hp
          simp only [] at hlt
          omega
        · exact absurd h hC
    · rw [if_neg h4, if_neg h4]
      constructor
      · intro h; cases h
      · rintro (⟨-, p, hp, -⟩ | ⟨-, h, -⟩)
        · cases hp
        · exact absurd h hC
  · rw [if_neg hI, if_neg hI]
    by_cases hO : field.type = DbfType.DOUBLE
    · have hC : field.type ≠ DbfType.CHARACTER := by rw [hO]; decide
      rw [if_pos hO, if_pos hO]
      by_cases h8 : offset + 8 ≤ record_data.length
      · rw [if_pos h8, if_pos h8]
        constructor
        · intro h; cases h
        · rintro (⟨-, p, hp, hlt⟩ | ⟨-, h, -⟩)
          · cases hp
            simp only [] at hlt
            omega
          · exact absurd h hC
      · rw [if_neg h8, if_neg h8]
        constructor
        · intro h; cases h
        · rintro (⟨-, p, hp, -⟩ | ⟨-, h, -⟩)
          · cases hp
          · exact absurd h hC
    · rw [if_neg hO, if_neg hO]
      simp only []
      by_cases hfit : offset + field.length ≤ record_data.length
      · rw [if_pos hfit, decodeRaw_error_iff]
        constructor
        · rintro ⟨he, hC, hns, hbad⟩
          exact Or.inr ⟨he, hC, hfit, hns, hbad⟩
        · rintro (⟨-, p, hp, hlt⟩ | ⟨he, hC, -, hns, hbad⟩)
          · cases hp
            simp only [] at hlt
            omega
          · exact ⟨he, hC, hns, hbad⟩
      · rw [if_neg hfit]
        constructor
        · intro h
          cases h
          exact Or.inl ⟨rfl, (offset, field.length), rfl, by simp only []; omega⟩
        · rintro (⟨rfl, -⟩ | ⟨-, -, h, -⟩)
          · rfl
          · exact absurd h hfit

theorem readRange_le (field : DbfField) (record_data : List Nat) (offset : Nat)
    (p : Nat × Nat) (hp : readRange field record_data offset = some p) :
    p.1 = offset ∧ p.2 = footprint field := by
  unfold readRange at hp
  unfold footprint
  by_cases hI : field.type = DbfType.INTEGER
  · rw [if_pos hI] at hp
    rw [if_pos hI]
    by_cases h4 : offset + 4 ≤ record_data.length
    · rw [if_pos h4] at hp
      cases hp
      exact ⟨rfl, rfl⟩
    · rw [if_neg h4] at hp
      cases hp
  · rw [if_neg hI] at hp
    rw [if_neg hI]
    by_cases hO : field.type = DbfType.DOUBLE
    · rw [if_pos hO] at hp
      rw [if_pos hO]
      by_cases h8 : offset + 8 ≤ record_data.length
      · rw [if_pos h8] at hp
        cases hp
        exact ⟨rfl, rfl⟩
      · rw [if_neg h8] at hp
        cases hp
    · rw [if_neg hO] at hp
      rw [if_neg hO]
      cases hp
      exact ⟨rfl, rfl⟩

theorem readRanges_within (record_data : List Nat) :
    ∀ (fields : List DbfField) (offset : Nat),
      offset + (fields.map footprint).sum ≤ record_data.length →
      ∀ p ∈ readRanges fields record_data offset, p.1 + p.2 ≤ record_data.length
  | [], _, _, p, hp => by simp [readRanges] at hp
  | field :: rest, offset, hfit, p, hp => by
    rw [List.map_cons, List.sum_cons] at hfit
    rw [readRanges, List.mem_append] at hp
    rcases hp with hp | hp
    · have hsome : readRange field record_data offset = some p := by
        cases h : readRange field record_data offset with
        | none => rw [h] at hp; simp at hp
        | some q =>
          rw [h] at hp
          simp only [Option.toList_some, List.mem_singleton] at hp
          rw [hp]
      obtain ⟨h1, h2⟩ := readRange_le field record_data offset p hsome
      omega
    · rw [nextOffset_footprint] at hp
      exact readRanges_within record_data rest _ (by omega) p hp

theorem mapM_id_error_mem {α : Type} :
    ∀ (cells : List (Except Fault α)) (e : Fault),
      cells.mapM id = Except.error e → Except.error e ∈ cells
  | [], e, h => by
    rw [List.mapM_nil] at h
    cases h
  | c :: cs, e, h => by
    cases c with
    | error e0 =>
      rw [mapM_cons_error id _ cs e0 rfl] at h
      cases h
      exact List.mem_cons_self _ _
    | ok v =>
      rw [mapM_cons_ok id _ cs v rfl] at h
      cases hcs : cs.mapM id with
      | error e1 =>
        rw [hcs] at h
        cases h
        exact List.mem_cons_of_mem _ (mapM_id_error_mem cs _ hcs)
      | ok vs =>
        rw [hcs] at h
        cases h

theorem decodeCells_error (host : Host) (record_data : List Nat) :
    ∀ (fields : List DbfField) (offset : Nat) (e : Fault),
      Except.error e ∈ decodeCells host fields record_data offset →
      (e = Fault.overRead ∧ record_data.length < offset + (fields.map footprint).sum) ∨
      e = Fault.invalidString
  | [], _, e, h => by simp [decodeCells] at h
  | field :: rest, offset, e, h => by
    rw [decodeCells, List.mem_cons] at h
    rw [List.map_cons, List.sum_cons]
    rcases h with h | h
    · rcases (decodeField_error_iff host field record_data offset e).mp h.symm with
        ⟨he, p, hp, hlt⟩ | ⟨he, -⟩
      · obtain ⟨h1, h2⟩ := readRange_le field record_data offset p hp
        exact Or.inl ⟨he, by omega⟩
      · exact Or.inr he
    · rw [decodeField_snd] at h
      rcases decodeCells_error host record_data rest _ e h with ⟨he, hlt⟩ | he
      · exact Or.inl ⟨he, by omega⟩
      · exact Or.inr he

theorem decodeRow_error (host : Host) (fields : List DbfField)
    (record_data : List Nat) (e : Fault)
    (h : decodeRow host fields record_data = Except.error e) :
    (e = Fault.overRead ∧ record_data.length < (fields.map footprint).sum) ∨
    e = Fault.invalidString := by
  have := decodeCells_error host record_data fields 0 e (mapM_id_error_mem _ e h)
  rwa [Nat.zero_add] at this

/-- C15: when `record_size ≥ 1` and the footprints of the schema add up to at
most `record_size - 1`, every byte range that the column loop reads from the
record buffer (of `record_size - 1` bytes) lies inside the buffer, every
field's range ends at or before its end, and no cell and no row fails by a
read past the buffer.  The row is decoded, with one value per field, when its
CHARACTER fields hold only spaces or a content that the host accepts as a
string. -/
theorem C15_decoder_reads_inside_record (host : Host)
    (fields : List DbfField) (record_data : List Nat) (record_size : Nat)
    (hsize : 1 ≤ record_size)
    (hlen : record_data.length = record_size - 1)
    (hfit : (fields.map footprint).sum ≤ record_size - 1) :
    (∀ p ∈ readRanges fields record_data 0, ∀ i, p.1 ≤ i → i < p.1 + p.2 →
      i < record_size - 1) ∧
    (∀ k field, fields[k]? = some field →
      ((fields.take k).map footprint).sum + footprint field ≤ record_size - 1) ∧
    (∀ c ∈ decodeCells host fields record_data 0, c ≠ Except.error Fault.overRead) ∧
    (decodeRow host fields record_data ≠ Except.error Fault.overRead ∧
      (stringsAccepted host fields record_data 0 = true →
        ∃ row, decodeRow host fields record_data = Except.ok row ∧
          row.length = fields.length)) ∧
    record_data.length + 1 = record_size := by
  refine ⟨fun p hp i _ hi => ?_, fun k field hk => ?_, fun c hc hce => ?_,
    ⟨fun herr => ?_, fun hacc => ?_⟩, by omega⟩
  · have := readRanges_within record_data fields 0 (by omega) p hp
    omega
  · have hsplit : fields = fields.take k ++ field :: fields.drop (k + 1) := by
      have hklt : k < fields.length := by
        by_contra hge
        rw [List.getElem?_eq_none (by omega)] at hk
        cases hk
      rw [List.getElem?_eq_getElem hklt] at hk
      cases hk
      exact (List.take_append_drop k fields).symm.trans (by rw [List.drop_eq_getElem_cons hklt])
    have hsum : (fields.map footprint).sum
        = ((fields.take k).map footprint).sum + footprint field
          + ((fields.drop (k + 1)).map footprint).sum := by
      conv_lhs => rw [hsplit]
      simp [Nat.add_assoc]
    omega
  · rw [hce] at hc
    rcases decodeCells_error host record_data fields 0 _ hc with ⟨-, hlt⟩ | he
    · omega
    · cases he
  · rcases decodeRow_error host fields record_data _ herr with ⟨-, hlt⟩ | he
    · omega
    · cases he
  · obtain ⟨row, hrow⟩ := decodeRow_ok_of_fit host fields record_data (by omega) hacc
    refine ⟨row, hrow, ?_⟩
    unfold decodeRow at hrow
    rw [mapM_ok_length id _ row hrow, decodeCells_length]

/-- C15 on the sample schema: the one field of length 2 is read at bytes 0 and 1
of the 2-byte record buffer. -/
theorem C15_decoder_reads_inside_record_witness :
    (1 ≤ 3) ∧ ([104, 105].length = 3 - 1) ∧
    ((sampleReader.fields.map footprint).sum ≤ 3 - 1) ∧
    readRanges sampleReader.fields [104, 105] 0 = [(0, 2)] ∧
    (∀ p ∈ readRanges sampleReader.fields [104, 105] 0, ∀ i, p.1 ≤ i → i < p.1 + p.2 →
      i < 3 - 1) ∧
    (∃ row, decodeRow sampleHost sampleReader.fields [104, 105] = Except.ok row ∧
      row.length = sampleReader.fields.length) :=
  ⟨by decide, by decide, by decide, by decide,
   (C15_decoder_reads_inside_record sampleHost sampleReader.fields [104, 105] 3
      (by decide) (by decide) (by decide)).1,
   (C15_decoder_reads_inside_record sampleHost sampleReader.fields [104, 105] 3
      (by decide) (by decide) (by decide)).2.2.2.1.2 (by decide)⟩

/-! ### Confinement of a cell to its byte range -/

theorem getD_substr (buf : List Nat) (offset n i : Nat) (hi : i < n) :
    buf.getD (offset + i) 0 = (substr buf offset n).getD i 0 := by
  unfold substr
  simp only [List.getD_eq_getElem?_getD, List.getElem?_take, List.getElem?_drop, hi, if_true]

theorem LoadInt32_congr (buf1 buf2 : List Nat) (offset : Nat)
    (h : substr buf1 offset 4 = substr buf2 offset 4) :
    LoadInt32 buf1 offset = LoadInt32 buf2 offset := by
  have e : ∀ i, i < 4 → buf1.getD (offset + i) 0 = buf2.getD (offset + i) 0 := by
    intro i hi
    rw [getD_substr buf1 offset 4 i hi, getD_substr buf2 offset 4 i hi, h]
  have e0 := e 0 (by omega)
  have e1 := e 1 (by omega)
  have e2 := e 2 (by omega)
  have e3 := e 3 (by omega)
  rw [Nat.add_zero] at e0
  unfold LoadInt32
  rw [e0, e1, e2, e3]

theorem LoadDouble_congr (buf1 buf2 : List Nat) (offset : Nat)
    (h : substr buf1 offset 8 = substr buf2 offset 8) :
    LoadDouble buf1 offset = LoadDouble buf2 offset := by
  unfold LoadDouble
  congr 1
  apply List.map_congr_left
  intro i hi
  have hi8 : i < 8 := List.mem_range.mp hi
  rw [getD_substr buf1 offset 8 i hi8, getD_substr buf2 offset 8 i hi8, h]

theorem decodeField_congr (host : Host) (field : DbfField)
    (buf1 buf2 : List Nat) (offset : Nat) (hlen : buf1.length = buf2.length)
    (h : substr buf1 offset (footprint field) = substr buf2 offset (footprint field)) :
    (decodeField host field buf1 offset).1 = (decodeField host field buf2 offset).1 := by
  unfold footprint at h
  unfold decodeField
  by_cases hI : field.type = DbfType.INTEGER
  · rw [if_pos hI] at h
    rw [if_pos hI, if_pos hI, hlen, LoadInt32_congr buf1 buf2 offset h]
  · rw [if_neg hI] at h
    rw [if_neg hI, if_neg hI]
    by_cases hO : field.type = DbfType.DOUBLE
    · rw [if_pos hO] at h
      rw [if_pos hO, if_pos hO, hlen, LoadDouble_congr buf1 buf2 offset h]
    · rw [if_neg hO] at h
      rw [if_neg hO, if_neg hO, hlen, h]

theorem decodeRow_getElem? (host : Host) (fields : List DbfField)
    (record_data : List Nat) (row : Row)
    (h : decodeRow host fields record_data = Except.ok row) (k : Nat) :
    (decodeCells host fields record_data 0)[k]? = row[k]?.map Except.ok := by
  unfold decodeRow at h
  generalize decodeCells host fields record_data 0 = cells at h
  induction cells generalizing row k with
  | nil =>
    rw [List.mapM_nil] at h
    cases h
    simp
  | cons c cs ih =>
    cases c with
    | error e =>
      rw [mapM_cons_error id _ cs e rfl] at h
      cases h
    | ok v =>
      rw [mapM_cons_ok id _ cs v rfl] at h
      cases hcs : cs.mapM id with
      | error e =>
        rw [hcs] at h
        cases h
      | ok vs =>
        rw [hcs] at h
        simp only [Except.ok.injEq] at h
        rw [← h]
        cases k with
        | zero => simp
        | succ k => simpa using ih vs k hcs

theorem decodeCells_congr_at (host : Host)
    (fields : List DbfField) (buf1 buf2 : List Nat) (k : Nat) (field : DbfField)
    (hk : fields[k]? = some field)
    (hlen : buf1.length = buf2.length)
    (hagree : substr buf1 ((fields.take k).map footprint).sum (footprint field)
      = substr buf2 ((fields.take k).map footprint).sum (footprint field)) :
    (decodeCells host fields buf1 0)[k]? = (decodeCells host fields buf2 0)[k]? := by
  rw [decodeCells_getElem?, decodeCells_getElem?, hk]
  simp only [Option.map_some', Nat.zero_add]
  rw [decodeField_congr host field buf1 buf2 _ hlen hagree]

theorem decodeRow_congr_at (host : Host)
    (fields : List DbfField) (buf1 buf2 : List Nat) (k : Nat) (field : DbfField)
    (hk : fields[k]? = some field)
    (hlen : buf1.length = buf2.length)
    (hagree : substr buf1 ((fields.take k).map footprint).sum (footprint field)
      = substr buf2 ((fields.take k).map footprint).sum (footprint field))
    (row1 row2 : Row)
    (h1 : decodeRow host fields buf1 = Except.ok row1)
    (h2 : decodeRow host fields buf2 = Except.ok row2) :
    row1.length = fields.length ∧ row2.length = fields.length ∧ row1[k]? = row2[k]? := by
  have hl1 : row1.length = fields.length := by
    have := h1
    unfold decodeRow at this
    rw [mapM_ok_length id _ row1 this, decodeCells_length]
  have hl2 : row2.length = fields.length := by
    have := h2
    unfold decodeRow at this
    rw [mapM_ok_length id _ row2 this, decodeCells_length]
  refine ⟨hl1, hl2, ?_⟩
  have e1 := decodeRow_getElem? host fields buf1 row1 h1 k
  have e2 := decodeRow_getElem? host fields buf2 row2 h2 k
  rw [decodeCells_congr_at host fields buf1 buf2 k field hk hlen hagree, e2] at e1
  cases hr1 : row1[k]? <;> cases hr2 : row2[k]? <;> rw [hr1, hr2] at e1 <;>
    simp at e1
  · rw [e1]

/-- C19 does not hold in the code: a CHARACTER field `j` whose trimmed content
the host does not accept as a string aborts the decoding of the whole row.  The
cell of column `j` is the failure of `Value(val)`, which nothing catches, and
the row is that failure, whatever the other fields hold and although all the
footprints fit in the buffer; no value is produced for any column `k`. -/
theorem C19_invalid_string_aborts_row (host : Host)
    (fields : List DbfField) (record_data : List Nat) (j : Nat) (fj : DbfField)
    (hj : fields[j]? = some fj)
    (htype : fj.type = DbfType.CHARACTER)
    (hfit : (fields.map footprint).sum ≤ record_data.length)
    (hns : ∃ b ∈ substr record_data ((fields.take j).map footprint).sum fj.length, b ≠ 32)
    (hbad : host.StringIsValid
      (trimSpaces (substr record_data ((fields.take j).map footprint).sum fj.length)) = false) :
    (decodeCells host fields record_data 0)[j]? = some (Except.error Fault.invalidString) ∧
    decodeRow host fields record_data = Except.error Fault.invalidString ∧
    ∀ row, decodeRow host fields record_data ≠ Except.ok row := by
  have hjlt : j < fields.length := by
    by_contra hge
    rw [List.getElem?_eq_none (by omega)] at hj
    cases hj
  have hsplit : fields = fields.take j ++ fj :: fields.drop (j + 1) := by
    rw [List.getElem?_eq_getElem hjlt] at hj
    cases hj
    exact (List.take_append_drop j fields).symm.trans (by rw [List.drop_eq_getElem_cons hjlt])
  have hsum : (fields.map footprint).sum
      = ((fields.take j).map footprint).sum + footprint fj
        + ((fields.drop (j + 1)).map footprint).sum := by
    conv_lhs => rw [hsplit]
    simp [Nat.add_assoc]
  have hfoot : footprint fj = fj.length := by
    unfold footprint
    rw [if_neg (by rw [htype]; decide), if_neg (by rw [htype]; decide)]
  have hcell : (decodeCells host fields record_data 0)[j]?
      = some (Except.error Fault.invalidString) := by
    rw [decodeCells_getElem?, hj]
    simp only [Option.map_some', Nat.zero_add, Option.some.injEq]
    rw [decodeField_character host fj record_data _ htype (by omega) hns, hbad]
    rfl
  have hno : ∀ row, decodeRow host fields record_data ≠ Except.ok row := by
    intro row hrow
    have hget := decodeRow_getElem? host fields record_data row hrow j
    rw [hcell] at hget
    cases hr : row[j]? with
    | none => rw [hr] at hget; cases hget
    | some v => rw [hr] at hget; cases hget
  refine ⟨hcell, ?_, hno⟩
  cases hrow : decodeRow host fields record_data with
  | ok row => exact absurd hrow (hno row)
  | error e =>
    rcases decodeRow_error host fields record_data e hrow with ⟨-, hlt⟩ | he
    · omega
    · rw [he]

/-- C19 on two records that agree on the bytes of a NUMERIC field `12`: with
`"cafe"` in the CHARACTER field before it the row is decoded and the NUMERIC
column is 12; with `"caf\xE9"`, whose last byte is not UTF-8, the decoding of
the row is aborted and the NUMERIC column gets no value. -/
theorem C19_invalid_string_aborts_row_witness :
    ([99, 97, 102, 101, 49, 50].length = [99, 97, 102, 233, 49, 50].length) ∧
    (substr [99, 97, 102, 101, 49, 50] 4 2 = substr [99, 97, 102, 233, 49, 50] 4 2) ∧
    decodeRow sampleHost
        [⟨[65], DbfType.CHARACTER, 4, 0⟩, ⟨[66], DbfType.NUMERIC, 2, 0⟩]
        [99, 97, 102, 101, 49, 50]
      = Except.ok [Value.VARCHAR [99, 97, 102, 101], Value.BIGINT 12] ∧
    decodeRow sampleHost
        [⟨[65], DbfType.CHARACTER, 4, 0⟩, ⟨[66], DbfType.NUMERIC, 2, 0⟩]
        [99, 97, 102, 233, 49, 50]
      = Except.error Fault.invalidString :=
  ⟨by decide, by decide, by decide,
   (C19_invalid_string_aborts_row sampleHost
      [⟨[65], DbfType.CHARACTER, 4, 0⟩, ⟨[66], DbfType.NUMERIC, 2, 0⟩]
      [99, 97, 102, 233, 49, 50] 0 ⟨[65], DbfType.CHARACTER, 4, 0⟩
      rfl rfl (by decide) ⟨99, by decide, by decide⟩ (by decide)).2.1⟩

/-! ### The scan cursor -/

theorem FileHandle.Read_eq_some (h h1 : FileHandle) (n : Nat) (bs : List Nat)
    (hr : h.Read n = some (bs, h1)) :
    h.pos + n ≤ h.data.length ∧ bs = substr h.data h.pos n ∧
      h1 = { h with pos := h.pos + n } := by
  unfold FileHandle.Read at hr
  by_cases hle : h.pos + n ≤ h.data.length
  · rw [if_pos hle] at hr
    simp only [Option.some.injEq, Prod.mk.injEq] at hr
    exact ⟨hle, hr.1.symm, hr.2.symm⟩
  · rw [if_neg hle] at hr
    cases hr

theorem ReadNextRecordAux_inv (host : Host) :
    ∀ (fuel : Nat) (r : DbfReader) (output : List Row) (output_idx : Nat) (b : Bool)
      (r1 : DbfReader) (output1 : List Row) (output_idx1 : Nat),
      ReadNextRecordAux host fuel r output output_idx
        = Except.ok (b, r1, output1, output_idx1) →
      r1.header = r.header ∧ r1.fields = r.fields ∧ r1.handle.data = r.handle.data ∧
      r.current_record ≤ r1.current_record ∧
      (b = false →
        output1 = output ∧ output_idx1 = output_idx ∧
        r.header.m_uNumRecords ≤ r1.current_record ∧
        (r.current_record ≤ r.header.m_uNumRecords →
          r1.current_record = r.header.m_uNumRecords) ∧
        ∀ j, r.current_record ≤ j → j < r.header.m_uNumRecords →
          (recordSlot r.handle.data r.header j).head? = some 42) ∧
      (b = true →
        output_idx1 = output_idx + 1 ∧
        r.current_record < r1.current_record ∧
        r1.current_record ≤ r.header.m_uNumRecords ∧
        (recordSlot r.handle.data r.header (r1.current_record - 1)).head? ≠ some 42 ∧
        (∀ j, r.current_record ≤ j → j + 1 < r1.current_record →
          (recordSlot r.handle.data r.header j).head? = some 42) ∧
        ∃ row, decodeRow host r.fields
            (recordSlot r.handle.data r.header (r1.current_record - 1)).tail = Except.ok row ∧
          output1 = setRow output output_idx row) := by
  intro fuel
  induction fuel with
  | zero =>
    intro r output output_idx b r1 output1 output_idx1 h
    rw [ReadNextRecordAux] at h
    cases h
  | succ fuel ih =>
    intro r output output_idx b r1 output1 output_idx1 h
    rw [ReadNextRecordAux] at h
    by_cases hge : r.current_record ≥ r.header.m_uNumRecords
    · rw [if_pos hge] at h
      simp only [Except.ok.injEq, Prod.mk.injEq] at h
      obtain ⟨hb, hr, ho, hi⟩ := h
      subst hb hr ho hi
      refine ⟨rfl, rfl, rfl, le_refl _, fun _ => ⟨rfl, rfl, hge, fun hle => (by omega),
        fun j h1 h2 => (by omega)⟩, fun hb => (by cases hb)⟩
    · rw [if_neg hge] at h
      cases h1 : (r.handle.Seek (r.header.m_uFirstRecordOffset
          + r.current_record * r.header.m_uRecordSize)).Read 1 with
      | none =>
        rw [h1] at h
        cases h
      | some p1 =>
        obtain ⟨delete_flag, handle1⟩ := p1
        rw [h1] at h
        simp only [] at h
        by_cases hz : r.header.m_uRecordSize = 0
        · rw [if_pos hz] at h
          cases h
        rw [if_neg hz] at h
        cases h2 : handle1.Read (r.header.m_uRecordSize - 1) with
        | none =>
          rw [h2] at h
          cases h
        | some p2 =>
          obtain ⟨record_data, handle2⟩ := p2
          rw [h2] at h
          simp only [] at h
          obtain ⟨hle1, hflag, hh1⟩ := FileHandle.Read_eq_some _ _ _ _ h1
          obtain ⟨hle2, hdata, hh2⟩ := FileHandle.Read_eq_some _ _ _ _ h2
          simp only [FileHandle.Seek] at hle1 hflag hh1
          subst hh1
          simp only [] at hle2 hdata hh2
          obtain ⟨k, hk⟩ : ∃ k, r.header.m_uRecordSize = k + 1 :=
            ⟨r.header.m_uRecordSize - 1, by omega⟩
          have hslot_tail : (recordSlot r.handle.data r.header r.current_record).tail
              = record_data := by
            rw [hdata]
            unfold recordSlot
            rw [hk, substr_tail]
            rfl
          have hslot_head : delete_flag = [42]
              ↔ (recordSlot r.handle.data r.header r.current_record).head? = some 42 := by
            rw [hflag]
            unfold recordSlot
            rw [hk]
            exact substr_one_eq _ _ k 42
          have hdata2 : handle2.data = r.handle.data := by rw [hh2]
          by_cases hdel : delete_flag = [42]
          · rw [if_pos hdel] at h
            obtain ⟨g1, g2, g3, g4, gf, gt⟩ := ih _ _ _ _ _ _ _ h
            simp only [] at g1 g2 g3 g4 gf gt
            rw [hdata2] at g3 gf gt
            refine ⟨g1, g2, g3, by omega, fun hb => ?_, fun hb => ?_⟩
            · obtain ⟨f1, f2, f3, f4, f5⟩ := gf hb
              refine ⟨f1, f2, f3, fun _ => f4 (by omega), fun j hj1 hj2 => ?_⟩
              by_cases hj : j = r.current_record
              · rw [hj]; exact hslot_head.mp hdel
              · exact f5 j (by omega) hj2
            · obtain ⟨t1, t2, t3, t4, t5, t6⟩ := gt hb
              refine ⟨t1, by omega, t3, t4, fun j hj1 hj2 => ?_, t6⟩
              by_cases hj : j = r.current_record
              · rw [hj]; exact hslot_head.mp hdel
              · exact t5 j (by omega) hj2
          · rw [if_neg hdel] at h
            cases hrow : decodeRow host r.fields record_data with
            | error e =>
              rw [hrow] at h
              cases h
            | ok row =>
              rw [hrow] at h
              simp only [Except.ok.injEq, Prod.mk.injEq] at h
              obtain ⟨hb, hr, ho, hi⟩ := h
              subst hb hr ho hi
              refine ⟨rfl, rfl, hdata2, by simp only []; omega, fun hb => (by cases hb),
                fun _ => ⟨rfl, by simp only []; omega, by simp only []; omega, ?_, ?_, ?_⟩⟩
              · simp only [Nat.add_sub_cancel]
                exact fun hc => hdel (hslot_head.mpr hc)
              · intro j hj1 hj2
                simp only [] at hj2
                omega
              · simp only [Nat.add_sub_cancel]
                exact ⟨row, by rw [hslot_tail]; exact hrow, rfl⟩

theorem ReadNextRecordAux_fuel (host : Host) :
    ∀ (f1 f2 : Nat) (r : DbfReader) (output : List Row) (output_idx : Nat),
      r.header.m_uNumRecords - r.current_record + 1 ≤ f1 →
      r.header.m_uNumRecords - r.current_record + 1 ≤ f2 →
      ReadNextRecordAux host f1 r output output_idx
        = ReadNextRecordAux host f2 r output output_idx := by
  intro f1
  induction f1 with
  | zero => intro f2 r output output_idx h1 _; omega
  | succ f1 ih =>
    intro f2 r output output_idx h1 h2
    obtain ⟨f2, rfl⟩ : ∃ f, f2 = f + 1 := ⟨f2 - 1, by omega⟩
    rw [ReadNextRecordAux, ReadNextRecordAux]
    by_cases hge : r.current_record ≥ r.header.m_uNumRecords
    · simp only [if_pos hge]
    simp only [if_neg hge]
    cases (r.handle.Seek (r.header.m_uFirstRecordOffset
        + r.current_record * r.header.m_uRecordSize)).Read 1 with
    | none => rfl
    | some p1 =>
      obtain ⟨delete_flag, handle1⟩ := p1
      simp only []
      by_cases hz : r.header.m_uRecordSize = 0
      · simp only [if_pos hz]
      simp only [if_neg hz]
      cases handle1.Read (r.header.m_uRecordSize - 1) with
      | none => rfl
      | some p2 =>
        obtain ⟨record_data, handle2⟩ := p2
        simp only []
        by_cases hdel : delete_flag = [42]
        · simp only [if_pos hdel]
          exact ih f2 _ output output_idx (by simp only []; omega) (by simp only []; omega)
        · simp only [if_neg hdel]

theorem ReadNextRecordAux_ne_outOfFuel (host : Host) :
    ∀ (fuel : Nat) (r : DbfReader) (output : List Row) (output_idx : Nat),
      r.header.m_uNumRecords - r.current_record + 1 ≤ fuel →
      ReadNextRecordAux host fuel r output output_idx ≠ Except.error Fault.outOfFuel := by
  intro fuel
  induction fuel with
  | zero => intro r output output_idx h1; omega
  | succ fuel ih =>
    intro r output output_idx h1
    rw [ReadNextRecordAux]
    by_cases hge : r.current_record ≥ r.header.m_uNumRecords
    · rw [if_pos hge]
      exact fun h => (by cases h)
    rw [if_neg hge]
    cases (r.handle.Seek (r.header.m_uFirstRecordOffset
        + r.current_record * r.header.m_uRecordSize)).Read 1 with
    | none => exact fun h => (by cases h)
    | some p1 =>
      obtain ⟨delete_flag, handle1⟩ := p1
      simp only []
      by_cases hz : r.header.m_uRecordSize = 0
      · rw [if_pos hz]
        exact fun h => (by cases h)
      rw [if_neg hz]
      cases handle1.Read (r.header.m_uRecordSize - 1) with
      | none => exact fun h => (by cases h)
      | some p2 =>
        obtain ⟨record_data, handle2⟩ := p2
        simp only []
        by_cases hdel : delete_flag = [42]
        · rw [if_pos hdel]
          exact ih _ output output_idx (by simp only []; omega)
        · rw [if_neg hdel]
          cases hrow : decodeRow host r.fields record_data with
          | error e =>
            rcases decodeRow_error host r.fields record_data e hrow with ⟨he, -⟩ | he <;>
              subst he <;> exact fun h => (by cases h)
          | ok row => exact fun h => (by cases h)

theorem liveRecordsFrom_eq_nil_iff (data : List Nat) (header : DbfHeader) (c : Nat) :
    liveRecordsFrom data header c = [] ↔
      ∀ j, c ≤ j → j < header.m_uNumRecords → (recordSlot data header j).head? = some 42 := by
  unfold liveRecordsFrom
  rw [List.map_eq_nil_iff, List.filter_eq_nil_iff]
  constructor
  · intro h j hj1 hj2
    have := h (recordSlot data header j)
      (List.mem_map.mpr ⟨j, List.mem_range'_1.mpr ⟨hj1, by omega⟩, rfl⟩)
    simpa using this
  · intro h slot hslot
    obtain ⟨j, hj, rfl⟩ := List.mem_map.mp hslot
    obtain ⟨hj1, hj2⟩ := List.mem_range'_1.mp hj
    simp [h j hj1 (by omega)]

/-- C16: the skip of deleted records ends.  From every reader state the
recursion of `ReadNextRecord` fits in `record_count - current_record + 1` nested
calls (that budget is never exhausted and a larger one gives the same result):
a call at or past `record_count` returns false at once, and the recursive call
for a deleted record runs with `current_record + 1`.  The call returns false
only when every record from the cursor to `record_count - 1` is deleted, and
it does return false then when the file holds these records. -/
theorem C16_deleted_skip_terminates (host : Host) (r : DbfReader)
    (output : List Row) (output_idx : Nat) :
    DbfReader.ReadNextRecord host r output output_idx ≠ Except.error Fault.outOfFuel ∧
    (∀ fuel, r.header.m_uNumRecords - r.current_record + 1 ≤ fuel →
      ReadNextRecordAux host fuel r output output_idx
        = DbfReader.ReadNextRecord host r output output_idx) ∧
    (r.header.m_uNumRecords ≤ r.current_record →
      DbfReader.ReadNextRecord host r output output_idx
        = Except.ok (false, r, output, output_idx)) ∧
    (∀ fuel delete_flag handle1 record_data handle2,
      r.current_record < r.header.m_uNumRecords → r.header.m_uRecordSize ≠ 0 →
      (r.handle.Seek (r.header.m_uFirstRecordOffset
        + r.current_record * r.header.m_uRecordSize)).Read 1 = some (delete_flag, handle1) →
      handle1.Read (r.header.m_uRecordSize - 1) = some (record_data, handle2) →
      delete_flag = [42] →
      ReadNextRecordAux host (fuel + 1) r output output_idx
        = ReadNextRecordAux host fuel
            { r with handle := handle2, current_record := r.current_record + 1 }
            output output_idx ∧
      r.header.m_uNumRecords - (r.current_record + 1) + 1
        < r.header.m_uNumRecords - r.current_record + 1) ∧
    (∀ r1 output1 output_idx1,
      DbfReader.ReadNextRecord host r output output_idx
        = Except.ok (false, r1, output1, output_idx1) →
      ∀ j, r.current_record ≤ j → j < r.header.m_uNumRecords →
        (recordSlot r.handle.data r.header j).head? = some 42) ∧
    (1 ≤ r.header.m_uRecordSize →
      r.header.m_uFirstRecordOffset + r.header.m_uNumRecords * r.header.m_uRecordSize
        ≤ r.handle.data.length →
      (∀ j, r.current_record ≤ j → j < r.header.m_uNumRecords →
        (recordSlot r.handle.data r.header j).head? = some 42) →
      ∃ r1, DbfReader.ReadNextRecord host r output output_idx
        = Except.ok (false, r1, output, output_idx)) := by
  refine ⟨?_, fun fuel hfuel => ?_, fun hend => ReadNextRecord_at_end host r hend _ _,
    fun fuel delete_flag handle1 record_data handle2 hlt hz h1 h2 hdel => ⟨?_, by omega⟩,
    fun r1 output1 output_idx1 h => ?_, fun hsize hfile hall => ?_⟩
  · exact ReadNextRecordAux_ne_outOfFuel host _ r output output_idx (le_refl _)
  · exact ReadNextRecordAux_fuel host fuel _ r output output_idx hfuel (le_refl _)
  · rw [ReadNextRecordAux, if_neg (by omega), h1]
    simp only []
    rw [if_neg hz, h2]
    simp only []
    rw [if_pos hdel]
  · exact ((ReadNextRecordAux_inv host _ r output output_idx false r1 output1 output_idx1 h
      ).2.2.2.2.1 rfl).2.2.2.2
  · obtain ⟨r1, h1, -⟩ := (ReadNextRecordAux_spec host _ r output output_idx hsize hfile
      (le_refl _)).1 ((liveRecordsFrom_eq_nil_iff _ _ _).mpr hall)
    exact ⟨r1, h1⟩

/-- C16 on the sample file: from the deleted record 1 the call skips to record
2 and returns true; from the end it returns false. -/
theorem C16_deleted_skip_terminates_witness :
    DbfReader.ReadNextRecord sampleHost { sampleReader with current_record := 1 } [] 0
      ≠ Except.error Fault.outOfFuel ∧
    DbfReader.ReadNextRecord sampleHost { sampleReader with current_record := 1 } [] 0
      = Except.ok (true,
          { sampleReader with handle := { data := sampleFile, pos := 74 }, current_record := 3 },
          [[Value.VARCHAR [121, 111]]], 1) ∧
    DbfReader.ReadNextRecord sampleHost { sampleReader with current_record := 3 } [] 0
      = Except.ok (false, { sampleReader with current_record := 3 }, [], 0) :=
  ⟨(C16_deleted_skip_terminates sampleHost { sampleReader with current_record := 1 }
      [] 0).1,
   by decide,
   (C16_deleted_skip_terminates sampleHost { sampleReader with current_record := 3 }
      [] 0).2.2.1 (by decide)⟩

/-- C17: the scan cursor.  A call of `ReadNextRecord` that starts with
`current_record ≤ record_count` and returns leaves the header, the schema and
the file as they were and the cursor between its old value and `record_count`.
When it returns true, `output_idx` has grown by exactly 1, the cursor is just
past a live record, every record between the old cursor and that record is
deleted, and the row written at `output_idx` is the decoding of that record.
When it returns false, `output_idx` and the chunk are unchanged, the cursor
equals `record_count`, and every later call returns false without changing
anything. -/
theorem C17_scan_cursor_invariant (host : Host) (r r1 : DbfReader)
    (output output1 : List Row) (output_idx output_idx1 : Nat) (b : Bool)
    (hstart : r.current_record ≤ r.header.m_uNumRecords)
    (hcall : DbfReader.ReadNextRecord host r output output_idx
      = Except.ok (b, r1, output1, output_idx1)) :
    r1.header = r.header ∧ r1.fields = r.fields ∧ r1.handle.data = r.handle.data ∧
    r.current_record ≤ r1.current_record ∧ r1.current_record ≤ r.header.m_uNumRecords ∧
    (b = true →
      output_idx1 = output_idx + 1 ∧
      r.current_record < r1.current_record ∧
      (recordSlot r.handle.data r.header (r1.current_record - 1)).head? ≠ some 42 ∧
      (∀ j, r.current_record ≤ j → j + 1 < r1.current_record →
        (recordSlot r.handle.data r.header j).head? = some 42) ∧
      ∃ row, decodeRow host r.fields
          (recordSlot r.handle.data r.header (r1.current_record - 1)).tail = Except.ok row ∧
        output1 = setRow output output_idx row) ∧
    (b = false →
      output_idx1 = output_idx ∧ output1 = output ∧
      r1.current_record = r.header.m_uNumRecords ∧
      (∀ j, r.current_record ≤ j → j < r.header.m_uNumRecords →
        (recordSlot r.handle.data r.header j).head? = some 42) ∧
      ∀ output2 output_idx2, DbfReader.ReadNextRecord host r1 output2 output_idx2
        = Except.ok (false, r1, output2, output_idx2)) := by
  obtain ⟨g1, g2, g3, g4, gf, gt⟩ :=
    ReadNextRecordAux_inv host _ r output output_idx b r1 output1 output_idx1 hcall
  have hle : r1.current_record ≤ r.header.m_uNumRecords := by
    cases b with
    | false => exact le_of_eq ((gf rfl).2.2.2.1 hstart)
    | true => exact (gt rfl).2.2.1
  refine ⟨g1, g2, g3, g4, hle, fun hb => ?_, fun hb => ?_⟩
  · obtain ⟨t1, t2, t3, t4, t5, t6⟩ := gt hb
    exact ⟨t1, t2, t4, t5, t6⟩
  · obtain ⟨f1, f2, f3, f4, f5⟩ := gf hb
    exact ⟨f2, f1, f4 hstart, f5, fun output2 output_idx2 =>
      ReadNextRecord_at_end host r1 (by rw [g1]; exact f3) output2 output_idx2⟩

/-- C17 on the sample file: the call at the deleted record 1 returns true with
the cursor at 3 and `output_idx` 1; the call at 3 returns false and changes
nothing. -/
theorem C17_scan_cursor_invariant_witness :
    ((1 : Nat) ≤ sampleReader.header.m_uNumRecords) ∧
    DbfReader.ReadNextRecord sampleHost { sampleReader with current_record := 1 } [] 0
      = Except.ok (true,
          { sampleReader with handle := { data := sampleFile, pos := 74 }, current_record := 3 },
          [[Value.VARCHAR [121, 111]]], 1) ∧
    ((1 : Nat) ≤ 3 ∧ (3 : Nat) ≤ sampleReader.header.m_uNumRecords) ∧
    (∀ output2 output_idx2, DbfReader.ReadNextRecord sampleHost
        { sampleReader with current_record := 3 } output2 output_idx2
      = Except.ok (false, { sampleReader with current_record := 3 }, output2, output_idx2)) :=
  ⟨by decide, by decide,
   ⟨(C17_scan_cursor_invariant sampleHost { sampleReader with current_record := 1 }
      { sampleReader with handle := { data := sampleFile, pos := 74 }, current_record := 3 }
      [] [[Value.VARCHAR [121, 111]]] 0 1 true (by decide) (by decide)).2.2.2.1,
    (C17_scan_cursor_invariant sampleHost { sampleReader with current_record := 1 }
      { sampleReader with handle := { data := sampleFile, pos := 74 }, current_record := 3 }
      [] [[Value.VARCHAR [121, 111]]] 0 1 true (by decide) (by decide)).2.2.2.2.1⟩,
   ((C17_scan_cursor_invariant sampleHost { sampleReader with current_record := 3 }
      { sampleReader with current_record := 3 } [] [] 0 0 false (by decide) (by decide)
      ).2.2.2.2.2.2 rfl).2.2.2.2⟩

/-! ### Size of a batch -/

theorem ReadDbfFunction_cursor (host : Host) :
    ∀ (max_rows : Nat) (r r1 : DbfReader) (rows : List Row),
      ReadDbfFunction host max_rows r = Except.ok (r1, rows) →
      r1.header = r.header ∧ r.current_record ≤ r1.current_record ∧
      (r.current_record ≤ r.header.m_uNumRecords →
        r1.current_record ≤ r.header.m_uNumRecords) ∧
      rows.length ≤ max_rows := by
  intro max_rows
  induction max_rows with
  | zero =>
    intro r r1 rows h
    rw [ReadDbfFunction_zero] at h
    simp only [Except.ok.injEq, Prod.mk.injEq] at h
    obtain ⟨h1, h2⟩ := h
    subst h1 h2
    exact ⟨rfl, le_refl _, fun h => h, le_refl _⟩
  | succ n ih =>
    intro r r1 rows h
    rcases ReadNextRecord_cases host r with ⟨e, he⟩ | ⟨r2, hend, hf⟩ | ⟨r2, row, ht⟩
    · rw [ReadDbfFunction_succ_error host _ r e he] at h
      cases h
    · rw [ReadDbfFunction_succ_false host _ r r2 hf] at h
      simp only [Except.ok.injEq, Prod.mk.injEq] at h
      obtain ⟨h1, h2⟩ := h
      subst h1 h2
      obtain ⟨g1, -, -, g4, gf, -⟩ := ReadNextRecordAux_inv host _ r [] 0 false r2 [] 0 (hf [] 0)
      exact ⟨g1, g4, fun hle => le_of_eq ((gf rfl).2.2.2.1 hle), by simp⟩
    · rw [ReadDbfFunction_succ_true host _ r r2 row ht] at h
      obtain ⟨g1, -, -, g4, -, gt⟩ :=
        ReadNextRecordAux_inv host _ r [] 0 true r2 _ _ (ht [] 0)
      cases hq : ReadDbfFunction host n r2 with
      | error e =>
        rw [hq] at h
        cases h
      | ok p =>
        obtain ⟨r3, rows3⟩ := p
        rw [hq] at h
        simp only [Except.ok.injEq, Prod.mk.injEq] at h
        obtain ⟨h1, h2⟩ := h
        subst h1 h2
        obtain ⟨i1, i2, i3, i4⟩ := ih r2 r3 rows3 hq
        rw [g1] at i1 i3
        exact ⟨i1, by omega, fun _ => i3 (gt rfl).2.2.1, by simpa using i4⟩

theorem ReadDbfFunction_empty_iff (host : Host) (max_rows : Nat)
    (r r1 : DbfReader) (rows : List Row) (hpos : 0 < max_rows)
    (h : ReadDbfFunction host max_rows r = Except.ok (r1, rows)) :
    rows.length = 0 ↔
      ∀ j, r.current_record ≤ j → j < r.header.m_uNumRecords →
        (recordSlot r.handle.data r.header j).head? = some 42 := by
  obtain ⟨n, rfl⟩ : ∃ n, max_rows = n + 1 := ⟨max_rows - 1, by omega⟩
  rcases ReadNextRecord_cases host r with ⟨e, he⟩ | ⟨r2, hend, hf⟩ | ⟨r2, row, ht⟩
  · rw [ReadDbfFunction_succ_error host _ r e he] at h
    cases h
  · rw [ReadDbfFunction_succ_false host _ r r2 hf] at h
    simp only [Except.ok.injEq, Prod.mk.injEq] at h
    obtain ⟨h1, h2⟩ := h
    subst h1 h2
    obtain ⟨-, -, -, -, gf, -⟩ := ReadNextRecordAux_inv host _ r [] 0 false r2 [] 0 (hf [] 0)
    exact ⟨fun _ => (gf rfl).2.2.2.2, fun _ => rfl⟩
  · rw [ReadDbfFunction_succ_true host _ r r2 row ht] at h
    obtain ⟨-, -, -, -, -, gt⟩ := ReadNextRecordAux_inv host _ r [] 0 true r2 _ _ (ht [] 0)
    obtain ⟨-, t2, t3, t4, -, -⟩ := gt rfl
    cases hq : ReadDbfFunction host n r2 with
    | error e =>
      rw [hq] at h
      cases h
    | ok p =>
      obtain ⟨r3, rows3⟩ := p
      rw [hq] at h
      simp only [Except.ok.injEq, Prod.mk.injEq] at h
      obtain ⟨h1, h2⟩ := h
      subst h1 h2
      constructor
      · intro hlen
        simp at hlen
      · intro hall
        exact absurd (hall (r2.current_record - 1) (by omega) (by omega)) t4

/-- C13: a batch fill with a positive row limit that returns has written 0 rows
exactly when no record from the cursor to `record_count - 1` is live; when the
file holds its records and none of them is live from the cursor on, the fill
does return 0 rows; and with `record_count = 0` every fill returns 0 rows at
once, whatever the schema and the bytes of the file. -/
theorem C13_zero_rows_iff_no_live_record (host : Host) (max_rows : Nat)
    (r : DbfReader) :
    (∀ r1 rows, 0 < max_rows → ReadDbfFunction host max_rows r = Except.ok (r1, rows) →
      (rows.length = 0 ↔
        ∀ j, r.current_record ≤ j → j < r.header.m_uNumRecords →
          (recordSlot r.handle.data r.header j).head? = some 42)) ∧
    (1 ≤ r.header.m_uRecordSize →
      r.header.m_uFirstRecordOffset + r.header.m_uNumRecords * r.header.m_uRecordSize
        ≤ r.handle.data.length →
      (∀ j, r.current_record ≤ j → j < r.header.m_uNumRecords →
        (recordSlot r.handle.data r.header j).head? = some 42) →
      ∃ r1, ReadDbfFunction host max_rows r = Except.ok (r1, [])) ∧
    (r.header.m_uNumRecords = 0 → ReadDbfFunction host max_rows r = Except.ok (r, [])) := by
  refine ⟨fun r1 rows hpos h => ReadDbfFunction_empty_iff host max_rows r r1 rows hpos h,
    fun hsize hfile hall => ?_, fun h0 => ReadDbfFunction_at_end host r (by omega) max_rows⟩
  have hlive := (liveRecordsFrom_eq_nil_iff _ _ _).mpr hall
  obtain ⟨r1, h1, -⟩ := (ReadDbfFunction_spec host max_rows r hsize hfile).2 []
    (by rw [hlive, List.take_nil, List.mapM_nil]; rfl)
  exact ⟨r1, h1⟩

/-- C13 on the sample file: from record 1, which is deleted, a fill returns the
one live record left; from record 3 on there is none and the fill returns 0
rows; with `record_count = 0` it returns 0 rows on any bytes. -/
theorem C13_zero_rows_iff_no_live_record_witness :
    (ReadDbfFunction sampleHost 4 { sampleReader with current_record := 3 }
      = Except.ok ({ sampleReader with current_record := 3 }, [])) ∧
    (([] : List Row).length = 0 ↔
      ∀ j, 3 ≤ j → j < sampleReader.header.m_uNumRecords →
        (recordSlot sampleReader.handle.data sampleReader.header j).head? = some 42) ∧
    (ReadDbfFunction sampleHost 4
      { handle := { data := [1, 2, 3], pos := 0 }
        header := { m_uNumRecords := 0, m_uFirstRecordOffset := 65, m_uRecordSize := 3 }
        fields := sampleReader.fields
        current_record := 0 }
      = Except.ok ({ handle := { data := [1, 2, 3], pos := 0 }
                     header := { m_uNumRecords := 0, m_uFirstRecordOffset := 65,
                                 m_uRecordSize := 3 }
                     fields := sampleReader.fields
                     current_record := 0 }, [])) :=
  ⟨by decide,
   (C13_zero_rows_iff_no_live_record sampleHost 4
      { sampleReader with current_record := 3 }).1
      { sampleReader with current_record := 3 } [] (by decide) (by decide),
   (C13_zero_rows_iff_no_live_record sampleHost 4 _).2.2 rfl⟩

/-- C18: a batch fill that returns has written at most `max_rows` rows; if it
has written fewer, the scanner has signalled the end of the data: the cursor is
at `record_count` and every further call of `ReadNextRecord` returns false.  On
a file that holds its records the number of rows is the minimum of `max_rows`
and the number of live records from the cursor on, and the fill does return
when the footprints of the schema fit in a record and every CHARACTER field of
the live records that it decodes holds only spaces or a content that the host
accepts as a string. -/
theorem C18_batch_size (host : Host) (max_rows : Nat) (r : DbfReader) :
    (∀ r1 rows, ReadDbfFunction host max_rows r = Except.ok (r1, rows) →
      rows.length ≤ max_rows ∧
      (rows.length < max_rows →
        r.header.m_uNumRecords ≤ r1.current_record ∧
        (r.current_record ≤ r.header.m_uNumRecords →
          r1.current_record = r.header.m_uNumRecords) ∧
        ∀ output output_idx, DbfReader.ReadNextRecord host r1 output output_idx
          = Except.ok (false, r1, output, output_idx))) ∧
    (1 ≤ r.header.m_uRecordSize →
      r.header.m_uFirstRecordOffset + r.header.m_uNumRecords * r.header.m_uRecordSize
        ≤ r.handle.data.length →
      (∀ r1 rows, ReadDbfFunction host max_rows r = Except.ok (r1, rows) →
        rows.length
          = min max_rows (liveRecordsFrom r.handle.data r.header r.current_record).length) ∧
      ((r.fields.map footprint).sum ≤ r.header.m_uRecordSize - 1 →
        (∀ record ∈ (liveRecordsFrom r.handle.data r.header r.current_record).take max_rows,
          stringsAccepted host r.fields record 0 = true) →
        ∃ r1 rows, ReadDbfFunction host max_rows r = Except.ok (r1, rows) ∧
          rows.length
            = min max_rows (liveRecordsFrom r.handle.data r.header r.current_record).length))
    := by
  refine ⟨fun r1 rows h => ?_, fun hsize hfile => ?_⟩
  · obtain ⟨c1, c2, c3, c4⟩ := ReadDbfFunction_cursor host max_rows r r1 rows h
    refine ⟨c4, fun hlt => ?_⟩
    have hend := ReadDbfFunction_exhausted host max_rows r r1 rows h hlt
    rw [c1] at hend
    exact ⟨hend, fun hle => le_antisymm (c3 hle) hend,
      fun output output_idx => ReadNextRecord_at_end host r1 (by rw [c1]; exact hend) _ _⟩
  · have hspec := ReadDbfFunction_spec host max_rows r hsize hfile
    have hlen : ∀ r1 rows, ReadDbfFunction host max_rows r = Except.ok (r1, rows) →
        rows.length
          = min max_rows (liveRecordsFrom r.handle.data r.header r.current_record).length := by
      intro r1 rows h
      cases hm : ((liveRecordsFrom r.handle.data r.header r.current_record).take max_rows).mapM
          (decodeRow host r.fields) with
      | error e =>
        rw [hspec.1 e hm] at h
        cases h
      | ok rows0 =>
        obtain ⟨r2, h2, -⟩ := hspec.2 rows0 hm
        rw [h2] at h
        simp only [Except.ok.injEq, Prod.mk.injEq] at h
        rw [← h.2, mapM_ok_length _ _ _ hm, List.length_take]
    refine ⟨hlen, fun hfit hacc => ?_⟩
    have hok : ∃ rows, ((liveRecordsFrom r.handle.data r.header r.current_record).take
        max_rows).mapM (decodeRow host r.fields) = Except.ok rows := by
      apply mapM_ok_of_forall
      intro record hrec
      apply decodeRow_ok_of_fit
      · rw [liveRecordsFrom_length r.handle.data r.header hfile r.current_record record
          (List.mem_of_mem_take hrec)]
        exact hfit
      · exact hacc record hrec
    obtain ⟨rows, hrows⟩ := hok
    obtain ⟨r1, h1, -⟩ := hspec.2 rows hrows
    exact ⟨r1, rows, h1, hlen r1 rows h1⟩

/-- C18 on the sample file, which has 2 live records: a fill of limit 1 returns
1 row, a fill of limit 5 returns 2 rows and leaves the cursor at
`record_count`. -/
theorem C18_batch_size_witness :
    (ReadDbfFunction sampleHost 5 sampleReader
      = Except.ok ({ sampleReader with handle := { data := sampleFile, pos := 74 },
                                       current_record := 3 },
          [[Value.VARCHAR [104, 105]], [Value.VARCHAR [121, 111]]])) ∧
    ([[Value.VARCHAR [104, 105]], [Value.VARCHAR [121, 111]]].length ≤ 5 ∧
      ([[Value.VARCHAR [104, 105]], [Value.VARCHAR [121, 111]]].length < 5 →
        sampleReader.header.m_uNumRecords ≤ 3 ∧
        (sampleReader.current_record ≤ sampleReader.header.m_uNumRecords →
          3 = sampleReader.header.m_uNumRecords) ∧
        ∀ output output_idx, DbfReader.ReadNextRecord sampleHost
            { sampleReader with handle := { data := sampleFile, pos := 74 },
                                current_record := 3 } output output_idx
          = Except.ok (false,
              { sampleReader with handle := { data := sampleFile, pos := 74 },
                                  current_record := 3 }, output, output_idx))) ∧
    (∃ r1 rows, ReadDbfFunction sampleHost 1 sampleReader = Except.ok (r1, rows) ∧
      rows.length = min 1 (liveRecordsFrom sampleReader.handle.data sampleReader.header
        sampleReader.current_record).length) :=
  ⟨by decide,
   (C18_batch_size sampleHost 5 sampleReader).1
      { sampleReader with handle := { data := sampleFile, pos := 74 }, current_record := 3 }
      [[Value.VARCHAR [104, 105]], [Value.VARCHAR [121, 111]]] (by decide),
   ((C18_batch_size sampleHost 1 sampleReader).2 (by decide) (by decide)).2 (by decide)
      (by decide)⟩

/-! ### The schema read by `ReadHeader` -/

theorem parseField_eq (field_buf : List Nat) : parseField field_buf = descriptorField field_buf := by
  unfold parseField descriptorField substr
  rw [List.drop_zero]

theorem readFields_spec (data : List Nat) (bound : Nat) :
    ∀ (n fuel k0 : Nat) (h : FileHandle) (acc : List DbfField),
      h.data = data → h.pos = 32 + 32 * k0 →
      bound ≤ 32 + 32 * (k0 + n) → (n = 0 ∨ 32 + 32 * (k0 + n - 1) < bound) →
      (∀ h1 fs, readFields fuel h bound (32 + 32 * k0) acc = Except.ok (h1, fs) →
        fs = acc ++ (((List.range' k0 n).map (descriptorAt data)).takeWhile
          (fun descriptor => !isTerminator descriptor)).map descriptorField) ∧
      (32 + 32 * (k0 + n) ≤ data.length → n + 1 ≤ fuel →
        ∃ h1, readFields fuel h bound (32 + 32 * k0) acc
          = Except.ok (h1, acc ++ (((List.range' k0 n).map (descriptorAt data)).takeWhile
              (fun descriptor => !isTerminator descriptor)).map descriptorField)) := by
  intro n
  induction n with
  | zero =>
    intro fuel k0 h acc _ _ hb _
    cases fuel with
    | zero =>
      refine ⟨fun h1 fs hr => ?_, fun _ hf => by omega⟩
      rw [readFields] at hr
      cases hr
    | succ f =>
      rw [readFields, if_neg (by omega)]
      refine ⟨fun h1 fs hr => ?_, fun _ _ => ⟨h, by simp⟩⟩
      simp only [Except.ok.injEq, Prod.mk.injEq] at hr
      rw [← hr.2]
      simp
  | succ n ih =>
    intro fuel k0 h acc hdata hpos hb hlast
    have hlt : 32 + 32 * k0 < bound := by omega
    cases fuel with
    | zero =>
      refine ⟨fun h1 fs hr => ?_, fun _ hf => by omega⟩
      rw [readFields] at hr
      cases hr
    | succ f =>
      rw [readFields, if_pos hlt]
      cases hread : h.Read 32 with
      | none =>
        refine ⟨fun h1 fs hr => (by cases hr), fun hfile _ => ?_⟩
        rw [FileHandle.Read_of_le h 32 (by rw [hdata, hpos]; omega)] at hread
        cases hread
      | some p =>
        obtain ⟨field_buf, handle1⟩ := p
        obtain ⟨-, hbuf, hh1⟩ := FileHandle.Read_eq_some h handle1 32 field_buf hread
        rw [hdata, hpos] at hbuf
        have hdesc : field_buf = descriptorAt data k0 := hbuf
        have hdata1 : handle1.data = data := by rw [hh1]; exact hdata
        have hpos1 : handle1.pos = 32 + 32 * (k0 + 1) := by rw [hh1]; simp only []; omega
        simp only []
        rw [List.range'_succ, List.map_cons, List.takeWhile_cons]
        by_cases hterm : field_buf.getD 0 0 = 13 ∨ field_buf.getD 0 0 = 26
        · have hT : isTerminator (descriptorAt data k0) = true := by
            rw [← hdesc]
            unfold isTerminator
            simpa using hterm
          rw [if_pos hterm, hT]
          refine ⟨fun h1 fs hr => ?_, fun _ _ => ⟨handle1, by simp⟩⟩
          simp only [Except.ok.injEq, Prod.mk.injEq] at hr
          rw [← hr.2]
          simp
        · have hT : isTerminator (descriptorAt data k0) = false := by
            rw [← hdesc]
            unfold isTerminator
            simpa using hterm
          rw [if_neg hterm, hT]
          have hih := ih f (k0 + 1) handle1 (acc ++ [parseField field_buf]) hdata1 hpos1
            (by omega) (by omega)
          rw [show 32 + 32 * (k0 + 1) = 32 + 32 * k0 + 32 by omega] at hih
          rw [parseField_eq, hdesc] at hih ⊢
          simp only [Bool.not_false, if_true, List.map_cons, List.append_assoc,
            List.singleton_append] at hih ⊢
          exact ⟨hih.1, fun hfile hf => hih.2 (by omega) (by omega)⟩

theorem getElem?_takeWhile {α : Type} (p : α → Bool) :
    ∀ (l : List α) (k : Nat) (x : α), (l.takeWhile p)[k]? = some x →
      l[k]? = some x ∧ p x = true
  | [], k, x, h => by simp at h
  | a :: l, k, x, h => by
    rw [List.takeWhile_cons] at h
    by_cases hp : p a = true
    · rw [if_pos hp] at h
      cases k with
      | zero =>
        simp only [List.getElem?_cons_zero, Option.some.injEq] at h ⊢
        exact ⟨h, by rw [← h]; exact hp⟩
      | succ k =>
        simp only [List.getElem?_cons_succ] at h ⊢
        exact getElem?_takeWhile p l k x h
    · rw [if_neg hp] at h
      simp at h

theorem Open_spec (file : List Nat) (hlen : 32 ≤ file.length)
    (hfro : 1 ≤ (parseHeader (substr file 0 32)).m_uFirstRecordOffset) :
    (∀ r, DbfReader.Open file = Except.ok r →
      r.header = parseHeader (substr file 0 32) ∧
      r.fields = schemaOf file (parseHeader (substr file 0 32)).m_uFirstRecordOffset ∧
      r.current_record = 0) ∧
    (32 + 32 * descriptorCount (parseHeader (substr file 0 32)).m_uFirstRecordOffset
        ≤ file.length →
      ∃ r, DbfReader.Open file = Except.ok r ∧
        r.header = parseHeader (substr file 0 32) ∧
        r.fields = schemaOf file (parseHeader (substr file 0 32)).m_uFirstRecordOffset) := by
  have hbound : fieldTableBound (parseHeader (substr file 0 32))
      = (parseHeader (substr file 0 32)).m_uFirstRecordOffset - 1 := by
    unfold fieldTableBound
    rw [if_neg (by omega)]
  have hspec := readFields_spec file
    ((parseHeader (substr file 0 32)).m_uFirstRecordOffset - 1)
    (descriptorCount (parseHeader (substr file 0 32)).m_uFirstRecordOffset)
    (file.length + 1) 0 { data := file, pos := 32 } [] rfl rfl
    (by unfold descriptorCount; omega) (by unfold descriptorCount; omega)
  rw [← List.range_eq_range', List.nil_append] at hspec
  unfold DbfReader.Open DbfReader.ReadHeader
  rw [FileHandle.Read_of_le _ 32 (by simp only []; omega)]
  simp only [hbound, Nat.zero_add]
  constructor
  · intro r hr
    cases hrf : readFields (file.length + 1) { data := file, pos := 32 }
        ((parseHeader (substr file 0 32)).m_uFirstRecordOffset - 1) 32 [] with
    | error e =>
      rw [hrf] at hr
      cases hr
    | ok p =>
      obtain ⟨handle2, fields⟩ := p
      rw [hrf] at hr
      simp only [Except.ok.injEq] at hr
      have hfs := hspec.1 handle2 fields hrf
      rw [← hr]
      exact ⟨rfl, hfs, rfl⟩
  · intro hfile
    obtain ⟨h1, hrf⟩ := hspec.2 (by omega) (by omega)
    have hrf2 : readFields (file.length + 1) { data := file, pos := 32 }
        ((parseHeader (substr file 0 32)).m_uFirstRecordOffset - 1) 32 []
        = Except.ok (h1, schemaOf file (parseHeader (substr file 0 32)).m_uFirstRecordOffset) :=
      hrf
    rw [hrf2]
    exact ⟨_, rfl, rfl, rfl⟩

/-- C11: for a file of at least 32 bytes whose header has
`first_record_offset ≥ 32`, every schema that `Open` returns is, in file order,
the fields of the 32-byte descriptors at offsets 32, 64, 96, ... below
`first_record_offset - 1` that precede the first terminator descriptor; `Open`
does return it when the file holds these descriptor slots.  A field of the
schema is never a terminator descriptor, and has the name, type, length and
decimal count that the bytes 0-10, 11, 16 and 17 of its descriptor give. -/
theorem C11_schema_is_descriptors_before_terminator (file : List Nat)
    (hlen : 32 ≤ file.length)
    (hfro : 32 ≤ (parseHeader (substr file 0 32)).m_uFirstRecordOffset) :
    (∀ r, DbfReader.Open file = Except.ok r →
      r.fields = schemaOf file (parseHeader (substr file 0 32)).m_uFirstRecordOffset) ∧
    (32 + 32 * descriptorCount (parseHeader (substr file 0 32)).m_uFirstRecordOffset
        ≤ file.length →
      ∃ r, DbfReader.Open file = Except.ok r ∧
        r.fields = schemaOf file (parseHeader (substr file 0 32)).m_uFirstRecordOffset) ∧
    (∀ k, k < descriptorCount (parseHeader (substr file 0 32)).m_uFirstRecordOffset ↔
      32 + 32 * k < (parseHeader (substr file 0 32)).m_uFirstRecordOffset - 1) ∧
    (∀ k f, (schemaOf file (parseHeader (substr file 0 32)).m_uFirstRecordOffset)[k]? = some f →
      k < descriptorCount (parseHeader (substr file 0 32)).m_uFirstRecordOffset ∧
      isTerminator (descriptorAt file k) = false ∧
      f.name = ((descriptorAt file k).take 11).takeWhile (fun b => b != 0) ∧
      f.type = (descriptorAt file k).getD 11 0 ∧
      f.length = (descriptorAt file k).getD 16 0 ∧
      f.decimal_count = (descriptorAt file k).getD 17 0) := by
  have hopen := Open_spec file hlen (by omega)
  refine ⟨fun r hr => (hopen.1 r hr).2.1, fun hfile => ?_, fun k => ?_, fun k f hk => ?_⟩
  · obtain ⟨r, h1, -, h3⟩ := hopen.2 hfile
    exact ⟨r, h1, h3⟩
  · unfold descriptorCount
    omega
  · unfold schemaOf at hk
    rw [List.getElem?_map] at hk
    cases hd : (List.takeWhile (fun descriptor => !isTerminator descriptor)
        (List.map (descriptorAt file) (List.range (descriptorCount
          (parseHeader (substr file 0 32)).m_uFirstRecordOffset))))[k]? with
    | none =>
      rw [hd] at hk
      cases hk
    | some d =>
      rw [hd] at hk
      simp only [Option.map_some', Option.some.injEq] at hk
      obtain ⟨hget, hnt⟩ := getElem?_takeWhile _ _ k d hd
      rw [List.getElem?_map] at hget
      cases hr : (List.range (descriptorCount
          (parseHeader (substr file 0 32)).m_uFirstRecordOffset))[k]? with
      | none =>
        rw [hr] at hget
        cases hget
      | some i =>
        rw [hr] at hget
        simp only [Option.map_some', Option.some.injEq] at hget
        have hklt : k < (List.range (descriptorCount
            (parseHeader (substr file 0 32)).m_uFirstRecordOffset)).length := by
          by_contra hge
          rw [List.getElem?_eq_none (by omega)] at hr
          cases hr
        rw [List.getElem?_eq_getElem hklt, List.getElem_range] at hr
        simp only [Option.some.injEq] at hr
        rw [List.length_range] at hklt
        subst hr
        rw [hget, ← hk]
        refine ⟨hklt, by simpa using hnt, rfl, rfl, rfl, rfl⟩

/-- C11 on the sample file: the schema is the one descriptor at offset 32; the
terminator byte at offset 64 is not below `first_record_offset - 1 = 64`. -/
theorem C11_schema_is_descriptors_before_terminator_witness :
    (32 ≤ sampleFile.length) ∧
    (32 ≤ (parseHeader (substr sampleFile 0 32)).m_uFirstRecordOffset) ∧
    (∃ r, DbfReader.Open sampleFile = Except.ok r ∧
      r.fields = schemaOf sampleFile (parseHeader (substr sampleFile 0 32)).m_uFirstRecordOffset) ∧
    schemaOf sampleFile (parseHeader (substr sampleFile 0 32)).m_uFirstRecordOffset
      = [{ name := [65], type := DbfType.CHARACTER, length := 2, decimal_count := 0 }] :=
  ⟨by decide, by decide,
   (C11_schema_is_descriptors_before_terminator sampleFile (by decide) (by decide)).2.1
     (by decide),
   by decide⟩

theorem takeWhile_of_forall {α : Type} (p : α → Bool) :
    ∀ (l : List α), (∀ a ∈ l, p a = true) → l.takeWhile p = l
  | [], _ => rfl
  | a :: l, h => by
    rw [List.takeWhile_cons, if_pos (h a (List.mem_cons_self _ _)),
      takeWhile_of_forall p l (fun x hx => h x (List.mem_cons_of_mem _ hx))]

/-- C12 (as amended): `Open` does not fail when the descriptor table has no
terminator.  For every file of at least 32 bytes that holds its descriptor
slots and in which no descriptor starting at an offset in
`[32, first_record_offset - 1)` begins with 0x0D or 0x1A, `Open` succeeds and
returns all these descriptors as the schema.  A source shorter than 32 bytes
makes the first read, and so `Open`, fail. -/
theorem C12_unterminated_table_is_accepted (file : List Nat) :
    (32 ≤ file.length →
      1 ≤ (parseHeader (substr file 0 32)).m_uFirstRecordOffset →
      32 + 32 * descriptorCount (parseHeader (substr file 0 32)).m_uFirstRecordOffset
        ≤ file.length →
      (∀ k, k < descriptorCount (parseHeader (substr file 0 32)).m_uFirstRecordOffset →
        isTerminator (descriptorAt file k) = false) →
      ∃ r, DbfReader.Open file = Except.ok r ∧
        r.header = parseHeader (substr file 0 32) ∧
        r.fields = ((List.range (descriptorCount
          (parseHeader (substr file 0 32)).m_uFirstRecordOffset)).map
            (descriptorAt file)).map descriptorField ∧
        r.fields.length
          = descriptorCount (parseHeader (substr file 0 32)).m_uFirstRecordOffset) ∧
    (file.length < 32 → DbfReader.Open file = Except.error Fault.shortRead) := by
  constructor
  · intro hlen hfro hfile hnt
    obtain ⟨r, h1, h2, h3⟩ := (Open_spec file hlen hfro).2 hfile
    have hs : schemaOf file (parseHeader (substr file 0 32)).m_uFirstRecordOffset
        = ((List.range (descriptorCount
          (parseHeader (substr file 0 32)).m_uFirstRecordOffset)).map
            (descriptorAt file)).map descriptorField := by
      unfold schemaOf
      rw [takeWhile_of_forall]
      intro d hd
      obtain ⟨k, hk, rfl⟩ := List.mem_map.mp hd
      rw [hnt k (List.mem_range.mp hk)]
      rfl
    refine ⟨r, h1, h2, by rw [h3, hs], ?_⟩
    rw [h3, hs]
    simp
  · intro hshort
    unfold DbfReader.Open DbfReader.ReadHeader FileHandle.Read
    simp only [Nat.zero_add]
    rw [if_neg (by omega)]

/-- C12 on the sample file, whose one descriptor below offset 64 is not a
terminator: `Open` returns the reader with that descriptor as its schema. -/
theorem C12_unterminated_table_is_accepted_witness :
    (32 ≤ sampleFile.length) ∧
    (∀ k, k < descriptorCount (parseHeader (substr sampleFile 0 32)).m_uFirstRecordOffset →
      isTerminator (descriptorAt sampleFile k) = false) ∧
    (∃ r, DbfReader.Open sampleFile = Except.ok r ∧
      r.header = parseHeader (substr sampleFile 0 32) ∧
      r.fields = ((List.range (descriptorCount
        (parseHeader (substr sampleFile 0 32)).m_uFirstRecordOffset)).map
          (descriptorAt sampleFile)).map descriptorField ∧
      r.fields.length
        = descriptorCount (parseHeader (substr sampleFile 0 32)).m_uFirstRecordOffset) ∧
    DbfReader.Open [3, 0, 0] = Except.error Fault.shortRead :=
  ⟨by decide, by decide,
   (C12_unterminated_table_is_accepted sampleFile).1 (by decide) (by decide) (by decide)
     (by decide),
   (C12_unterminated_table_is_accepted [3, 0, 0]).2 (by decide)⟩

/-- C12 fails as stated: in the sample file no descriptor starting in
`[32, first_record_offset - 1) = [32, 64)` begins with 0x0D or 0x1A, and `Open`
returns a reader with a schema instead of reporting a failure. -/
theorem C12_counterexample_sample_file_opens :
    (parseHeader (substr sampleFile 0 32)).m_uFirstRecordOffset = 65 ∧
    descriptorCount 65 = 1 ∧
    isTerminator (descriptorAt sampleFile 0) = false ∧
    DbfReader.Open sampleFile = Except.ok sampleReader ∧
    sampleReader.fields
      = [{ name := [65], type := DbfType.CHARACTER, length := 2, decimal_count := 0 }] := by
  decide

end Dbf
